import Mathlib

/-!
# The assembly calendar, the today page, the archive and the stage editor

Shallow embedding of the pages under `src/md.web/src/pages`: the calendar grid, the task
bucketing, the drag and drop and the period buttons of `MontajTakvim.jsx`, the handlers and
controls of `MontajBugun.jsx`, the handlers, the listing and the size format of `Arsiv.jsx`,
and the assembly-stage editor of `Ayarlar.jsx`.

The page works on JavaScript `Date` objects.  A `Date` is modelled by its time value, an
integer number of milliseconds since 1970-01-01T00:00:00Z, and the built-in operations the page
calls are modelled after the abstract operations of ECMA-262 (section "Date Objects"):
`Day`, `TimeWithinDay`, `DayFromYear`, `YearFromTime`, `MonthFromTime`, `DateFromTime`,
`WeekDay`, `LocalTime`, `UTC`, `MakeDay`, `MakeDate`, the `Date (year, month, date)`
constructor (with its legacy mapping of the years 0..99 to 1900..1999), `setDate`, `setMonth`,
`toISOString` and the date-only form of `Date.parse`.

Modelling conventions:
* the local time zone is a fixed offset `tza` (milliseconds east of UTC), so daylight-saving
  transitions are not modelled;
* time values are unbounded integers: `TimeClip`, which turns a time value more than 8.64e15 ms
  away from the epoch into an invalid date, is not modelled, so the statements are about
  reference dates whose grid lies inside that range;
* months and weekdays are numbered as in JavaScript: January is 0, Sunday is 0;
* numbers are whole numbers: the one floating-point computation the pages make on them, the
  quotient of two logarithms in `formatFileSize`, is taken as exact.
-/

namespace JSDate

/-! ## ECMA-262 day and year arithmetic -/

def msPerDay : Int := 86400000

def Day (t : Int) : Int := t / msPerDay

def TimeWithinDay (t : Int) : Int := t % msPerDay

def DaysInYear (y : Int) : Int :=
  if y % 4 ≠ 0 then 365
  else if y % 100 ≠ 0 then 366
  else if y % 400 ≠ 0 then 365
  else 366

def DayFromYear (y : Int) : Int :=
  365 * (y - 1970) + (y - 1969) / 4 - (y - 1901) / 100 + (y - 1601) / 400

/-- The year containing day number `d`: ECMA-262 defines it as the largest `y` with
`DayFromYear y ≤ d`; it is computed here from an estimate that is off by at most one
(`YearFromDay_spec` and `YearFromDay_unique` show that it is that largest `y`). -/
def YearFromDay (d : Int) : Int :=
  let y := 1970 + (400 * d) / 146097
  if DayFromYear (y + 1) ≤ d then y + 1
  else if DayFromYear y ≤ d then y
  else y - 1

def InLeapYear (y : Int) : Int := if DaysInYear y = 366 then 1 else 0

def DayWithinYear (d : Int) : Int := d - DayFromYear (YearFromDay d)

/-- The month table of `MonthFromTime`, on the day within the year `w` and the leap flag `l`. -/
def monthOf (w l : Int) : Int :=
  if w < 31 then 0
  else if w < 59 + l then 1
  else if w < 90 + l then 2
  else if w < 120 + l then 3
  else if w < 151 + l then 4
  else if w < 181 + l then 5
  else if w < 212 + l then 6
  else if w < 243 + l then 7
  else if w < 273 + l then 8
  else if w < 304 + l then 9
  else if w < 334 + l then 10
  else 11

/-- Day within the year on which month `mn` starts (the offsets of the `DateFromTime` table). -/
def monthStart (mn l : Int) : Int :=
  if mn = 0 then 0
  else if mn = 1 then 31
  else if mn = 2 then 59 + l
  else if mn = 3 then 90 + l
  else if mn = 4 then 120 + l
  else if mn = 5 then 151 + l
  else if mn = 6 then 181 + l
  else if mn = 7 then 212 + l
  else if mn = 8 then 243 + l
  else if mn = 9 then 273 + l
  else if mn = 10 then 304 + l
  else 334 + l

def MonthFromDay (d : Int) : Int := monthOf (DayWithinYear d) (InLeapYear (YearFromDay d))

def DateFromDay (d : Int) : Int :=
  DayWithinYear d - monthStart (MonthFromDay d) (InLeapYear (YearFromDay d)) + 1

def YearFromTime (t : Int) : Int := YearFromDay (Day t)

def MonthFromTime (t : Int) : Int := MonthFromDay (Day t)

def DateFromTime (t : Int) : Int := DateFromDay (Day t)

def WeekDay (t : Int) : Int := (Day t + 4) % 7

def LocalTime (tza t : Int) : Int := t + tza

def UTC (tza t : Int) : Int := t - tza

/-- ECMA-262 `MakeDay`: the month may lie outside 0..11 and the date outside the month; both
are carried over. -/
def MakeDay (year month date : Int) : Int :=
  let ym := year + month / 12
  let mn := month % 12
  DayFromYear ym + monthStart mn (InLeapYear ym) + date - 1

def MakeDate (day time : Int) : Int := day * msPerDay + time

/-- Number of days of month `m` (0..11) of year `y`. -/
def DaysInMonth (y m : Int) : Int :=
  if m = 1 then 28 + InLeapYear y
  else if m = 3 ∨ m = 5 ∨ m = 8 ∨ m = 10 then 30
  else 31

/-! ## The `Date` methods the page calls -/

/-- Legacy two-digit years of the `Date` constructor: a year in 0..99 means 1900 + year. -/
def MakeFullYear (year : Int) : Int :=
  if 0 ≤ year ∧ year ≤ 99 then 1900 + year else year

/-- The time value of `new Date(year, month, date)`: local midnight of the given day. -/
def newDate (tza year month date : Int) : Int :=
  UTC tza (MakeDate (MakeDay (MakeFullYear year) month date) 0)

def getFullYear (tza t : Int) : Int := YearFromTime (LocalTime tza t)

def getMonth (tza t : Int) : Int := MonthFromTime (LocalTime tza t)

def getDate (tza t : Int) : Int := DateFromTime (LocalTime tza t)

def getDay (tza t : Int) : Int := WeekDay (LocalTime tza t)

/-- The time value after `d.setDate(dt)` on a date of time value `t`. -/
def setDate (tza t dt : Int) : Int :=
  let lt := LocalTime tza t
  UTC tza (MakeDate (MakeDay (YearFromTime lt) (MonthFromTime lt) dt) (TimeWithinDay lt))

end JSDate

namespace MontajTakvim

open JSDate

/-! ## The calendar grid (`calendarDays`, lines 59-102) -/

/-- One cell of the grid: `{ date, isCurrentMonth }`, the date given by its time value. -/
structure CalendarDay where
  date : Int
  isCurrentMonth : Bool
  deriving DecidableEq, Repr

/-- Monday-first position of a weekday, as computed on lines 66 and 91:
`d.getDay() === 0 ? 6 : d.getDay() - 1`. -/
def mondayIndex (tza d : Int) : Int :=
  if getDay tza d = 0 then 6 else getDay tza d - 1

/-- The `calendarDays` memo.  The three `for` loops of the month branch push, in this order,
the entries for `i = startDay - 1, ..., 0`, for `i = 1, ..., lastDay.getDate()` and for
`i = 1, ..., remaining`; a loop whose bound is not positive pushes nothing.  Every view mode
other than `'month'` takes the weekly branch. -/
def calendarDays (tza currentDate : Int) (viewMode : String) : List CalendarDay :=
  let year := getFullYear tza currentDate
  let month := getMonth tza currentDate
  if viewMode = "month" then
    let firstDay := newDate tza year month 1
    let lastDay := newDate tza year (month + 1) 0
    let startDay := mondayIndex tza firstDay
    let days₁ : List CalendarDay := (List.range startDay.toNat).reverse.map
      fun (i : Nat) => CalendarDay.mk (newDate tza year month (-(i : Int))) false
    let days₂ : List CalendarDay := days₁ ++ (List.range (getDate tza lastDay).toNat).map
      fun (i : Nat) => CalendarDay.mk (newDate tza year month ((i : Int) + 1)) true
    let remaining : Int := 42 - (days₂.length : Int)
    days₂ ++ (List.range remaining.toNat).map
      fun (i : Nat) => CalendarDay.mk (newDate tza year (month + 1) ((i : Int) + 1)) false
  else
    let day := mondayIndex tza currentDate
    let startOfWeek := setDate tza currentDate (getDate tza currentDate - day)
    (List.range 7).map
      fun (i : Nat) =>
        CalendarDay.mk (setDate tza startOfWeek (getDate tza startOfWeek + (i : Int))) true

/-- The `firstDay` of line 64: `new Date(year, month, 1)` for the reference date. -/
def firstDay (tza currentDate : Int) : Int :=
  newDate tza (getFullYear tza currentDate) (getMonth tza currentDate) 1

/-- Entry `j` of the month grid in closed form (used in the proofs): `F` is the time value of
`firstDay`, `s` the number of leading entries and `n` the number of days of the month. -/
def monthCell (F : Int) (s n j : Nat) : CalendarDay :=
  { date := F + ((j : Int) - (s : Int)) * msPerDay, isCurrentMonth := decide (s ≤ j ∧ j < s + n) }

/-! ## Task bucketing (`tasksByDate`, lines 105-118) and the unplanned list (lines 362-365) -/

/-- The fields of an assembly task that the calendar page reads.  A field that is `undefined`
or `null` in the JavaScript object is `none`. -/
structure Task where
  id : Nat
  plannedDate : Option String := none
  teamId : Option String := none
  status : Option String := none
  estimatedDate : Option String := none
  deriving DecidableEq, Repr

/-- JavaScript truthiness of an optional string: `undefined`, `null` and `''` are falsy. -/
def truthy : Option String → Bool
  | none => false
  | some s => decide (s ≠ "")

/-- The value of `s.slice(0, 10)`: the first ten characters (code points here, UTF-16 code units
in JavaScript; the two agree on date strings). -/
def slice10 (s : String) : String := String.mk (s.data.take 10)

/-- The value of `task.plannedDate.slice(0, 10)` on line 112 (reached only when the planned
date is truthy). -/
def dateKey (task : Task) : String :=
  match task.plannedDate with
  | some s => slice10 s
  | none => ""

/-- The object `map` of `tasksByDate`: its own properties in insertion order, each date key
with its array of tasks.  Properties inherited from `Object.prototype` are not modelled: no
calendar date is the name of one. -/
abbrev DateMap := List (String × List Task)

/-- Property read `map[k]`: `none` stands for `undefined`. -/
def DateMap.get : DateMap → String → Option (List Task)
  | [], _ => none
  | (k', b) :: rest, k => if k' = k then some b else DateMap.get rest k

/-- Property write `map[k] = v`: an existing key keeps its place, a new key is added last. -/
def DateMap.set : DateMap → String → List Task → DateMap
  | [], k, v => [(k, v)]
  | (k', b) :: rest, k, v => if k' = k then (k', v) :: rest else (k', b) :: DateMap.set rest k v

/-- One iteration of the loop of lines 108-115. -/
def bucketStep (teamFilter : String) (map : DateMap) (task : Task) : DateMap :=
  if !truthy task.plannedDate then map
  else if teamFilter ≠ "" ∧ task.teamId ≠ some teamFilter then map
  else
    let dateKey := dateKey task
    let map₁ := if (map.get dateKey).isNone then map.set dateKey [] else map
    map₁.set dateKey ((map₁.get dateKey).getD [] ++ [task])

/-- The `tasksByDate` memo. -/
def tasksByDate (tasks : List Task) (teamFilter : String) : DateMap :=
  tasks.foldl (bucketStep teamFilter) []

/-- The list rendered under "Planlanmamış Görevler" (lines 362-365). -/
def unplannedList (tasks : List Task) (teamFilter : String) : List Task :=
  ((tasks.filter fun t => !truthy t.plannedDate && decide (t.status ≠ some "completed")).filter
    fun t => decide (teamFilter = "") || decide (t.teamId = some teamFilter)).take 20

/-- The sum of the sizes of all buckets of a map. -/
def bucketSizes (map : DateMap) : Nat := (map.map fun p => p.2.length).sum

/-- The bucket of date key `k` as the specification words it: the tasks, in arrival order,
that have a planned date whose date part is `k` and, when a team filter is set, whose team is
the filter. -/
def bucketSpec (tasks : List Task) (teamFilter k : String) : List Task :=
  tasks.filter fun t => truthy t.plannedDate && decide (dateKey t = k) &&
    (decide (teamFilter = "") || decide (t.teamId = some teamFilter))

end MontajTakvim



namespace JSDate

/-! ## `Date.prototype.toISOString` -/

def HourFromTime (t : Int) : Int := (t / 3600000) % 24

def MinFromTime (t : Int) : Int := (t / 60000) % 60

def SecFromTime (t : Int) : Int := (t / 1000) % 60

def msFromTime (t : Int) : Int := t % 1000

/-- The last decimal digit of `n`, as a character. -/
def digit (n : Int) : Char := Nat.digitChar (n % 10).toNat

def pad2 (n : Int) : List Char := [digit (n / 10), digit n]

def pad3 (n : Int) : List Char := [digit (n / 100), digit (n / 10), digit n]

def pad4 (n : Int) : List Char := [digit (n / 1000), digit (n / 100), digit (n / 10), digit n]

def pad6 (n : Int) : List Char :=
  [digit (n / 100000), digit (n / 10000), digit (n / 1000), digit (n / 100), digit (n / 10),
    digit n]

/-- The year of the ISO format: four digits for the years 0..9999, otherwise a sign and six
digits. -/
def isoYear (y : Int) : List Char :=
  if 0 ≤ y ∧ y ≤ 9999 then pad4 y
  else (if y < 0 then '-' else '+') :: pad6 (if y < 0 then -y else y)

/-- The calendar date `YYYY-MM-DD` of the ISO format, for a year, a month 0..11 and a day. -/
def isoDate (y m d : Int) : List Char :=
  isoYear y ++ ['-'] ++ pad2 (m + 1) ++ ['-'] ++ pad2 d

/-- The value of `date.toISOString()`: the UTC date and time `YYYY-MM-DDTHH:mm:ss.sssZ` of the
time value. -/
def toISOString (t : Int) : String :=
  String.mk (isoDate (YearFromTime t) (MonthFromTime t) (DateFromTime t) ++ ['T'] ++
    pad2 (HourFromTime t) ++ [':'] ++ pad2 (MinFromTime t) ++ [':'] ++ pad2 (SecFromTime t) ++
    ['.'] ++ pad3 (msFromTime t) ++ ['Z'])

end JSDate

namespace MontajTakvim

open JSDate

/-! ## Date keys of the cells (`formatDateKey`, lines 120-122) and the drag sources -/

/-- The function `formatDateKey`: `date.toISOString().slice(0, 10)`. -/
def formatDateKey (date : Int) : String := slice10 (toISOString date)

/-- The `dayTasks` of a cell (line 286): `tasksByDate[dateKey] || []`. -/
def dayTasks (tasks : List Task) (teamFilter : String) (date : Int) : List Task :=
  ((tasksByDate tasks teamFilter).get (formatDateKey date)).getD []

/-- The chips drawn in a cell (line 319): the first 20 tasks of the day in week view, the first
3 otherwise. -/
def cellChips (viewMode : String) (dayTasks : List Task) : List Task :=
  dayTasks.take (if viewMode = "week" then 20 else 3)

/-- The `draggable` attribute of a chip of a calendar cell (line 322). -/
def chipDraggable (task : Task) : Bool := decide (task.status ≠ some "completed")

/-- The tasks the page offers as drag sources: the draggable chips of all cells of the grid,
followed by the items of the unplanned list, which are all draggable (line 369). -/
def dragSources (tza currentDate : Int) (viewMode : String) (tasks : List Task)
    (teamFilter : String) : List Task :=
  ((calendarDays tza currentDate viewMode).flatMap fun day =>
    (cellChips viewMode (dayTasks tasks teamFilter day.date)).filter chipDraggable) ++
  unplannedList tasks teamFilter

end MontajTakvim

/-! # Event handlers

The pages are React components: their state lives in `useState` cells and their handlers are
`async` functions that set state, ask the user (`confirm`), tell the user (`alert`) and wait
for backend requests.  A handler is modelled as a `Proc`: the sequence of its steps, where a
step that waits for an answer is followed by one continuation per answer.  A value the handler
reads from the component state is read when the handler is invoked (the handler closes over
the state of the render that created it), so a handler is a function of that state; what a
setter writes goes to the current state.  `Proc.run` runs a handler to its end for given
answers of the user and of the backend; `Proc.start` runs it up to its first wait, which is
what happens before another event can be handled. -/

namespace Handler

/-- The steps of a handler over the page state `σ`, with backend requests `ρ`; `P r` is the
type of the payload a request `r` resolves to, and a request that is rejected yields the
message of its error.  `all2` and `all4` are `Promise.all` of two and of four requests. -/
inductive Proc (σ ρ : Type) (P : ρ → Type) : Type where
  | done : Proc σ ρ P
  | set (f : σ → σ) (k : Proc σ ρ P) : Proc σ ρ P
  | confirm (msg : String) (k : Bool → Proc σ ρ P) : Proc σ ρ P
  | alert (msg : String) (k : Proc σ ρ P) : Proc σ ρ P
  | consoleError (k : Proc σ ρ P) : Proc σ ρ P
  | await (r : ρ) (k : Except String (P r) → Proc σ ρ P) : Proc σ ρ P
  | all2 (r₁ r₂ : ρ) (k : Except String (P r₁) → Except String (P r₂) → Proc σ ρ P) :
      Proc σ ρ P
  | all4 (r₁ r₂ r₃ r₄ : ρ)
      (k : Except String (P r₁) → Except String (P r₂) → Except String (P r₃) →
        Except String (P r₄) → Proc σ ρ P) : Proc σ ρ P

/-- What a run of a handler does to the outside, in order; a request is recorded with the page
state at the moment it is issued. -/
inductive Event (σ ρ : Type) : Type where
  | confirm (msg : String) (answer : Bool) : Event σ ρ
  | alert (msg : String) : Event σ ρ
  | consoleError : Event σ ρ
  | request (r : ρ) (s : σ) : Event σ ρ

/-- The answers a run gets: the user's to each `confirm`, the backend's to each request. -/
structure Env (ρ : Type) (P : ρ → Type) where
  answer : String → Bool
  respond : (r : ρ) → Except String (P r)

/-- The steps of `p` followed by the steps of `q` (`await p(); q`, for a `p` that does not
throw). -/
def Proc.andThen {σ ρ : Type} {P : ρ → Type} : Proc σ ρ P → Proc σ ρ P → Proc σ ρ P
  | .done, q => q
  | .set f k, q => .set f (k.andThen q)
  | .confirm msg k, q => .confirm msg fun b => (k b).andThen q
  | .alert msg k, q => .alert msg (k.andThen q)
  | .consoleError k, q => .consoleError (k.andThen q)
  | .await r k, q => .await r fun a => (k a).andThen q
  | .all2 r₁ r₂ k, q => .all2 r₁ r₂ fun a b => (k a b).andThen q
  | .all4 r₁ r₂ r₃ r₄ k, q => .all4 r₁ r₂ r₃ r₄ fun a b c d => (k a b c d).andThen q

/-- The run of a handler to its end: the final state and the events, in order. -/
def Proc.run {σ ρ : Type} {P : ρ → Type} (env : Env ρ P) :
    Proc σ ρ P → σ → σ × List (Event σ ρ)
  | .done, s => (s, [])
  | .set f k, s => k.run env (f s)
  | .confirm msg k, s =>
    (((k (env.answer msg)).run env s).1,
      Event.confirm msg (env.answer msg) :: ((k (env.answer msg)).run env s).2)
  | .alert msg k, s => ((k.run env s).1, Event.alert msg :: (k.run env s).2)
  | .consoleError k, s => ((k.run env s).1, Event.consoleError :: (k.run env s).2)
  | .await r k, s =>
    (((k (env.respond r)).run env s).1,
      Event.request r s :: ((k (env.respond r)).run env s).2)
  | .all2 r₁ r₂ k, s =>
    (((k (env.respond r₁) (env.respond r₂)).run env s).1,
      Event.request r₁ s :: Event.request r₂ s ::
        ((k (env.respond r₁) (env.respond r₂)).run env s).2)
  | .all4 r₁ r₂ r₃ r₄ k, s =>
    (((k (env.respond r₁) (env.respond r₂) (env.respond r₃) (env.respond r₄)).run env s).1,
      Event.request r₁ s :: Event.request r₂ s :: Event.request r₃ s :: Event.request r₄ s ::
        ((k (env.respond r₁) (env.respond r₂) (env.respond r₃) (env.respond r₄)).run env s).2)

/-- The backend requests among the events of a run, in the order they are issued. -/
def requests {σ ρ : Type} : List (Event σ ρ) → List ρ
  | [] => []
  | Event.request r _ :: rest => r :: requests rest
  | _ :: rest => requests rest

/-- A handler that waits for the backend: the requests in flight and what it does with their
outcomes. -/
inductive Susp (σ ρ : Type) (P : ρ → Type) : Type where
  | one (r : ρ) (k : Except String (P r) → Proc σ ρ P) : Susp σ ρ P
  | two (r₁ r₂ : ρ) (k : Except String (P r₁) → Except String (P r₂) → Proc σ ρ P) :
      Susp σ ρ P
  | four (r₁ r₂ r₃ r₄ : ρ)
      (k : Except String (P r₁) → Except String (P r₂) → Except String (P r₃) →
        Except String (P r₄) → Proc σ ρ P) : Susp σ ρ P

/-- The requests a waiting handler has in flight. -/
def Susp.inFlight {σ ρ : Type} {P : ρ → Type} : Susp σ ρ P → List ρ
  | .one r _ => [r]
  | .two r₁ r₂ _ => [r₁, r₂]
  | .four r₁ r₂ r₃ r₄ _ => [r₁, r₂, r₃, r₄]

/-- The run of a handler up to its first wait for the backend: the state it leaves, and the
waiting handler if it has not ended. -/
def Proc.start {σ ρ : Type} {P : ρ → Type} (answer : String → Bool) :
    Proc σ ρ P → σ → σ × Option (Susp σ ρ P)
  | .done, s => (s, none)
  | .set f k, s => k.start answer (f s)
  | .confirm msg k, s => (k (answer msg)).start answer s
  | .alert _ k, s => k.start answer s
  | .consoleError k, s => k.start answer s
  | .await r k, s => (s, some (.one r k))
  | .all2 r₁ r₂ k, s => (s, some (.two r₁ r₂ k))
  | .all4 r₁ r₂ r₃ r₄ k, s => (s, some (.four r₁ r₂ r₃ r₄ k))

/-- The continuation of a waiting handler, once the backend has answered. -/
def Susp.resume {σ ρ : Type} {P : ρ → Type} (env : Env ρ P) : Susp σ ρ P → Proc σ ρ P
  | .one r k => k (env.respond r)
  | .two r₁ r₂ k => k (env.respond r₁) (env.respond r₂)
  | .four r₁ r₂ r₃ r₄ k => k (env.respond r₁) (env.respond r₂) (env.respond r₃) (env.respond r₄)

/-- The handler `p`, invoked in state `s` with the flag `busy` clear or already set by it,
has the flag set whenever it waits for the backend and ends with the flag clear; the state
may change while it waits, as long as the flag stays set.  `chg` tells which requests the
flag is to guard: the requests the handler awaits together are none of those, so it has at
most one of them in flight. -/
def Proc.busyUntilDone {σ ρ : Type} {P : ρ → Type} (busy : σ → Bool) (chg : ρ → Bool) :
    Proc σ ρ P → σ → Prop
  | .done, s => busy s = false
  | .set f k, s => k.busyUntilDone busy chg (f s)
  | .confirm _ k, s => ∀ b, (k b).busyUntilDone busy chg s
  | .alert _ k, s => k.busyUntilDone busy chg s
  | .consoleError k, s => k.busyUntilDone busy chg s
  | .await _ k, s =>
    busy s = true ∧ ∀ a s', busy s' = true → (k a).busyUntilDone busy chg s'
  | .all2 r₁ r₂ k, s =>
    busy s = true ∧ chg r₁ = false ∧ chg r₂ = false ∧
      ∀ a b s', busy s' = true → (k a b).busyUntilDone busy chg s'
  | .all4 r₁ r₂ r₃ r₄ k, s =>
    busy s = true ∧ chg r₁ = false ∧ chg r₂ = false ∧ chg r₃ = false ∧ chg r₄ = false ∧
      ∀ a b c d s', busy s' = true → (k a b c d).busyUntilDone busy chg s'

/-- The handler `p` never writes the flag `busy` and issues none of the requests the flag is
to guard (those for which `chg` holds). -/
def Proc.readOnly {σ ρ : Type} {P : ρ → Type} (busy : σ → Bool) (chg : ρ → Bool) :
    Proc σ ρ P → Prop
  | .done => True
  | .set f k => (∀ s, busy (f s) = busy s) ∧ k.readOnly busy chg
  | .confirm _ k => ∀ b, (k b).readOnly busy chg
  | .alert _ k => k.readOnly busy chg
  | .consoleError k => k.readOnly busy chg
  | .await r k => chg r = false ∧ ∀ a, (k a).readOnly busy chg
  | .all2 r₁ r₂ k => chg r₁ = false ∧ chg r₂ = false ∧ ∀ a b, (k a b).readOnly busy chg
  | .all4 r₁ r₂ r₃ r₄ k =>
    chg r₁ = false ∧ chg r₂ = false ∧ chg r₃ = false ∧ chg r₄ = false ∧
      ∀ a b c d, (k a b c d).readOnly busy chg

/-- A waiting handler outside the guard of the flag: it has none of the guarded requests in
flight, and whatever the backend answers it goes on without writing the flag and without
issuing one. -/
def Susp.readOnly {σ ρ : Type} {P : ρ → Type} (busy : σ → Bool) (chg : ρ → Bool)
    (w : Susp σ ρ P) : Prop :=
  (∀ r ∈ w.inFlight, chg r = false) ∧ ∀ env : Env ρ P, (w.resume env).readOnly busy chg

/-- A waiting handler that holds the flag `busy`: it has at most one guarded request in
flight, and whatever the backend answers, it goes on with the flag set until it ends. -/
def Susp.holdsFlag {σ ρ : Type} {P : ρ → Type} (busy : σ → Bool) (chg : ρ → Bool)
    (w : Susp σ ρ P) : Prop :=
  (w.inFlight.filter chg).length ≤ 1 ∧
    ∀ (env : Env ρ P) (s : σ), busy s = true → (w.resume env).busyUntilDone busy chg s

end Handler

namespace MontajTakvim

open JSDate Handler

/-! ## The handlers of the calendar page -/

/-- A team, as far as the pages read it. -/
structure Team where
  id : String
  ad : String := ""
  deriving DecidableEq, Repr

/-- The state cells of the component (lines 22-36). -/
structure State where
  loading : Bool := true
  tasks : List Task := []
  teams : List Team := []
  viewMode : String := "month"
  currentDate : Int := 0
  teamFilter : String := ""
  draggedTask : Option Task := none
  showDetailModal : Bool := false
  selectedTask : Option Task := none
  deriving DecidableEq, Repr

/-- The backend requests of the page.  The second argument of `updateAssemblyTask` is the
object the page sends, as the list of its properties. -/
inductive Request where
  | getAssemblyTasks : Request
  | getTeams : Request
  | updateAssemblyTask (id : Nat) (fields : List (String × String)) : Request
  deriving DecidableEq, Repr

/-- What a request resolves to; `none` is a payload that is `null` or `undefined`. -/
@[reducible] def Request.Payload : Request → Type
  | .getAssemblyTasks => Option (List Task)
  | .getTeams => Option (List Team)
  | .updateAssemblyTask _ _ => Unit

/-- The function `loadData` (lines 42-56): both lists are fetched together; they are stored
when both fetches succeed, and a failure is only logged. -/
def loadData : Proc State Request Request.Payload :=
  .set (fun s => { s with loading := true }) <|
  .all2 .getAssemblyTasks .getTeams fun tasksData teamsData =>
    match tasksData, teamsData with
    | .ok tasksData, .ok teamsData =>
      .set (fun s => { s with tasks := tasksData.getD [] }) <|
      .set (fun s => { s with teams := teamsData.getD [] }) <|
      .set (fun s => { s with loading := false }) .done
    | _, _ =>
      .consoleError <|
      .set (fun s => { s with loading := false }) .done

/-- The function `handleDragStart` (lines 124-127). -/
def handleDragStart (s : State) (task : Task) : State :=
  { s with draggedTask := some task }

/-- The text of the confirmation of line 144. -/
def confirmAfterDue : String :=
  "Bu tarih müşteri termininden sonra. Devam etmek istiyor musunuz?"

/-- The test `date > estimated` of line 143, where `estimated` is `new Date(estimatedDate)`:
`parse` is `Date.parse`, with `none` for a string that is not a date (the comparison with an
invalid date is false). -/
def afterEstimated (parse : String → Option Int) (estimatedDate : String) (date : Int) : Bool :=
  match parse estimatedDate with
  | some estimated => decide (estimated < date)
  | none => false

/-- The request of lines 152-155: the planned date becomes the date key of the cell and the
status becomes `planned`. -/
def dropRequest (draggedTask : Task) (date : Int) : Request :=
  .updateAssemblyTask draggedTask.id
    [("plannedDate", formatDateKey date), ("status", "planned")]

/-- Lines 151-161 of `handleDrop`: the update, then the reload on success or the alert on
failure, then the end of the drag. -/
def dropUpdate (draggedTask : Task) (date : Int) : Proc State Request Request.Payload :=
  .await (dropRequest draggedTask date) fun r =>
    match r with
    | .ok _ => loadData.andThen (.set (fun s => { s with draggedTask := none }) .done)
    | .error msg => .alert msg (.set (fun s => { s with draggedTask := none }) .done)

/-- The condition of lines 141-143 under which `handleDrop` asks for a confirmation. -/
def needsConfirm (parse : String → Option Int) (draggedTask : Task) (date : Int) : Bool :=
  match draggedTask.estimatedDate with
  | some estimatedDate => truthy (some estimatedDate) && afterEstimated parse estimatedDate date
  | none => false

/-- The function `handleDrop` (lines 134-162) for a drop on the cell of time value `date`;
`s` is the state the handler closes over.  `Date.parse` is a parameter: the formats it accepts
beyond the ISO format depend on the browser.  The call `e.preventDefault()` has no effect on
the page state and is left out. -/
def handleDrop (parse : String → Option Int) (s : State) (date : Int) :
    Proc State Request Request.Payload :=
  match s.draggedTask with
  | none => .done
  | some draggedTask =>
    if needsConfirm parse draggedTask date then
      .confirm confirmAfterDue fun ok =>
        if ok then dropUpdate draggedTask date
        else .set (fun s => { s with draggedTask := none }) .done
    else dropUpdate draggedTask date

end MontajTakvim

namespace Arsiv

open Handler

/-! ## The archive page (`Arsiv.jsx`) -/

/-- A document, as far as the page reads it; an absent reference is `none`. -/
structure Doc where
  id : String
  jobId : Option String := none
  supplierId : Option String := none
  folderId : Option String := none
  originalName : Option String := none
  description : Option String := none
  size : Option Nat := none
  deriving DecidableEq, Repr

/-- A job, as far as the page reads it; `customer` is the `name` of the job's `customer`
object, `none` when the object or its name is absent. -/
structure Job where
  id : String
  title : String := ""
  customer : Option String := none
  customerName : Option String := none
  deriving DecidableEq, Repr

structure Supplier where
  id : String
  name : String := ""
  deriving DecidableEq, Repr

structure Folder where
  id : String
  name : String := ""
  deriving DecidableEq, Repr

/-- The upload form (lines 99-106); `file` is the chosen file, by its name, or `null`. -/
structure UploadForm where
  file : Option String := none
  docType : String := "genel"
  description : String := ""
  jobId : String := ""
  supplierId : String := ""
  folderId : String := ""
  deriving DecidableEq, Repr

/-- The new-folder form (lines 109-113). -/
structure FolderForm where
  name : String := ""
  icon : String := "📁"
  color : String := "#6b7280"
  deriving DecidableEq, Repr

/-- The state cells of the component (lines 79-113). -/
structure State where
  documents : List Doc := []
  jobs : List Job := []
  suppliers : List Supplier := []
  folders : List Folder := []
  loading : Bool := true
  error : String := ""
  activeTab : String := "jobs"
  selectedFolder : Option String := none
  search : String := ""
  previewDoc : Option Doc := none
  showUploadModal : Bool := false
  showFolderModal : Bool := false
  deleting : Bool := false
  uploading : Bool := false
  uploadForm : UploadForm := {}
  folderForm : FolderForm := {}
  deriving DecidableEq, Repr

/-- The backend requests of the page. -/
inductive Request where
  | getDocuments : Request
  | getJobs : Request
  | getSuppliers : Request
  | getFolders : Request
  | deleteDocument (docId : String) : Request
  | uploadDocument (file : String) (jobId : Option String) (docType description : String)
      (folderId supplierId : Option String) : Request
  | createFolder (name icon color category parentId : String) : Request
  deriving DecidableEq, Repr

@[reducible] def Request.Payload : Request → Type
  | .getDocuments => List Doc
  | .getJobs => List Job
  | .getSuppliers => List Supplier
  | .getFolders => List Folder
  | .deleteDocument _ => Unit
  | .uploadDocument _ _ _ _ _ _ => Doc
  | .createFolder _ _ _ _ _ => Folder

/-- The outcome of `fetch().catch(() => [])`: a failed fetch counts as the empty list. -/
def orEmpty {α : Type} : Except String (List α) → List α
  | .ok l => l
  | .error _ => []

/-- The value of `id || null` for a form field: the empty string becomes `null`. -/
def orNull (id : String) : Option String := if id = "" then none else some id

/-- The value of `err.message || fallback`. -/
def messageOr (msg fallback : String) : String := if msg = "" then fallback else msg

/-- The function `loadData` (lines 119-138).  Each of the four fetches has its own `catch`, so
`Promise.all` cannot fail and the outer `catch` is not reached. -/
def loadData : Proc State Request Request.Payload :=
  .set (fun s => { s with loading := true }) <|
  .set (fun s => { s with error := "" }) <|
  .all4 .getDocuments .getJobs .getSuppliers .getFolders
    fun docsPayload jobsPayload suppliersPayload foldersPayload =>
      .set (fun s => { s with documents := orEmpty docsPayload }) <|
      .set (fun s => { s with jobs := orEmpty jobsPayload }) <|
      .set (fun s => { s with suppliers := orEmpty suppliersPayload }) <|
      .set (fun s => { s with folders := orEmpty foldersPayload }) <|
      .set (fun s => { s with loading := false }) .done

/-- The request of lines 229-236 for a chosen file. -/
def uploadRequest (form : UploadForm) (file : String) : Request :=
  .uploadDocument file (orNull form.jobId) form.docType form.description (orNull form.folderId)
    (orNull form.supplierId)

/-- The function `handleUpload` (lines 215-252); `s` is the state the handler closes over. -/
def handleUpload (s : State) : Proc State Request Request.Payload :=
  match s.uploadForm.file with
  | none => .alert "Lütfen bir dosya seçin" .done
  | some file =>
    if s.uploadForm.jobId = "" ∧ s.uploadForm.folderId = "" ∧ s.uploadForm.supplierId = "" then
      .alert "Lütfen bir iş, klasör veya tedarikçi seçin" .done
    else
      .set (fun s => { s with uploading := true }) <|
      .await (uploadRequest s.uploadForm file) fun r =>
        match r with
        | .ok newDoc =>
          .set (fun s => { s with documents := newDoc :: s.documents }) <|
          .set (fun s => { s with showUploadModal := false }) <|
          .set (fun s => { s with uploadForm := {} }) <|
          .set (fun s => { s with uploading := false }) .done
        | .error msg =>
          .alert (messageOr msg "Yükleme başarısız") <|
          .set (fun s => { s with uploading := false }) .done

/-- The requests of the archive that change data on the backend. -/
def Request.mutating : Request → Bool
  | .getDocuments => false
  | .getJobs => false
  | .getSuppliers => false
  | .getFolders => false
  | _ => true

/-- The `disabled` attribute of the upload button (line 803). -/
def uploadDisabled (s : State) : Bool := s.uploading || s.uploadForm.file.isNone

/-- The function `handleDelete` (lines 201-213). -/
def handleDelete (docId : String) : Proc State Request Request.Payload :=
  .confirm "Bu dökümanı silmek istediğinize emin misiniz?" fun ok =>
    if ok then
      .set (fun s => { s with deleting := true }) <|
      .await (.deleteDocument docId) fun r =>
        match r with
        | .ok _ =>
          .set (fun s => { s with documents := s.documents.filter fun d => d.id ≠ docId }) <|
          .set (fun s => { s with previewDoc := none }) <|
          .set (fun s => { s with deleting := false }) .done
        | .error msg =>
          .alert (messageOr msg "Silinemedi") <|
          .set (fun s => { s with deleting := false }) .done
    else .done

/-- White space in the sense of `String.prototype.trim`: the ASCII white space, the line
terminators, the no-break space and the byte order mark (the other Unicode space separators
are left out). -/
def isSpace (c : Char) : Bool :=
  c.val = 32 || c.val = 9 || c.val = 10 || c.val = 13 || c.val = 11 || c.val = 12 ||
    c.val = 160 || c.val = 8232 || c.val = 8233 || c.val = 65279

/-- The value of `s.trim()`. -/
def trim (s : String) : String :=
  String.mk ((s.data.dropWhile isSpace).reverse.dropWhile isSpace).reverse

/-- The function `handleCreateFolder` (lines 254-278). -/
def handleCreateFolder (s : State) : Proc State Request Request.Payload :=
  if trim s.folderForm.name = "" then .alert "Lütfen klasör adı girin" .done
  else
    .await (.createFolder s.folderForm.name s.folderForm.icon s.folderForm.color "company"
        "FOLDER-SIRKET") fun r =>
      match r with
      | .ok _ =>
        .await .getFolders fun r =>
          match r with
          | .ok foldersPayload =>
            .set (fun s => { s with folders := foldersPayload }) <|
            .set (fun s => { s with showFolderModal := false }) <|
            .set (fun s => { s with folderForm := {} }) .done
          | .error msg => .alert (messageOr msg "Klasör oluşturulamadı") .done
      | .error msg => .alert (messageOr msg "Klasör oluşturulamadı") .done

/-- The `disabled` attribute of the create-folder button (line 884). -/
def createFolderDisabled (s : State) : Bool := decide (trim s.folderForm.name = "")

end Arsiv

namespace MontajBugun

open Handler

/-! ## The today page (`MontajBugun.jsx`) -/

/-- An issue reported on a task, as far as the page reads it. -/
structure Issue where
  id : String
  status : Option String := none
  replacementOrderId : Option String := none
  deriving DecidableEq, Repr

/-- A task of the today page; `issues` is `none` when the task has no `issues` property. -/
structure Task where
  id : Nat
  jobId : Option String := none
  status : Option String := none
  issues : Option (List Issue) := none
  deriving DecidableEq, Repr

/-- A job of the today page with its tasks. -/
structure Job where
  jobId : String
  tasks : List Task := []
  deriving DecidableEq, Repr

/-- The issue form (lines 52-61). -/
structure IssueForm where
  issueType : String := "broken"
  item : String := ""
  quantity : Nat := 1
  faultSource : String := "team"
  responsiblePersonId : String := ""
  photoUrl : String := ""
  note : String := ""
  createReplacement : Bool := true
  deriving DecidableEq, Repr

/-- The completion form (lines 63-68). -/
structure CompleteForm where
  photosBefore : List String := []
  photosAfter : List String := []
  customerSignature : String := ""
  note : String := ""
  deriving DecidableEq, Repr

/-- The state cells of the component (lines 40-70). -/
structure State where
  loading : Bool := true
  jobs : List Job := []
  teams : List MontajTakvim.Team := []
  selectedTeam : String := ""
  showIssueModal : Bool := false
  showCompleteModal : Bool := false
  selectedTask : Option Task := none
  selectedJob : Option Job := none
  issueForm : IssueForm := {}
  completeForm : CompleteForm := {}
  actionLoading : Bool := false
  deriving DecidableEq, Repr

/-- What an upload resolves to, as far as the page reads it. -/
structure UploadResult where
  url : Option String := none
  path : Option String := none
  deriving DecidableEq, Repr

/-- The backend requests of the page; `uploadDocument` is the upload of a photo or a
signature for a job (line 235). -/
inductive Request where
  | getAssemblyTasksToday (team : Option String) : Request
  | getTeams : Request
  | startAssemblyTask (id : Nat) : Request
  | completeAssemblyTask (id : Nat) (form : CompleteForm) : Request
  | completeAllAssemblyTasks (jobId : String) (form : CompleteForm) : Request
  | reportAssemblyIssue (id : Nat) (form : IssueForm) : Request
  | resolveAssemblyIssue (id : Nat) (issueId : String) : Request
  | uploadDocument (file jobId docType description : String) : Request
  deriving DecidableEq, Repr

/-- What a request resolves to; `none` is a payload that is `null` or `undefined`. -/
@[reducible] def Request.Payload : Request → Type
  | .getAssemblyTasksToday _ => Option (List Job)
  | .getTeams => Option (List MontajTakvim.Team)
  | .uploadDocument _ _ _ _ => Option UploadResult
  | _ => Unit

/-- The function `loadData` (lines 76-90); `s` is the state the function closes over, from
which it takes the selected team. -/
def loadData (s : State) : Proc State Request Request.Payload :=
  .set (fun s => { s with loading := true }) <|
  .all2 (.getAssemblyTasksToday (Arsiv.orNull s.selectedTeam)) .getTeams fun jobsData teamsData =>
    match jobsData, teamsData with
    | .ok jobsData, .ok teamsData =>
      .set (fun s => { s with jobs := jobsData.getD [] }) <|
      .set (fun s => { s with teams := teamsData.getD [] }) <|
      .set (fun s => { s with loading := false }) .done
    | _, _ =>
      .consoleError <|
      .set (fun s => { s with loading := false }) .done

/-- The end of every action handler: the `finally` block that clears the busy flag. -/
def finish : Proc State Request Request.Payload :=
  .set (fun s => { s with actionLoading := false }) .done

/-- The function `handleStartTask` (lines 92-102). -/
def handleStartTask (s : State) (task : Task) : Proc State Request Request.Payload :=
  .set (fun s => { s with actionLoading := true }) <|
  .await (.startAssemblyTask task.id) fun r =>
    match r with
    | .ok _ => (loadData s).andThen finish
    | .error msg => .alert msg finish

/-- The message of the `TypeError` that reading `id` of `null` throws. -/
def nullTaskMessage : String := "Cannot read properties of null"

/-- The function `handleCompleteTask` (lines 104-120); its argument is `selectedTask`, which is
`null` when no task is selected: reading its `id` then throws inside the `try`. -/
def handleCompleteTask (s : State) (task : Option Task) : Proc State Request Request.Payload :=
  .set (fun s => { s with actionLoading := true }) <|
  match task with
  | none => .alert nullTaskMessage finish
  | some task =>
    .await (.completeAssemblyTask task.id s.completeForm) fun r =>
      match r with
      | .ok _ =>
        (loadData s).andThen (.set (fun s => { s with showCompleteModal := false }) finish)
      | .error msg => .alert msg finish

/-- The function `handleCompleteAll` (lines 122-140). -/
def handleCompleteAll (s : State) (job : Job) : Proc State Request Request.Payload :=
  .confirm "Tüm görevleri tek seferde tamamlamak istediğinize emin misiniz?" fun ok =>
    if ok then
      .set (fun s => { s with actionLoading := true }) <|
      .await (.completeAllAssemblyTasks job.jobId s.completeForm) fun r =>
        match r with
        | .ok _ =>
          (loadData s).andThen (.set (fun s => { s with showCompleteModal := false }) finish)
        | .error msg => .alert msg finish
    else .done

/-- The function `handleReportIssue` (lines 169-185). -/
def handleReportIssue (s : State) : Proc State Request Request.Payload :=
  match s.selectedTask with
  | none => .alert "Sorunlu ürün/malzeme adı gerekli" .done
  | some selectedTask =>
    if s.issueForm.item = "" then .alert "Sorunlu ürün/malzeme adı gerekli" .done
    else
      .set (fun s => { s with actionLoading := true }) <|
      .await (.reportAssemblyIssue selectedTask.id s.issueForm) fun r =>
        match r with
        | .ok _ =>
          (loadData s).andThen (.set (fun s => { s with showIssueModal := false }) finish)
        | .error msg => .alert msg finish

/-- The function `handleResolveIssue` (lines 187-197). -/
def handleResolveIssue (s : State) (task : Task) (issueId : String) :
    Proc State Request Request.Payload :=
  .set (fun s => { s with actionLoading := true }) <|
  .await (.resolveAssemblyIssue task.id issueId) fun r =>
    match r with
    | .ok _ => (loadData s).andThen finish
    | .error msg => .alert msg finish

/-- The job the file is uploaded for (line 206): `selectedTask?.jobId || selectedJob?.jobId`. -/
def uploadJobId (s : State) : Option String :=
  if MontajTakvim.truthy (s.selectedTask.bind (·.jobId)) then s.selectedTask.bind (·.jobId)
  else if MontajTakvim.truthy (s.selectedJob.map (·.jobId)) then s.selectedJob.map (·.jobId)
  else none

/-- The document type and the description of the upload, by the kind of the file input
(lines 217-232). -/
def uploadKind (type : String) : String × String :=
  if type = "before" then ("montaj_oncesi", "Montaj öncesi fotoğraf")
  else if type = "after" then ("montaj_sonrasi", "Montaj sonrası fotoğraf")
  else if type = "signature" then ("musteri_imza", "Müşteri imzası")
  else if type = "issue" then ("montaj_sorun", "Montaj sorunu fotoğrafı")
  else ("montaj", "Montaj fotoğrafı")

/-- The address of the uploaded file (line 236):
`result?.url || result?.path || URL.createObjectURL(file)`. -/
def uploadedUrl (createObjectURL : String → String) (file : String)
    (result : Option UploadResult) : String :=
  if MontajTakvim.truthy (result.bind (·.url)) then (result.bind (·.url)).getD ""
  else if MontajTakvim.truthy (result.bind (·.path)) then (result.bind (·.path)).getD ""
  else createObjectURL file

/-- Where the address of the uploaded file goes (lines 238-258): each setter reads the form
of the state it is applied to. -/
def storeUpload (type url : String) (s : State) : State :=
  if type = "before" then
    { s with completeForm :=
      { s.completeForm with photosBefore := s.completeForm.photosBefore ++ [url] } }
  else if type = "after" then
    { s with completeForm :=
      { s.completeForm with photosAfter := s.completeForm.photosAfter ++ [url] } }
  else if type = "signature" then
    { s with completeForm := { s.completeForm with customerSignature := url } }
  else if type = "issue" then
    { s with issueForm := { s.issueForm with photoUrl := url } }
  else s

/-- The function `handleFileUpload` (lines 201-267) for the file chosen in the file input of
kind `type` (`none` when the input holds no file); `s` is the state the handler closes over.
The cell `uploading` (line 199) is set before the request and cleared after it, and nothing
on the page reads it; it is left out of the state, as is the reset of the file input.
`createObjectURL` is the browser's. -/
def handleFileUpload (createObjectURL : String → String) (s : State) (file : Option String)
    (type : String) : Proc State Request Request.Payload :=
  match file with
  | none => .done
  | some file =>
    match uploadJobId s with
    | none => .consoleError .done
    | some jobId =>
      .await (.uploadDocument file jobId (uploadKind type).1 (uploadKind type).2) fun r =>
        match r with
        | .ok result => .set (storeUpload type (uploadedUrl createObjectURL file result)) .done
        | .error msg =>
          .consoleError <|
          .alert ("Dosya yüklenirken hata oluştu: " ++ Arsiv.messageOr msg "Error") .done

/-- The `disabled` attribute of the buttons that start or resume a task (lines 475, 505) and
of the button that resolves an issue (line 446). -/
def startDisabled (s : State) : Bool := s.actionLoading

/-- The `disabled` attribute of the submit button of the issue modal (line 631). -/
def reportDisabled (s : State) : Bool :=
  s.actionLoading || decide (s.issueForm.item = "") || decide (s.issueForm.photoUrl = "")

/-- The `disabled` attribute of the submit button of the complete modal (lines 730-734), which
calls `handleCompleteAll` or `handleCompleteTask`. -/
def completeDisabled (s : State) : Bool :=
  s.actionLoading || decide (s.completeForm.photosBefore.length = 0) ||
    decide (s.completeForm.photosAfter.length = 0) ||
    decide (s.completeForm.customerSignature = "")

/-- The requests of the today page that change data on the backend: those of the five task
actions and the upload. -/
def Request.mutating : Request → Bool
  | .getAssemblyTasksToday _ => false
  | .getTeams => false
  | _ => true

/-- The requests of the five task actions (start, complete, complete all, report an issue,
resolve an issue): the requests the flag `actionLoading` is to guard. -/
def Request.action : Request → Bool
  | .startAssemblyTask _ => true
  | .completeAssemblyTask _ _ => true
  | .completeAllAssemblyTasks _ _ => true
  | .reportAssemblyIssue _ _ => true
  | .resolveAssemblyIssue _ _ => true
  | _ => false

/-- A backend that accepts every request: the fetches give nothing and an upload gives the
given result. -/
def acceptAll (result : Option UploadResult) : Env Request Request.Payload :=
  ⟨fun _ => true, fun r => match r with
    | .getAssemblyTasksToday _ => .ok none
    | .getTeams => .ok none
    | .startAssemblyTask _ => .ok ()
    | .completeAssemblyTask _ _ => .ok ()
    | .completeAllAssemblyTasks _ _ => .ok ()
    | .reportAssemblyIssue _ _ => .ok ()
    | .resolveAssemblyIssue _ _ => .ok ()
    | .uploadDocument _ _ _ _ => .ok result⟩

/-! ### The today page as a machine

Between two renders one thing happens: the user presses one of the buttons that invoke a
handler, chooses a file in a file input, changes some other input, or the backend answers a
waiting handler. -/

/-- The page between two events: its state and the handlers that wait for the backend, each
with a mark that tells whether it is one of the five action handlers. -/
structure Config where
  state : State
  pending : List (Bool × Susp State Request Request.Payload) := []

/-- The invocation of a handler: it runs up to its first wait and, if it has not ended, joins
the waiting handlers. -/
def Config.invoke (c : Config) (answer : String → Bool) (action : Bool)
    (p : Proc State Request Request.Payload) : Config :=
  match (p.start answer c.state).2 with
  | none => { state := (p.start answer c.state).1, pending := c.pending }
  | some w => { state := (p.start answer c.state).1, pending := c.pending ++ [(action, w)] }

/-- The events of the page. -/
inductive Step where
  /-- A press on "Başlat" or "Devam Et" of a task (lines 474, 504). -/
  | pressStart (task : Task) : Step
  /-- A press on "Çözüldü" of an issue of a task (line 445). -/
  | pressResolve (task : Task) (issueId : String) : Step
  /-- A press on the submit button of the issue modal (line 630). -/
  | pressReport : Step
  /-- A press on the submit button of the complete modal (line 729). -/
  | pressComplete : Step
  /-- A press on "Yenile", or a change of the selected team (lines 72-74, 308). -/
  | reload : Step
  /-- A file is chosen in the file input of kind `type` of a modal (lines 587-592, 663-702),
  or the choice is cleared (`none`); these inputs are never disabled. -/
  | chooseFile (createObjectURL : String → String) (file : Option String) (type : String) : Step
  /-- Any other input: it writes some state cells, but not `actionLoading`. -/
  | input (f : State → State) : Step
  /-- The backend answers the waiting handler number `i`. -/
  | answered (i : Nat) (env : Env Request Request.Payload) : Step

/-- The effect of an event; a press on a disabled button has none.  `answer` is what the user
answers to a confirmation. -/
def Config.step (c : Config) (answer : String → Bool) : Step → Config
  | .pressStart task =>
    if startDisabled c.state then c else c.invoke answer true (handleStartTask c.state task)
  | .pressResolve task issueId =>
    if startDisabled c.state then c
    else c.invoke answer true (handleResolveIssue c.state task issueId)
  | .pressReport =>
    if reportDisabled c.state then c else c.invoke answer true (handleReportIssue c.state)
  | .pressComplete =>
    if completeDisabled c.state then c
    else
      match c.state.selectedJob with
      | some selectedJob => c.invoke answer true (handleCompleteAll c.state selectedJob)
      | none => c.invoke answer true (handleCompleteTask c.state c.state.selectedTask)
  | .reload => c.invoke answer false (loadData c.state)
  | .chooseFile createObjectURL file type =>
    c.invoke answer false (handleFileUpload createObjectURL c.state file type)
  | .input f => { c with state := { f c.state with actionLoading := c.state.actionLoading } }
  | .answered i env =>
    match c.pending[i]? with
    | none => c
    | some w =>
      Config.invoke { state := c.state, pending := c.pending.eraseIdx i } answer w.1
        (w.2.resume env)

/-- The page after a sequence of events, each with the answers the user would give. -/
def Config.steps (c : Config) : List ((String → Bool) × Step) → Config
  | [] => c
  | e :: rest => (c.step e.1 e.2).steps rest

/-- The changing requests that are in flight, uploads included. -/
def Config.mutatingInFlight (c : Config) : List Request :=
  (c.pending.flatMap fun w => w.2.inFlight).filter Request.mutating

/-- The requests of the five task actions that are in flight. -/
def Config.actionsInFlight (c : Config) : List Request :=
  (c.pending.flatMap fun w => w.2.inFlight).filter Request.action

/-- The invariant of the page: the waiting handlers not marked as action handlers (reloads
and uploads) never write the flag and have no request of a task action, the marked action
handlers hold the busy flag, and there is one of the latter when the flag is set and none
when it is clear. -/
def Config.Inv (c : Config) : Prop :=
  (∀ w ∈ c.pending, w.1 = false → w.2.readOnly (·.actionLoading) Request.action) ∧
  (∀ w ∈ c.pending, w.1 = true → w.2.holdsFlag (·.actionLoading) Request.action) ∧
  (c.pending.filter (·.1)).length = if c.state.actionLoading then 1 else 0

end MontajBugun

namespace MontajBugun

open Handler

/-! ### The job cards and the two modals of the today page -/

/-- The `pendingIssues` of a task (line 378):
`task.issues?.filter(i => i.status === 'pending') || []`. -/
def pendingIssues (task : Task) : List Issue :=
  match task.issues with
  | some issues => issues.filter fun i => decide (i.status = some "pending")
  | none => []

/-- The `allCompleted` of a job card (line 328). -/
def allCompleted (job : Job) : Bool :=
  job.tasks.all fun t => decide (t.status = some "completed")

/-- The `hasBlocked` of a job card (line 329). -/
def hasBlocked (job : Job) : Bool :=
  job.tasks.any fun t => decide (t.status = some "blocked")

/-- The condition under which a job card draws "Tek Seferde Tamamla" (line 352); the button
has no `disabled` attribute. -/
def completeAllShown (job : Job) : Bool := !allCompleted job && !hasBlocked job

/-- The condition under which the row of a task draws "Tamamla" (line 481). -/
def completeShown (task : Task) : Bool := decide (task.status = some "in_progress")

/-- The `disabled` attribute of "Tamamla" of a task (line 486). -/
def completeTaskDisabled (s : State) (task : Task) : Bool :=
  s.actionLoading || decide ((pendingIssues task).length > 0)

/-- The function `openIssueModal` (lines 142-155). -/
def openIssueModal (s : State) (task : Task) : State :=
  { s with selectedTask := some task, issueForm := {}, showIssueModal := true }

/-- The function `openCompleteModal` (lines 157-167); the job is `null` when the call gives
none. -/
def openCompleteModal (s : State) (task : Option Task) (job : Option Job) : State :=
  { s with selectedTask := task, selectedJob := job, completeForm := {},
           showCompleteModal := true }

/-- A press on "Tek Seferde Tamamla" of the card of `job` (lines 352-359); a card that does
not draw the button offers nothing to press. -/
def pressCompleteAll (s : State) (job : Job) : State :=
  if completeAllShown job then openCompleteModal s none (some job) else s

/-- A press on "Tamamla" of the row of `task` (lines 481-490); a press on the disabled button
has no effect. -/
def pressCompleteTask (s : State) (task : Task) : State :=
  if completeShown task && !completeTaskDisabled s task then openCompleteModal s (some task) none
  else s

/-- An example task: it is in progress and has one pending issue. -/
def taskWithIssue : Task :=
  { id := 1, status := some "in_progress",
    issues := some [{ id := "i1", status := some "pending" }] }

/-- An example job: its one task is `taskWithIssue`. -/
def jobWithIssue : Job := { jobId := "J1", tasks := [taskWithIssue] }

end MontajBugun

namespace Ayarlar

/-! ## The assembly-stage editor of the job-role form (`Ayarlar.jsx`, lines 716-833)

The editor shows one row per stage of `roleForm.assemblyStages`; the handlers below are those
of the row of index `idx`, so they are called with an index below the length of the list. -/

/-- An assembly stage of a job role; `id` is `null` for a stage that is not saved yet. -/
structure Stage where
  id : Option String := none
  name : String := ""
  order : Nat := 0
  deriving DecidableEq, Repr

/-- The loop `updated.forEach((s, i) => s.order = i + 1)`, from position `i` on.  The loop
writes the order into the stage objects; the model gives the list that results. -/
def renumberFrom (i : Nat) : List Stage → List Stage
  | [] => []
  | s :: rest => { s with order := i + 1 } :: renumberFrom (i + 1) rest

/-- The loop `updated.forEach((s, i) => s.order = i + 1)`. -/
def renumber (stages : List Stage) : List Stage := renumberFrom 0 stages

/-- The handler of "+ Aşama Ekle" (lines 724-730). -/
def addStage (stages : List Stage) : List Stage :=
  stages ++ [{ id := none, name := "", order := stages.length + 1 }]

/-- The handler of the name input of row `idx` (lines 779-783). -/
def renameStage (stages : List Stage) (idx : Nat) (name : String) : List Stage :=
  match stages[idx]? with
  | some s => stages.set idx { s with name := name }
  | none => stages

/-- The destructuring swap `[updated[i], updated[j]] = [updated[j], updated[i]]` of two rows. -/
def swapAt (updated : List Stage) (i j : Nat) : List Stage :=
  match updated[i]?, updated[j]? with
  | some a, some b => (updated.set i b).set j a
  | _, _ => updated

/-- The handler of "Yukarı Taşı" of row `idx` (lines 789-800); the button of the first row is
disabled. -/
def moveUp (stages : List Stage) (idx : Nat) : List Stage :=
  if idx = 0 then stages else renumber (swapAt stages (idx - 1) idx)

/-- The handler of "Aşağı Taşı" of row `idx` (lines 802-813); the button of the last row is
disabled. -/
def moveDown (stages : List Stage) (idx : Nat) : List Stage :=
  if idx + 1 = stages.length then stages else renumber (swapAt stages idx (idx + 1))

/-- The handler of "Sil" of row `idx` (lines 815-826): `filter((_, i) => i !== idx)`, then the
renumbering. -/
def deleteStage (stages : List Stage) (idx : Nat) : List Stage :=
  renumber ((stages.enum.filter fun p => decide (p.1 ≠ idx)).map fun p => p.2)

/-- The invariant of the editor: the stage at index `i` has order `i + 1`. -/
def Ordered (stages : List Stage) : Prop :=
  ∀ (i : Nat) (s : Stage), stages[i]? = some s → s.order = i + 1

/-- What identifies a stage apart from its order number. -/
def Stage.key (s : Stage) : Option String × String := (s.id, s.name)

end Ayarlar

namespace Arsiv

open MontajTakvim (truthy)

/-! ## The listing of the archive (`filteredDocs`, lines 153-185) and its counters -/

/-- The documents of the tab "İş Belgeleri" (lines 158 and 195):
`d.jobId && !d.supplierId && !d.folderId`. -/
def isJobDoc (d : Doc) : Bool := truthy d.jobId && !truthy d.supplierId && !truthy d.folderId

/-- The documents of the tab "Şirket Belgeleri" (lines 160 and 196):
`d.folderId && !d.jobId && !d.supplierId`. -/
def isCompanyDoc (d : Doc) : Bool :=
  truthy d.folderId && !truthy d.jobId && !truthy d.supplierId

/-- The documents of the tab "Tedarikçi Belgeleri" (lines 165 and 197): `d.supplierId`. -/
def isSupplierDoc (d : Doc) : Bool := truthy d.supplierId

/-- The value of `hay.includes(needle)`. -/
def includes (hay needle : String) : Bool :=
  hay.data.tails.any fun t => needle.data.isPrefixOf t

/-- The value of `x?.toLowerCase().includes(searchLower)` as a condition: an absent `x` gives
`undefined`, which counts as false.  `lower` is `String.prototype.toLowerCase`. -/
def lowerIncludes (lower : String → String) (x : Option String) (searchLower : String) : Bool :=
  match x with
  | some x => includes (lower x) searchLower
  | none => false

/-- The function `getJobInfo` (lines 141-144): the title and the customer of the job of that
id, `none` (for `null`) when there is no such job. -/
def getJobInfo (jobs : List Job) (jobId : Option String) : Option (String × Option String) :=
  match jobs.find? fun j => decide (some j.id = jobId) with
  | some job => some (job.title, if truthy job.customer then job.customer else job.customerName)
  | none => none

/-- The function `getSupplierInfo` (lines 147-150). -/
def getSupplierInfo (suppliers : List Supplier) (supplierId : Option String) : Option String :=
  match suppliers.find? fun s => decide (some s.id = supplierId) with
  | some supplier => some supplier.name
  | none => none

/-- The condition of the search filter (lines 171-181) for a search text that is not empty. -/
def matchesSearch (lower : String → String) (s : State) (searchLower : String) (doc : Doc) :
    Bool :=
  lowerIncludes lower doc.originalName searchLower ||
  lowerIncludes lower doc.description searchLower ||
  lowerIncludes lower ((getJobInfo s.jobs doc.jobId).map (·.1)) searchLower ||
  lowerIncludes lower ((getJobInfo s.jobs doc.jobId).bind (·.2)) searchLower ||
  lowerIncludes lower (getSupplierInfo s.suppliers doc.supplierId) searchLower

/-- The documents left by the filter of the active tab (lines 157-166). -/
def tabDocs (s : State) : List Doc :=
  if s.activeTab = "jobs" then s.documents.filter isJobDoc
  else if s.activeTab = "company" then
    match s.selectedFolder with
    | some selectedFolder =>
      if selectedFolder ≠ "" then
        (s.documents.filter isCompanyDoc).filter fun d => decide (d.folderId = some selectedFolder)
      else s.documents.filter isCompanyDoc
    | none => s.documents.filter isCompanyDoc
  else if s.activeTab = "suppliers" then s.documents.filter isSupplierDoc
  else s.documents

/-- The `filteredDocs` memo (lines 153-185). -/
def filteredDocs (lower : String → String) (s : State) : List Doc :=
  if s.search ≠ "" then (tabDocs s).filter (matchesSearch lower s (lower s.search))
  else tabDocs s

/-- The object of the `stats` memo (lines 194-199). -/
structure Stats where
  total : Nat
  jobDocs : Nat
  companyDocs : Nat
  supplierDocs : Nat
  deriving DecidableEq, Repr

/-- The value of the `stats` memo for the documents of the state. -/
def stats (s : State) : Stats :=
  { total := s.documents.length
    jobDocs := (s.documents.filter isJobDoc).length
    companyDocs := (s.documents.filter isCompanyDoc).length
    supplierDocs := (s.documents.filter isSupplierDoc).length }

/-- The number on the badge of a tab (line 357). -/
def tabBadge (s : State) (tab : String) : Nat :=
  if tab = "jobs" then (stats s).jobDocs
  else if tab = "company" then (stats s).companyDocs
  else (stats s).supplierDocs

/-- The ids of the three tabs (`TABS`, lines 54-58). -/
def TABS : List String := ["jobs", "company", "suppliers"]

end Arsiv

namespace Arsiv

/-! ## The size of a file as text (`formatFileSize`, lines 70-75) -/

/-- The table `sizes` of `formatFileSize` (line 72). -/
def sizes : List String := ["B", "KB", "MB", "GB"]

/-- The index `Math.floor(Math.log(bytes) / Math.log(1024))` of line 73 for a whole number of
bytes that is not zero: the whole part of the logarithm to base 1024.  The rounding of the
floating-point quotient of the two logarithms is not modelled. -/
def sizeIndex (bytes : Nat) : Nat := Nat.log 1024 bytes

/-- The value of `(num / den).toFixed(1)` for whole numbers `num` and `den`, `den` a power of
two (the division is then exact in floating point): the decimal with one digit after the
point that is closest to the quotient, the larger one of two that are equally close. -/
def toFixed1 (num den : Nat) : String :=
  toString ((20 * num + den) / (2 * den) / 10) ++ "." ++
    toString ((20 * num + den) / (2 * den) % 10)

/-- The function `formatFileSize`; `none` is a size that is `undefined` or `null`.  An index
outside the table reads `undefined`, which the template literal prints as that word. -/
def formatFileSize (bytes : Option Nat) : String :=
  match bytes with
  | none => "-"
  | some bytes =>
    if bytes = 0 then "-"
    else
      toFixed1 bytes (1024 ^ sizeIndex bytes) ++ " " ++
        (sizes[sizeIndex bytes]?).getD "undefined"

end Arsiv

namespace JSDate

/-! ## `Date.prototype.setMonth` and the date-only form of `Date.parse` -/

/-- The time value after `d.setMonth(month)` on a date of time value `t`: the day of the month
is kept and carried over by `MakeDay` when the new month has no such day. -/
def setMonth (tza t month : Int) : Int :=
  let lt := LocalTime tza t
  UTC tza (MakeDate (MakeDay (YearFromTime lt) month (DateFromTime lt)) (TimeWithinDay lt))

/-- The value of a decimal digit. -/
def digitValue (c : Char) : Option Int :=
  if 48 ≤ c.toNat ∧ c.toNat ≤ 57 then some ((c.toNat : Int) - 48) else none

/-- The time value `Date.parse` gives a string of the date-only form `YYYY-MM-DD` of the ISO
format: midnight UTC of that day.  A string of another form, and a day that does not exist,
give `none` here; the other forms `Date.parse` accepts are not modelled. -/
def parseDateOnly (s : String) : Option Int :=
  match s.data with
  | [y₁, y₂, y₃, y₄, '-', m₁, m₂, '-', d₁, d₂] => do
    let a ← digitValue y₁
    let b ← digitValue y₂
    let c ← digitValue y₃
    let d ← digitValue y₄
    let e ← digitValue m₁
    let f ← digitValue m₂
    let g ← digitValue d₁
    let h ← digitValue d₂
    if 1 ≤ 10 * e + f ∧ 10 * e + f ≤ 12 ∧ 1 ≤ 10 * g + h ∧
        10 * g + h ≤ DaysInMonth (1000 * a + 100 * b + 10 * c + d) (10 * e + f - 1) then
      some (MakeDate (MakeDay (1000 * a + 100 * b + 10 * c + d) (10 * e + f - 1) (10 * g + h)) 0)
    else none
  | _ => none

end JSDate

namespace MontajTakvim

open JSDate

/-! ## The buttons "Önceki" and "Sonraki" (lines 169-187) -/

/-- The function `prevPeriod`. -/
def prevPeriod (tza : Int) (s : State) : State :=
  { s with currentDate :=
      if s.viewMode = "month" then setMonth tza s.currentDate (getMonth tza s.currentDate - 1)
      else setDate tza s.currentDate (getDate tza s.currentDate - 7) }

/-- The function `nextPeriod`. -/
def nextPeriod (tza : Int) (s : State) : State :=
  { s with currentDate :=
      if s.viewMode = "month" then setMonth tza s.currentDate (getMonth tza s.currentDate + 1)
      else setDate tza s.currentDate (getDate tza s.currentDate + 7) }

end MontajTakvim
namespace JSDate

/-! ## Facts about the date arithmetic -/

theorem DayFromYear_succ (y : Int) : DayFromYear (y + 1) = DayFromYear y + DaysInYear y := by
  unfold DayFromYear DaysInYear
  split_ifs <;> omega

theorem YearFromDay_spec (d : Int) :
    DayFromYear (YearFromDay d) ≤ d ∧ d < DayFromYear (YearFromDay d + 1) := by
  unfold YearFromDay
  simp only
  split_ifs with h1 h2
  · refine ⟨h1, ?_⟩
    unfold DayFromYear at *
    omega
  · exact ⟨h2, by omega⟩
  · refine ⟨?_, ?_⟩
    · unfold DayFromYear at *
      omega
    · simp only [sub_add_cancel]; omega

theorem DayFromYear_lt {a b : Int} (h : a < b) : DayFromYear a < DayFromYear b := by
  unfold DayFromYear
  omega

theorem YearFromDay_unique {d y : Int} (h1 : DayFromYear y ≤ d) (h2 : d < DayFromYear (y + 1)) :
    YearFromDay d = y := by
  have hs := YearFromDay_spec d
  by_contra hne
  rcases lt_or_gt_of_ne hne with h | h
  · have hle : YearFromDay d + 1 ≤ y := h
    rcases hle.lt_or_eq with h' | h'
    · have := DayFromYear_lt h'; omega
    · rw [h'] at hs; omega
  · have hle : y + 1 ≤ YearFromDay d := h
    rcases hle.lt_or_eq with h' | h'
    · have := DayFromYear_lt h'; omega
    · rw [← h'] at hs; omega

theorem InLeapYear_cases (y : Int) : InLeapYear y = 0 ∨ InLeapYear y = 1 := by
  unfold InLeapYear; split_ifs <;> simp

theorem DaysInYear_eq (y : Int) : DaysInYear y = 365 + InLeapYear y := by
  unfold InLeapYear DaysInYear; split_ifs <;> simp_all

theorem DayWithinYear_bounds (d : Int) :
    0 ≤ DayWithinYear d ∧ DayWithinYear d < 365 + InLeapYear (YearFromDay d) := by
  have hs := YearFromDay_spec d
  rw [DayFromYear_succ, DaysInYear_eq] at hs
  unfold DayWithinYear
  omega

theorem monthOf_spec (w l m : Int) (hw : 0 ≤ w) (hm : monthOf w l = m) :
    0 ≤ m ∧ m ≤ 11 ∧ monthStart m l ≤ w ∧ (m ≤ 10 → w < monthStart (m + 1) l) := by
  rw [monthOf] at hm
  by_cases c0 : w < 31
  · rw [if_pos c0] at hm; subst hm; simp [monthStart]; omega
  rw [if_neg c0] at hm
  by_cases c1 : w < 59 + l
  · rw [if_pos c1] at hm; subst hm; simp [monthStart]; omega
  rw [if_neg c1] at hm
  by_cases c2 : w < 90 + l
  · rw [if_pos c2] at hm; subst hm; simp [monthStart]; omega
  rw [if_neg c2] at hm
  by_cases c3 : w < 120 + l
  · rw [if_pos c3] at hm; subst hm; simp [monthStart]; omega
  rw [if_neg c3] at hm
  by_cases c4 : w < 151 + l
  · rw [if_pos c4] at hm; subst hm; simp [monthStart]; omega
  rw [if_neg c4] at hm
  by_cases c5 : w < 181 + l
  · rw [if_pos c5] at hm; subst hm; simp [monthStart]; omega
  rw [if_neg c5] at hm
  by_cases c6 : w < 212 + l
  · rw [if_pos c6] at hm; subst hm; simp [monthStart]; omega
  rw [if_neg c6] at hm
  by_cases c7 : w < 243 + l
  · rw [if_pos c7] at hm; subst hm; simp [monthStart]; omega
  rw [if_neg c7] at hm
  by_cases c8 : w < 273 + l
  · rw [if_pos c8] at hm; subst hm; simp [monthStart]; omega
  rw [if_neg c8] at hm
  by_cases c9 : w < 304 + l
  · rw [if_pos c9] at hm; subst hm; simp [monthStart]; omega
  rw [if_neg c9] at hm
  by_cases c10 : w < 334 + l
  · rw [if_pos c10] at hm; subst hm; simp [monthStart]; omega
  rw [if_neg c10] at hm
  subst hm; simp [monthStart]; omega

theorem monthStart_lin (m l : Int) (hm0 : 0 ≤ m) (hm1 : m ≤ 11) (hl : l = 0 ∨ l = 1) :
    30 * m - 3 ≤ monthStart m l ∧ monthStart m l ≤ 31 * m := by
  interval_cases m <;> simp [monthStart] <;> omega

theorem monthStart_mono {a b l : Int} (ha : 0 ≤ a) (hab : a ≤ b) (hb : b ≤ 11)
    (hl : l = 0 ∨ l = 1) : monthStart a l ≤ monthStart b l := by
  rcases hab.lt_or_eq with h | h
  · have h1 := monthStart_lin a l ha (by omega) hl
    have h2 := monthStart_lin b l (by omega) hb hl
    omega
  · subst h; exact le_refl _

theorem monthOf_unique (w l m : Int) (hw : 0 ≤ w) (hm0 : 0 ≤ m) (hm1 : m ≤ 11)
    (h1 : monthStart m l ≤ w) (h2 : m ≤ 10 → w < monthStart (m + 1) l)
    (hl : l = 0 ∨ l = 1) : monthOf w l = m := by
  obtain ⟨a, b, c, d⟩ := monthOf_spec w l _ hw rfl
  generalize monthOf w l = k at *
  by_contra hne
  rcases lt_or_gt_of_ne hne with h | h
  · have := monthStart_mono (l := l) (show 0 ≤ k + 1 by omega) (show k + 1 ≤ m by omega) hm1 hl
    have := d (by omega)
    omega
  · have := monthStart_mono (l := l) (show 0 ≤ m + 1 by omega) (show m + 1 ≤ k by omega) b hl
    have := h2 (by omega)
    omega

theorem monthStart_succ (y m : Int) (hm0 : 0 ≤ m) (hm1 : m ≤ 10) :
    monthStart (m + 1) (InLeapYear y) = monthStart m (InLeapYear y) + DaysInMonth y m := by
  interval_cases m <;> simp [monthStart, DaysInMonth] <;> omega

theorem monthStart_last (y : Int) :
    monthStart 11 (InLeapYear y) + DaysInMonth y 11 = DaysInYear y := by
  rw [DaysInYear_eq]; simp [monthStart, DaysInMonth]; omega

theorem DaysInMonth_bounds (y m : Int) : 28 ≤ DaysInMonth y m ∧ DaysInMonth y m ≤ 31 := by
  have := InLeapYear_cases y
  unfold DaysInMonth
  split_ifs <;> omega

theorem MonthFromDay_bounds (d : Int) : 0 ≤ MonthFromDay d ∧ MonthFromDay d ≤ 11 := by
  obtain ⟨a, b, _, _⟩ := monthOf_spec _ _ _ (DayWithinYear_bounds d).1 (rfl : MonthFromDay d = _)
  exact ⟨a, b⟩

/-- Changing only the day of the month moves the day number by the same amount. -/
theorem MakeDay_civil (d dt : Int) :
    MakeDay (YearFromDay d) (MonthFromDay d) dt = d - DateFromDay d + dt := by
  have hm := MonthFromDay_bounds d
  have h1 : MonthFromDay d / 12 = 0 := by omega
  have h2 : MonthFromDay d % 12 = MonthFromDay d := by omega
  simp only [MakeDay, h1, h2, add_zero, DateFromDay, DayWithinYear]
  omega

theorem DateFromDay_bounds (d : Int) : 1 ≤ DateFromDay d ∧ DateFromDay d ≤ 31 := by
  obtain ⟨hw0, hw1⟩ := DayWithinYear_bounds d
  obtain ⟨a, b, c, e⟩ := monthOf_spec _ _ _ hw0 (rfl : MonthFromDay d = _)
  have hl := InLeapYear_cases (YearFromDay d)
  unfold DateFromDay
  generalize MonthFromDay d = m at *
  generalize DayWithinYear d = w at *
  generalize InLeapYear (YearFromDay d) = l at *
  interval_cases m <;> simp [monthStart] at * <;> omega

/-- The civil date of day `k` of month `m` of year `y`, for a day that exists in that month. -/
theorem civil_MakeDay (y m k : Int) (hm0 : 0 ≤ m) (hm1 : m ≤ 11) (hk0 : 1 ≤ k)
    (hk1 : k ≤ DaysInMonth y m) :
    YearFromDay (MakeDay y m k) = y ∧ MonthFromDay (MakeDay y m k) = m ∧
      DateFromDay (MakeDay y m k) = k := by
  have h1 : m / 12 = 0 := by omega
  have h2 : m % 12 = m := by omega
  have hd : MakeDay y m k = DayFromYear y + monthStart m (InLeapYear y) + k - 1 := by
    simp only [MakeDay, h1, h2, add_zero]
  have hl := InLeapYear_cases y
  have hs0 : 0 ≤ monthStart m (InLeapYear y) := by
    interval_cases m <;> simp [monthStart] <;> omega
  have hs1 : m ≤ 10 → monthStart m (InLeapYear y) + k - 1 < monthStart (m + 1) (InLeapYear y) := by
    intro h; rw [monthStart_succ y m hm0 h]; omega
  have hs2 : monthStart m (InLeapYear y) + k - 1 < 365 + InLeapYear y := by
    rcases (show m ≤ 10 ∨ m = 11 by omega) with h | h
    · have h1 := hs1 h
      have h2 := monthStart_mono (l := InLeapYear y) (show 0 ≤ m + 1 by omega)
        (show m + 1 ≤ 11 by omega) (le_refl _) hl
      have e : monthStart 11 (InLeapYear y) = 334 + InLeapYear y := by simp [monthStart]
      omega
    · subst h
      have := monthStart_last y
      rw [DaysInYear_eq] at this
      omega
  have hy : YearFromDay (MakeDay y m k) = y := by
    apply YearFromDay_unique
    · omega
    · rw [DayFromYear_succ, DaysInYear_eq]; omega
  have hw : DayWithinYear (MakeDay y m k) = monthStart m (InLeapYear y) + k - 1 := by
    unfold DayWithinYear; rw [hy]; omega
  have hmo : MonthFromDay (MakeDay y m k) = m := by
    unfold MonthFromDay
    rw [hy, hw]
    exact monthOf_unique _ _ _ (by omega) hm0 hm1 (by omega) hs1 hl
  refine ⟨hy, hmo, ?_⟩
  unfold DateFromDay
  rw [hmo, hy, hw]
  omega

/-- Day 0 of the following month is the last day of the month. -/
theorem MakeDay_next_month (y m dt : Int) (hm0 : 0 ≤ m) (hm1 : m ≤ 11) :
    MakeDay y (m + 1) dt = MakeDay y m (DaysInMonth y m + dt) := by
  rcases (show m ≤ 10 ∨ m = 11 by omega) with h | h
  · have h1 : m / 12 = 0 := by omega
    have h2 : m % 12 = m := by omega
    have h3 : (m + 1) / 12 = 0 := by omega
    have h4 : (m + 1) % 12 = m + 1 := by omega
    simp only [MakeDay, h1, h2, h3, h4, add_zero]
    rw [monthStart_succ y m hm0 h]
    omega
  · subst h
    have h := monthStart_last y
    have e1 : ((11 : Int) + 1) / 12 = 1 := by decide
    have e2 : ((11 : Int) + 1) % 12 = 0 := by decide
    have e3 : (11 : Int) / 12 = 0 := by decide
    have e4 : (11 : Int) % 12 = 11 := by decide
    simp only [MakeDay, e1, e2, e3, e4, add_zero]
    rw [DayFromYear_succ]
    have : monthStart 0 (InLeapYear (y + 1)) = 0 := by simp [monthStart]
    omega

theorem MakeDay_date (y m a b : Int) : MakeDay y m a = MakeDay y m b + (a - b) := by
  simp only [MakeDay]; omega

theorem Day_MakeDate (d r : Int) (h0 : 0 ≤ r) (h1 : r < msPerDay) : Day (MakeDate d r) = d := by
  unfold Day MakeDate msPerDay at *
  omega

theorem TimeWithinDay_bounds (t : Int) : 0 ≤ TimeWithinDay t ∧ TimeWithinDay t < msPerDay := by
  unfold TimeWithinDay msPerDay
  omega

theorem Day_add_days (t k : Int) : Day (t + k * msPerDay) = Day t + k := by
  unfold Day msPerDay
  omega

theorem WeekDay_bounds (t : Int) : 0 ≤ WeekDay t ∧ WeekDay t ≤ 6 := by
  unfold WeekDay
  omega

/-- The local day number of `new Date(year, month, date)`. -/
theorem localDay_newDate (tza y m dt : Int) :
    Day (LocalTime tza (newDate tza y m dt)) = MakeDay (MakeFullYear y) m dt := by
  unfold LocalTime newDate UTC
  rw [sub_add_cancel]
  exact Day_MakeDate _ 0 (by decide) (by decide)

theorem setDate_getDate_add (tza t k : Int) :
    setDate tza t (getDate tza t + k) = t + k * msPerDay := by
  unfold setDate getDate
  simp only [YearFromTime, MonthFromTime, DateFromTime]
  rw [MakeDay_civil]
  unfold UTC MakeDate LocalTime Day TimeWithinDay msPerDay
  omega

theorem DateFromDay_le (d : Int) :
    DateFromDay d ≤ DaysInMonth (YearFromDay d) (MonthFromDay d) := by
  obtain ⟨hw0, hw1⟩ := DayWithinYear_bounds d
  obtain ⟨a, b, c, e⟩ := monthOf_spec _ _ _ hw0 (rfl : MonthFromDay d = _)
  unfold DateFromDay
  rcases (show MonthFromDay d ≤ 10 ∨ MonthFromDay d = 11 by omega) with h | h
  · have := e h
    rw [monthStart_succ _ _ a h] at this
    omega
  · have := monthStart_last (YearFromDay d)
    rw [DaysInYear_eq] at this
    rw [h] at c ⊢
    omega

/-- A day lies in month `m` of year `y` exactly when its number is in the range of that month. -/
theorem civil_month_iff (d y m : Int) (hm0 : 0 ≤ m) (hm1 : m ≤ 11) :
    (YearFromDay d = y ∧ MonthFromDay d = m) ↔
      (MakeDay y m 1 ≤ d ∧ d < MakeDay y m 1 + DaysInMonth y m) := by
  constructor
  · rintro ⟨rfl, rfl⟩
    have h := MakeDay_civil d 1
    have h1 := DateFromDay_bounds d
    have h2 := DateFromDay_le d
    omega
  · rintro ⟨h1, h2⟩
    have h := civil_MakeDay y m (d - MakeDay y m 1 + 1) hm0 hm1 (by omega) (by omega)
    have e : MakeDay y m (d - MakeDay y m 1 + 1) = d := by
      rw [MakeDay_date y m _ 1]; omega
    rw [e] at h
    exact ⟨h.1, h.2.1⟩

end JSDate

namespace MontajTakvim

open JSDate

/-! ## The calendar grid -/

theorem mondayIndex_bounds (tza d : Int) : 0 ≤ mondayIndex tza d ∧ mondayIndex tza d ≤ 6 := by
  have h := WeekDay_bounds (LocalTime tza d)
  unfold mondayIndex getDay
  split_ifs <;> omega

theorem getDate_bounds (tza t : Int) : 1 ≤ getDate tza t ∧ getDate tza t ≤ 31 :=
  DateFromDay_bounds _

theorem getMonth_bounds (tza t : Int) : 0 ≤ getMonth tza t ∧ getMonth tza t ≤ 11 :=
  MonthFromDay_bounds _

/-- The value of `lastDay.getDate()`: the number of days of the displayed month. -/
theorem getDate_lastDay (tza y m : Int) (hm0 : 0 ≤ m) (hm1 : m ≤ 11) :
    getDate tza (newDate tza y (m + 1) 0) = DaysInMonth (MakeFullYear y) m := by
  unfold getDate DateFromTime
  rw [localDay_newDate, MakeDay_next_month _ _ _ hm0 hm1, add_zero]
  exact (civil_MakeDay _ _ _ hm0 hm1 (by have := DaysInMonth_bounds (MakeFullYear y) m; omega)
    (le_refl _)).2.2

theorem map_range_getElem? {α : Type} (f : Nat → α) {n j : Nat} (h : j < n) :
    ((List.range n).map f)[j]? = some (f j) := by
  rw [List.getElem?_map, List.getElem?_range h]; rfl

theorem newDate_date (tza y m a b : Int) :
    newDate tza y m a = newDate tza y m b + (a - b) * msPerDay := by
  unfold newDate UTC MakeDate
  rw [MakeDay_date _ m a b]
  ring

theorem calendarDays_month_eq (tza t : Int) :
    calendarDays tza t "month" =
      (List.range 42).map (monthCell (newDate tza (getFullYear tza t) (getMonth tza t) 1)
        (mondayIndex tza (newDate tza (getFullYear tza t) (getMonth tza t) 1)).toNat
        (DaysInMonth (MakeFullYear (getFullYear tza t)) (getMonth tza t)).toNat) := by
  obtain ⟨hm0, hm1⟩ := getMonth_bounds tza t
  have hs := mondayIndex_bounds tza (newDate tza (getFullYear tza t) (getMonth tza t) 1)
  have hn := DaysInMonth_bounds (MakeFullYear (getFullYear tza t)) (getMonth tza t)
  simp only [calendarDays, if_true, getDate_lastDay _ _ _ hm0 hm1]
  generalize getFullYear tza t = y at *
  generalize getMonth tza t = m at *
  generalize hF : newDate tza y m 1 = F at *
  generalize mondayIndex tza F = sI at *
  generalize hnI : DaysInMonth (MakeFullYear y) m = nI at *
  obtain ⟨s, rfl⟩ := Int.eq_ofNat_of_zero_le hs.1
  obtain ⟨n, rfl⟩ := Int.eq_ofNat_of_zero_le (show 0 ≤ nI by omega)
  simp only [Int.toNat_ofNat, List.length_append, List.length_map, List.length_reverse,
    List.length_range]
  have hr : ((42 : Int) - ((s + n : Nat) : Int)).toNat = 42 - s - n := by omega
  rw [hr]
  have h42 : 42 = s + (n + (42 - s - n)) := by omega
  conv_rhs => rw [h42, List.range_add, List.range_add]
  simp only [List.map_append, List.map_map, List.append_assoc]
  congr 1
  · rw [List.range_eq_range', List.reverse_range', ← List.range_eq_range', List.map_map]
    apply List.map_congr_left
    intro j hj
    have hj := List.mem_range.1 hj
    simp only [Function.comp, monthCell]
    congr 1
    · rw [newDate_date tza y m _ 1, hF]
      congr 2
      omega
    · simp; omega
  congr 1
  · apply List.map_congr_left
    intro j hj
    have hj := List.mem_range.1 hj
    simp only [Function.comp, monthCell]
    congr 1
    · rw [newDate_date tza y m _ 1, hF]
      congr 2
      push_cast
      omega
    · simp; omega
  · apply List.map_congr_left
    intro j hj
    have hj := List.mem_range.1 hj
    simp only [Function.comp, monthCell]
    congr 1
    · unfold newDate at hF ⊢
      rw [MakeDay_next_month _ _ _ hm0 hm1, hnI, MakeDay_date _ m _ 1]
      rw [← hF]
      unfold UTC MakeDate
      push_cast
      ring
    · simp


theorem calendarDays_week_eq (tza t : Int) (v : String) (hv : v ≠ "month") :
    calendarDays tza t v =
      (List.range 7).map fun (i : Nat) =>
        CalendarDay.mk (t + ((i : Int) - mondayIndex tza t) * msPerDay) true := by
  simp only [calendarDays, if_neg hv]
  apply List.map_congr_left
  intro i _
  rw [setDate_getDate_add, sub_eq_add_neg, setDate_getDate_add]
  congr 1
  ring

theorem getDay_add_days (tza t k : Int) :
    getDay tza (t + k * msPerDay) = (getDay tza t + k) % 7 := by
  unfold getDay WeekDay LocalTime
  rw [show t + k * msPerDay + tza = (t + tza) + k * msPerDay by ring, Day_add_days]
  omega

theorem localDay_add_days (tza t k : Int) :
    Day (LocalTime tza (t + k * msPerDay)) = Day (LocalTime tza t) + k := by
  unfold LocalTime
  rw [show t + k * msPerDay + tza = (t + tza) + k * msPerDay by ring, Day_add_days]

theorem getDay_bounds (tza t : Int) : 0 ≤ getDay tza t ∧ getDay tza t ≤ 6 :=
  WeekDay_bounds _

theorem getDay_sub_mondayIndex (tza t : Int) :
    getDay tza (t + (0 - mondayIndex tza t) * msPerDay) = 1 := by
  rw [getDay_add_days]
  have h := getDay_bounds tza t
  unfold mondayIndex
  split_ifs <;> omega

/-- C1: for every reference date the grid has exactly 42 entries in month mode and exactly 7
entries in week mode. -/
theorem calendarDays_length (tza currentDate : Int) :
    (calendarDays tza currentDate "month").length = 42 ∧
      (calendarDays tza currentDate "week").length = 7 := by
  constructor
  · rw [calendarDays_month_eq]; simp
  · rw [calendarDays_week_eq _ _ _ (by decide)]; simp

/-- C2: for every reference date and in both view modes the grid has a first entry, and that
entry falls on a Monday (`getDay` is 1). -/
theorem calendarDays_first_is_monday (tza currentDate : Int) :
    (∃ e, (calendarDays tza currentDate "month").head? = some e ∧ getDay tza e.date = 1) ∧
      (∃ e, (calendarDays tza currentDate "week").head? = some e ∧ getDay tza e.date = 1) := by
  constructor
  · rw [calendarDays_month_eq]
    refine ⟨_, rfl, ?_⟩
    have hs := mondayIndex_bounds tza
      (newDate tza (getFullYear tza currentDate) (getMonth tza currentDate) 1)
    simp only [monthCell, Int.toNat_of_nonneg hs.1, Nat.cast_zero]
    exact getDay_sub_mondayIndex tza _
  · rw [calendarDays_week_eq _ _ _ (by decide)]
    refine ⟨_, rfl, ?_⟩
    simp only [Nat.cast_zero]
    exact getDay_sub_mondayIndex tza _

/-- C3: in month mode the 42 entries are consecutive calendar days: entry `i + 1` is the local
midnight exactly one day (86400000 ms, one local day number) after entry `i`. -/
theorem calendarDays_month_consecutive (tza currentDate : Int) (i : Nat) (hi : i + 1 < 42) :
    ∃ a b, (calendarDays tza currentDate "month")[i]? = some a ∧
      (calendarDays tza currentDate "month")[i + 1]? = some b ∧
      b.date = a.date + msPerDay ∧
      Day (LocalTime tza b.date) = Day (LocalTime tza a.date) + 1 := by
  rw [calendarDays_month_eq]
  generalize newDate tza (getFullYear tza currentDate) (getMonth tza currentDate) 1 = F
  generalize (mondayIndex tza F).toNat = s
  generalize (DaysInMonth (MakeFullYear (getFullYear tza currentDate))
    (getMonth tza currentDate)).toNat = n
  refine ⟨monthCell F s n i, monthCell F s n (i + 1), map_range_getElem? _ (by omega),
    map_range_getElem? _ (by omega), ?_, ?_⟩
  · simp only [monthCell]; push_cast; ring
  · simp only [monthCell]
    rw [← localDay_add_days tza _ 1]
    congr 2
    push_cast; ring

theorem calendarDays_month_consecutive_witness :
    ∃ a b, (calendarDays 0 0 "month")[3]? = some a ∧
      (calendarDays 0 0 "month")[3 + 1]? = some b ∧
      b.date = a.date + msPerDay ∧
      Day (LocalTime 0 b.date) = Day (LocalTime 0 a.date) + 1 :=
  calendarDays_month_consecutive 0 0 3 (by decide)


/-- The local day number of entry `j` of the month grid. -/
theorem localDay_monthCell (tza y m : Int) (s n j : Nat) :
    Day (LocalTime tza (monthCell (newDate tza y m 1) s n j).date) =
      MakeDay (MakeFullYear y) m 1 + ((j : Int) - (s : Int)) := by
  simp only [monthCell]
  rw [localDay_add_days, localDay_newDate]

/-- In month mode an entry is flagged exactly when it lies in the month that
`new Date(year, month, 1)` denotes. -/
theorem calendarDays_month_flag (tza t : Int) (e : CalendarDay)
    (he : e ∈ calendarDays tza t "month") :
    e.isCurrentMonth = true ↔
      (getFullYear tza e.date = MakeFullYear (getFullYear tza t) ∧
        getMonth tza e.date = getMonth tza t) := by
  obtain ⟨hm0, hm1⟩ := getMonth_bounds tza t
  have hs := mondayIndex_bounds tza (newDate tza (getFullYear tza t) (getMonth tza t) 1)
  have hn := DaysInMonth_bounds (MakeFullYear (getFullYear tza t)) (getMonth tza t)
  rw [calendarDays_month_eq, List.mem_map] at he
  obtain ⟨j, _, rfl⟩ := he
  generalize getFullYear tza t = y at *
  generalize getMonth tza t = m at *
  have hd := localDay_monthCell tza y m (mondayIndex tza (newDate tza y m 1)).toNat
    (DaysInMonth (MakeFullYear y) m).toNat j
  simp only [getFullYear, getMonth, YearFromTime, MonthFromTime, hd]
  rw [civil_month_iff _ _ _ hm0 hm1]
  simp only [monthCell, decide_eq_true_eq]
  omega

/-- Every day of the displayed month is the local day of exactly one grid entry. -/
theorem calendarDays_month_day_once (tza t d : Int)
    (hy : YearFromDay d = MakeFullYear (getFullYear tza t)) (hm : MonthFromDay d = getMonth tza t) :
    ∃! j : Nat, ∃ e, (calendarDays tza t "month")[j]? = some e ∧
      Day (LocalTime tza e.date) = d := by
  obtain ⟨hm0, hm1⟩ := getMonth_bounds tza t
  have hs := mondayIndex_bounds tza (newDate tza (getFullYear tza t) (getMonth tza t) 1)
  have hn := DaysInMonth_bounds (MakeFullYear (getFullYear tza t)) (getMonth tza t)
  have hd := (civil_month_iff d _ _ hm0 hm1).1 ⟨hy, hm⟩
  rw [calendarDays_month_eq]
  refine ⟨(d - MakeDay (MakeFullYear (getFullYear tza t)) (getMonth tza t) 1 +
    mondayIndex tza (newDate tza (getFullYear tza t) (getMonth tza t) 1)).toNat, ?_, ?_⟩
  · refine ⟨_, map_range_getElem? _ (by omega), ?_⟩
    rw [localDay_monthCell]
    omega
  · rintro j ⟨e, he, hde⟩
    have hj : j < 42 := by
      by_contra hj
      rw [List.getElem?_eq_none (by simp; omega)] at he
      exact Option.noConfusion he
    rw [map_range_getElem? _ hj] at he
    cases he
    rw [localDay_monthCell] at hde
    omega


theorem getDay_newDate (tza y m dt : Int) :
    getDay tza (newDate tza y m dt) = (MakeDay (MakeFullYear y) m dt + 4) % 7 := by
  unfold getDay WeekDay
  rw [localDay_newDate]

theorem civil_newDate (tza y m k : Int) (hm0 : 0 ≤ m) (hm1 : m ≤ 11) (hk0 : 1 ≤ k)
    (hk1 : k ≤ DaysInMonth (MakeFullYear y) m) :
    getFullYear tza (newDate tza y m k) = MakeFullYear y ∧
      getMonth tza (newDate tza y m k) = m ∧ getDate tza (newDate tza y m k) = k := by
  unfold getFullYear getMonth getDate YearFromTime MonthFromTime DateFromTime
  rw [localDay_newDate]
  exact civil_MakeDay _ _ _ hm0 hm1 hk0 hk1

/-- C4 (the code at the failing input): for the reference date 0050-01-15 (time zone UTC) the
month grid flags 31 entries as current, every flagged entry lies in the year 1950 and no entry
of the grid lies in the reference year 50. -/
theorem calendarDays_month_year50 :
    getFullYear 0 (-60588086400000) = 50 ∧ getMonth 0 (-60588086400000) = 0 ∧
      getDate 0 (-60588086400000) = 15 ∧
      ((calendarDays 0 (-60588086400000) "month").filter (·.isCurrentMonth)).length = 31 ∧
      (∀ e ∈ calendarDays 0 (-60588086400000) "month",
        e.isCurrentMonth = true → getFullYear 0 e.date = 1950) ∧
      (∀ e ∈ calendarDays 0 (-60588086400000) "month", getFullYear 0 e.date ≠ 50) := by
  decide

/-- For a reference year outside 0..99 the month grid flags an entry exactly when its date lies
in the month and year of the reference date, and each day of that month is the local day of
exactly one entry. -/
theorem calendarDays_month_flag_full_year (tza currentDate : Int)
    (hy : ¬ (0 ≤ getFullYear tza currentDate ∧ getFullYear tza currentDate ≤ 99)) :
    (∀ e ∈ calendarDays tza currentDate "month",
      (e.isCurrentMonth = true ↔
        (getFullYear tza e.date = getFullYear tza currentDate ∧
          getMonth tza e.date = getMonth tza currentDate))) ∧
    (∀ d : Int, YearFromDay d = getFullYear tza currentDate →
      MonthFromDay d = getMonth tza currentDate →
      ∃! j : Nat, ∃ e, (calendarDays tza currentDate "month")[j]? = some e ∧
        Day (LocalTime tza e.date) = d) := by
  have hY : MakeFullYear (getFullYear tza currentDate) = getFullYear tza currentDate := by
    unfold MakeFullYear; rw [if_neg hy]
  constructor
  · intro e he
    have h := calendarDays_month_flag tza currentDate e he
    rw [hY] at h
    exact h
  · intro d h1 h2
    exact calendarDays_month_day_once tza currentDate d (by rw [hY]; exact h1) h2

/-- C5: in week mode the grid is the seven consecutive days Monday to Sunday of the week of the
reference date: entry `i` is `i - mondayIndex` days away from the reference date (so successive
entries are one day apart), its weekday is Monday for `i = 0` up to Sunday for `i = 6`, every
entry is flagged current, and the reference date itself is one of the entries. -/
theorem calendarDays_week (tza currentDate : Int) :
    (calendarDays tza currentDate "week").length = 7 ∧
      (∀ i : Fin 7, ∃ e, (calendarDays tza currentDate "week")[i.val]? = some e ∧
        e.isCurrentMonth = true ∧
        getDay tza e.date = ((i.val : Int) + 1) % 7 ∧
        e.date = currentDate + ((i.val : Int) - mondayIndex tza currentDate) * msPerDay ∧
        Day (LocalTime tza e.date) =
          Day (LocalTime tza currentDate) - mondayIndex tza currentDate + (i.val : Int)) ∧
      (∃ e ∈ calendarDays tza currentDate "week", e.date = currentDate) := by
  have hb := mondayIndex_bounds tza currentDate
  rw [calendarDays_week_eq _ _ _ (by decide)]
  refine ⟨by simp, ?_, ?_⟩
  · intro i
    refine ⟨_, map_range_getElem? _ i.isLt, rfl, ?_, rfl, ?_⟩
    · rw [getDay_add_days]
      have h := getDay_bounds tza currentDate
      unfold mondayIndex
      split_ifs <;> omega
    · rw [localDay_add_days]; ring
  · refine ⟨_, List.mem_map.2 ⟨(mondayIndex tza currentDate).toNat, ?_, rfl⟩, ?_⟩
    · rw [List.mem_range]; omega
    · show currentDate + _ * msPerDay = currentDate
      rw [Int.toNat_of_nonneg hb.1, sub_self, zero_mul, add_zero]

/-- C6: Sunday (`getDay` 0) maps to position 6 and every other weekday `w` to `w - 1`; the
entries before that position are flagged not-current and the entry at that position is the 1st
of the month, flagged current.  So a month whose 1st is a Sunday has the 1st at index 6, and a
month whose 1st is a Monday has no leading entry. -/
theorem calendarDays_month_leading (tza currentDate : Int) :
    getDate tza (firstDay tza currentDate) = 1 ∧
      (getDay tza (firstDay tza currentDate) = 0 →
        mondayIndex tza (firstDay tza currentDate) = 6) ∧
      (getDay tza (firstDay tza currentDate) ≠ 0 →
        mondayIndex tza (firstDay tza currentDate) = getDay tza (firstDay tza currentDate) - 1) ∧
      (∀ j : Nat, (j : Int) < mondayIndex tza (firstDay tza currentDate) →
        ∃ e, (calendarDays tza currentDate "month")[j]? = some e ∧ e.isCurrentMonth = false) ∧
      (calendarDays tza currentDate "month")[(mondayIndex tza (firstDay tza currentDate)).toNat]? =
        some ⟨firstDay tza currentDate, true⟩ ∧
      (getDay tza (firstDay tza currentDate) = 0 →
        (calendarDays tza currentDate "month")[6]? = some ⟨firstDay tza currentDate, true⟩) ∧
      (getDay tza (firstDay tza currentDate) = 1 →
        (calendarDays tza currentDate "month")[0]? = some ⟨firstDay tza currentDate, true⟩) := by
  obtain ⟨hm0, hm1⟩ := getMonth_bounds tza currentDate
  have hn := DaysInMonth_bounds (MakeFullYear (getFullYear tza currentDate))
    (getMonth tza currentDate)
  have hs := mondayIndex_bounds tza (firstDay tza currentDate)
  have hat : (calendarDays tza currentDate "month")[
      (mondayIndex tza (firstDay tza currentDate)).toNat]? =
        some ⟨firstDay tza currentDate, true⟩ := by
    rw [calendarDays_month_eq, map_range_getElem? _ (by omega)]
    simp only [monthCell, firstDay, sub_self, zero_mul, add_zero, Option.some.injEq,
      CalendarDay.mk.injEq, true_and, decide_eq_true_eq]
    omega
  refine ⟨?_, ?_, ?_, ?_, hat, ?_, ?_⟩
  · exact (civil_newDate tza _ _ 1 hm0 hm1 (le_refl _) (by omega)).2.2
  · intro h; unfold mondayIndex; rw [if_pos h]
  · intro h; unfold mondayIndex; rw [if_neg h]
  · intro j hj
    rw [calendarDays_month_eq]
    refine ⟨_, map_range_getElem? _ (by omega), ?_⟩
    simp only [monthCell, firstDay] at hj ⊢
    simp only [decide_eq_false_iff_not]
    omega
  · intro h
    have e : mondayIndex tza (firstDay tza currentDate) = 6 := by
      unfold mondayIndex; rw [if_pos h]
    rw [e] at hat
    exact hat
  · intro h
    have e : mondayIndex tza (firstDay tza currentDate) = 0 := by
      unfold mondayIndex; rw [if_neg (by omega)]; omega
    rw [e] at hat
    exact hat

theorem calendarDays_month_leading_witness :
    (calendarDays 0 1725148800000 "month")[6]? = some ⟨firstDay 0 1725148800000, true⟩ :=
  (calendarDays_month_leading 0 1725148800000).2.2.2.2.2.1 (by decide)

/-- C7: for the reference date 2024-03-01 (a Friday) in month mode the grid has 42 entries, the
first is Monday 2024-02-26 and the last is Sunday 2024-04-07. -/
theorem calendarDays_march_2024 (tza currentDate : Int)
    (hy : getFullYear tza currentDate = 2024) (hm : getMonth tza currentDate = 2)
    (hd : getDate tza currentDate = 1) :
    getDay tza currentDate = 5 ∧
      (calendarDays tza currentDate "month").length = 42 ∧
      (calendarDays tza currentDate "month").head? = some ⟨newDate tza 2024 1 26, false⟩ ∧
      (calendarDays tza currentDate "month").getLast? = some ⟨newDate tza 2024 3 7, false⟩ ∧
      getDay tza (newDate tza 2024 1 26) = 1 ∧ getDay tza (newDate tza 2024 3 7) = 0 ∧
      getFullYear tza (newDate tza 2024 1 26) = 2024 ∧ getMonth tza (newDate tza 2024 1 26) = 1 ∧
      getDate tza (newDate tza 2024 1 26) = 26 ∧
      getFullYear tza (newDate tza 2024 3 7) = 2024 ∧ getMonth tza (newDate tza 2024 3 7) = 3 ∧
      getDate tza (newDate tza 2024 3 7) = 7 := by
  have hF : getDay tza (newDate tza 2024 2 1) = 5 := by rw [getDay_newDate]; decide
  have hs : mondayIndex tza (newDate tza 2024 2 1) = 4 := by
    unfold mondayIndex; rw [hF]; decide
  have hn : DaysInMonth (MakeFullYear 2024) 2 = 31 := by decide
  have hday : Day (LocalTime tza currentDate) = 19783 := by
    have h := MakeDay_civil (Day (LocalTime tza currentDate)) 1
    unfold getFullYear YearFromTime at hy
    unfold getMonth MonthFromTime at hm
    unfold getDate DateFromTime at hd
    rw [hy, hm, hd, show MakeDay 2024 2 1 = 19783 by decide] at h
    omega
  have c1 := civil_newDate tza 2024 1 26 (by decide) (by decide) (by decide) (by decide)
  have c2 := civil_newDate tza 2024 3 7 (by decide) (by decide) (by decide) (by decide)
  rw [show MakeFullYear 2024 = 2024 by decide] at c1 c2
  refine ⟨?_, (calendarDays_length tza currentDate).1, ?_, ?_, ?_, ?_, c1.1, c1.2.1, c1.2.2,
    c2.1, c2.2.1, c2.2.2⟩
  · unfold getDay WeekDay; rw [hday]; decide
  · rw [calendarDays_month_eq, hy, hm, hs, hn]
    show some (monthCell _ 4 31 0) = _
    simp only [monthCell, newDate, UTC, MakeDate]
    rw [show MakeDay (MakeFullYear 2024) 2 1 = 19783 by decide,
      show MakeDay (MakeFullYear 2024) 1 26 = 19779 by decide]
    simp [msPerDay]
    omega
  · rw [calendarDays_month_eq, hy, hm, hs, hn, List.getLast?_eq_getElem?]
    simp only [List.length_map, List.length_range]
    rw [map_range_getElem? _ (by decide)]
    simp only [monthCell, newDate, UTC, MakeDate]
    rw [show MakeDay (MakeFullYear 2024) 2 1 = 19783 by decide,
      show MakeDay (MakeFullYear 2024) 3 7 = 19820 by decide]
    simp [msPerDay]
    omega
  · rw [getDay_newDate]; decide
  · rw [getDay_newDate]; decide

theorem calendarDays_march_2024_witness :
    getDay 0 1709251200000 = 5 ∧
      (calendarDays 0 1709251200000 "month").length = 42 ∧
      (calendarDays 0 1709251200000 "month").head? = some ⟨newDate 0 2024 1 26, false⟩ ∧
      (calendarDays 0 1709251200000 "month").getLast? = some ⟨newDate 0 2024 3 7, false⟩ ∧
      getDay 0 (newDate 0 2024 1 26) = 1 ∧ getDay 0 (newDate 0 2024 3 7) = 0 ∧
      getFullYear 0 (newDate 0 2024 1 26) = 2024 ∧ getMonth 0 (newDate 0 2024 1 26) = 1 ∧
      getDate 0 (newDate 0 2024 1 26) = 26 ∧
      getFullYear 0 (newDate 0 2024 3 7) = 2024 ∧ getMonth 0 (newDate 0 2024 3 7) = 3 ∧
      getDate 0 (newDate 0 2024 3 7) = 7 :=
  calendarDays_march_2024 0 1709251200000 (by decide) (by decide) (by decide)

end MontajTakvim

namespace MontajTakvim

/-! ## Task bucketing -/

theorem DateMap.get_set (map : DateMap) (k k' : String) (v : List Task) :
    (map.set k v).get k' = if k = k' then some v else map.get k' := by
  induction map with
  | nil => simp [DateMap.set, DateMap.get]
  | cons p rest ih =>
    obtain ⟨a, b⟩ := p
    by_cases h : a = k
    · subst h
      by_cases h2 : a = k' <;> simp [DateMap.set, DateMap.get, h2]
    · have hs : DateMap.set ((a, b) :: rest) k v = (a, b) :: DateMap.set rest k v := by
        simp [DateMap.set, h]
      rw [hs]
      by_cases h2 : a = k'
      · have h3 : ¬ k = k' := fun e => h (h2.trans e.symm)
        simp [DateMap.get, h2, h3]
      · simp [DateMap.get, h2, ih]

theorem bucketSizes_set (map : DateMap) (k : String) (v : List Task) :
    bucketSizes (map.set k v) + ((map.get k).getD []).length = bucketSizes map + v.length := by
  induction map with
  | nil => simp [DateMap.set, DateMap.get, bucketSizes]
  | cons p rest ih =>
    obtain ⟨a, b⟩ := p
    by_cases h : a = k
    · simp [DateMap.set, DateMap.get, h, bucketSizes]; omega
    · simp only [DateMap.set, DateMap.get, h, if_false, bucketSizes, List.map_cons,
        List.sum_cons] at ih ⊢
      omega

theorem keys_set (map : DateMap) (k : String) (v : List Task) :
    (map.set k v).map Prod.fst = if (map.get k).isSome then map.map Prod.fst
      else map.map Prod.fst ++ [k] := by
  induction map with
  | nil => simp [DateMap.set, DateMap.get]
  | cons p rest ih =>
    obtain ⟨a, b⟩ := p
    by_cases h : a = k
    · simp [DateMap.set, DateMap.get, h]
    · simp only [DateMap.set, DateMap.get, h, if_false, List.map_cons, ih]
      split_ifs <;> simp

theorem get_isSome_iff (map : DateMap) (k : String) :
    (map.get k).isSome ↔ k ∈ map.map Prod.fst := by
  induction map with
  | nil => simp [DateMap.get]
  | cons p rest ih =>
    obtain ⟨a, b⟩ := p
    by_cases h : a = k
    · simp [DateMap.get, h]
    · simp only [DateMap.get, h, if_false, ih, List.map_cons, List.mem_cons]
      constructor
      · exact Or.inr
      · rintro (h2 | h2)
        · exact absurd h2.symm h
        · exact h2

theorem get_of_mem (map : DateMap) (hnd : (map.map Prod.fst).Nodup) (p : String × List Task)
    (hp : p ∈ map) : map.get p.1 = some p.2 := by
  obtain ⟨pk, pb⟩ := p
  induction map with
  | nil => cases hp
  | cons q rest ih =>
    obtain ⟨a, b⟩ := q
    rw [List.map_cons, List.nodup_cons] at hnd
    rcases List.mem_cons.1 hp with h | h
    · cases h; simp [DateMap.get]
    · have hne : a ≠ pk := by
        intro e
        subst e
        exact hnd.1 (List.mem_map.2 ⟨(a, pb), h, rfl⟩)
      simp only [DateMap.get, hne, if_false]
      exact ih hnd.2 h

/-- What one loop iteration does to a lookup. -/
theorem get_bucketStep (f : String) (map : DateMap) (t : Task) (k : String) :
    (bucketStep f map t).get k =
      if truthy t.plannedDate = true ∧ dateKey t = k ∧ (f = "" ∨ t.teamId = some f)
      then some ((map.get k).getD [] ++ [t]) else map.get k := by
  unfold bucketStep
  by_cases h1 : truthy t.plannedDate = true
  · by_cases h2 : f ≠ "" ∧ t.teamId ≠ some f
    · have h3 : ¬ (f = "" ∨ t.teamId = some f) := by
        rintro (h | h)
        · exact h2.1 h
        · exact h2.2 h
      simp [h1, h2, h3]
    · have h3 : f = "" ∨ t.teamId = some f := by
        by_contra h
        exact h2 ⟨fun e => h (Or.inl e), fun e => h (Or.inr e)⟩
      simp only [h1, h2, h3, Bool.not_true, Bool.false_eq_true, if_false, true_and, and_true]
      rw [DateMap.get_set]
      by_cases h4 : dateKey t = k
      · subst h4
        simp only [if_true]
        cases hg : map.get (dateKey t) with
        | none => simp [DateMap.get_set]
        | some b => simp [hg]
      · simp only [h4, if_false]
        cases hg : map.get (dateKey t) with
        | none => simp [DateMap.get_set, h4]
        | some b => simp
  · simp [h1]

theorem keys_bucketStep (f : String) (map : DateMap) (t : Task)
    (hnd : (map.map Prod.fst).Nodup) : ((bucketStep f map t).map Prod.fst).Nodup := by
  unfold bucketStep
  split_ifs with h1 h2
  · exact hnd
  · exact hnd
  · cases hg : map.get (dateKey t) with
    | none =>
      have hk : dateKey t ∉ map.map Prod.fst := by
        rw [← get_isSome_iff, hg]; simp
      simp only [hg, Option.isNone_none, if_true]
      rw [keys_set, DateMap.get_set, keys_set, hg]
      simp only [if_true, Option.isSome_some, Option.isSome_none, Bool.false_eq_true, if_false]
      exact List.Nodup.append hnd (List.nodup_singleton _) (by simpa using hk)
    | some b =>
      simp only [hg, Option.isNone_some, Bool.false_eq_true, if_false]
      rw [keys_set, hg]
      simpa using hnd

theorem bucketSizes_bucketStep (f : String) (map : DateMap) (t : Task) :
    bucketSizes (bucketStep f map t) = bucketSizes map +
      if truthy t.plannedDate = true ∧ (f = "" ∨ t.teamId = some f) then 1 else 0 := by
  unfold bucketStep
  by_cases h1 : truthy t.plannedDate = true
  · by_cases h2 : f ≠ "" ∧ t.teamId ≠ some f
    · have h3 : ¬ (f = "" ∨ t.teamId = some f) := by
        rintro (h | h)
        · exact h2.1 h
        · exact h2.2 h
      simp [h1, h2, h3]
    · have h3 : f = "" ∨ t.teamId = some f := by
        by_contra h
        exact h2 ⟨fun e => h (Or.inl e), fun e => h (Or.inr e)⟩
      simp only [h1, h2, h3, Bool.not_true, Bool.false_eq_true, if_false, true_and, and_true,
        if_true]
      cases hg : map.get (dateKey t) with
      | none =>
        simp only [hg, Option.isNone_none, if_true, DateMap.get_set, Option.getD_some,
          List.nil_append]
        have e1 := bucketSizes_set map (dateKey t) []
        have e2 := bucketSizes_set (map.set (dateKey t) []) (dateKey t) [t]
        rw [DateMap.get_set] at e2
        simp [hg] at e1 e2
        omega
      | some b =>
        simp only [hg, Option.isNone_some, Bool.false_eq_true, if_false, Option.getD_some]
        have e1 := bucketSizes_set map (dateKey t) (b ++ [t])
        simp [hg] at e1
        omega
  · simp [h1]

/-- The loop invariant of `tasksByDate`: after the tasks `pre` the map holds, under every key,
the bucket of the specification, and no key twice. -/
theorem foldl_bucketStep (f : String) (rest pre : List Task) (map : DateMap)
    (hget : ∀ k, map.get k =
      if bucketSpec pre f k = [] then none else some (bucketSpec pre f k))
    (hnd : (map.map Prod.fst).Nodup)
    (hsz : bucketSizes map =
      (pre.filter fun t => truthy t.plannedDate &&
        (decide (f = "") || decide (t.teamId = some f))).length) :
    (∀ k, (rest.foldl (bucketStep f) map).get k =
      if bucketSpec (pre ++ rest) f k = [] then none else some (bucketSpec (pre ++ rest) f k)) ∧
    ((rest.foldl (bucketStep f) map).map Prod.fst).Nodup ∧
    bucketSizes (rest.foldl (bucketStep f) map) =
      ((pre ++ rest).filter fun t => truthy t.plannedDate &&
        (decide (f = "") || decide (t.teamId = some f))).length := by
  induction rest generalizing pre map with
  | nil => simpa using ⟨hget, hnd, hsz⟩
  | cons t rest ih =>
    have h := ih (pre ++ [t]) (bucketStep f map t) ?_ (keys_bucketStep f map t hnd) ?_
    · simpa using h
    · intro k
      rw [get_bucketStep, hget k]
      unfold bucketSpec
      rw [List.filter_append]
      by_cases hc : truthy t.plannedDate = true ∧ dateKey t = k ∧ (f = "" ∨ t.teamId = some f)
      · have hb : (truthy t.plannedDate && decide (dateKey t = k) &&
            (decide (f = "") || decide (t.teamId = some f))) = true := by
          simpa [and_assoc] using hc
        rw [if_pos hc]
        simp only [List.filter_cons, List.filter_nil, hb, if_true]
        generalize List.filter _ pre = B
        rw [if_neg (by simp : ¬ (B ++ [t] = []))]
        by_cases h1 : B = [] <;> simp [h1]
      · have hb : (truthy t.plannedDate && decide (dateKey t = k) &&
            (decide (f = "") || decide (t.teamId = some f))) = false := by
          rw [Bool.eq_false_iff]
          intro hb
          exact hc (by simpa [and_assoc] using hb)
        rw [if_neg hc]
        simp only [List.filter_cons, List.filter_nil, hb, Bool.false_eq_true, if_false,
          List.append_nil]
    · rw [bucketSizes_bucketStep, hsz, List.filter_append]
      simp only [List.length_append, List.filter_cons, List.filter_nil]
      by_cases hc : truthy t.plannedDate = true ∧ (f = "" ∨ t.teamId = some f)
      · have hb : (truthy t.plannedDate &&
            (decide (f = "") || decide (t.teamId = some f))) = true := by
          simpa using hc
        rw [if_pos hc]
        simp [hb]
      · have hb : (truthy t.plannedDate &&
            (decide (f = "") || decide (t.teamId = some f))) = false := by
          rw [Bool.eq_false_iff]
          intro hb
          exact hc (by simpa using hb)
        rw [if_neg hc]
        simp [hb]

theorem tasksByDate_spec (tasks : List Task) (f : String) :
    (∀ k, (tasksByDate tasks f).get k =
      if bucketSpec tasks f k = [] then none else some (bucketSpec tasks f k)) ∧
    ((tasksByDate tasks f).map Prod.fst).Nodup ∧
    bucketSizes (tasksByDate tasks f) =
      (tasks.filter fun t => truthy t.plannedDate &&
        (decide (f = "") || decide (t.teamId = some f))).length := by
  have h := foldl_bucketStep f tasks [] [] (by simp [bucketSpec, DateMap.get]) (by simp)
    (by simp [bucketSizes])
  simpa [tasksByDate] using h

/-- C8: under every date key `k` the map built by `tasksByDate` stores exactly the input list
filtered, in arrival order, to the tasks that have a planned date with date part `k` and, when
a team filter is set, the team of the filter (`bucketSpec`); a key whose filtered list is
empty is absent, so no stored bucket is empty; every key is stored once; and with the empty
team filter the team plays no part in the filter. -/
theorem tasksByDate_bucket (tasks : List Task) (teamFilter : String) :
    (∀ k, (tasksByDate tasks teamFilter).get k =
      if bucketSpec tasks teamFilter k = [] then none
      else some (bucketSpec tasks teamFilter k)) ∧
    (∀ p ∈ tasksByDate tasks teamFilter,
      p.2 = bucketSpec tasks teamFilter p.1 ∧ p.2 ≠ []) ∧
    ((tasksByDate tasks teamFilter).map Prod.fst).Nodup ∧
    (∀ k, bucketSpec tasks "" k =
      tasks.filter fun t => truthy t.plannedDate && decide (dateKey t = k)) := by
  obtain ⟨hget, hnd, _⟩ := tasksByDate_spec tasks teamFilter
  refine ⟨hget, ?_, hnd, ?_⟩
  · intro p hp
    have h := get_of_mem _ hnd p hp
    rw [hget] at h
    by_cases he : bucketSpec tasks teamFilter p.1 = []
    · rw [if_pos he] at h; exact Option.noConfusion h
    · rw [if_neg he] at h
      have e := Option.some.inj h
      exact ⟨e.symm, e ▸ he⟩
  · intro k
    unfold bucketSpec
    simp

theorem tasksByDate_bucket_witness :
    (tasksByDate [{ id := 1, plannedDate := some "2024-03-05T08:00:00" },
        { id := 2 }, { id := 3, plannedDate := some "2024-03-05" }] "").get "2024-03-05" =
      some [{ id := 1, plannedDate := some "2024-03-05T08:00:00" },
        { id := 3, plannedDate := some "2024-03-05" }] :=
  ((tasksByDate_bucket [{ id := 1, plannedDate := some "2024-03-05T08:00:00" },
    { id := 2 }, { id := 3, plannedDate := some "2024-03-05" }] "").1 "2024-03-05").trans
    (by decide)

/-- C9: no bucket of the map built by `tasksByDate` holds a task whose planned date is absent
(`null`, `undefined` or the empty string). -/
theorem tasksByDate_planned_only (tasks : List Task) (teamFilter : String)
    (p : String × List Task) (hp : p ∈ tasksByDate tasks teamFilter)
    (t : Task) (ht : t ∈ p.2) :
    truthy t.plannedDate = true ∧ t.plannedDate ≠ none ∧ t.plannedDate ≠ some "" := by
  obtain ⟨hget, hnd, _⟩ := tasksByDate_spec tasks teamFilter
  have h := get_of_mem _ hnd p hp
  rw [hget] at h
  have hb : p.2 = bucketSpec tasks teamFilter p.1 := by
    by_cases he : bucketSpec tasks teamFilter p.1 = []
    · rw [if_pos he] at h; exact Option.noConfusion h
    · rw [if_neg he] at h; exact (Option.some.inj h).symm
  rw [hb] at ht
  unfold bucketSpec at ht
  have h1 : truthy t.plannedDate = true := by
    have := (List.mem_filter.1 ht).2
    simp only [Bool.and_eq_true] at this
    exact this.1.1
  refine ⟨h1, ?_, ?_⟩
  · intro e; rw [e] at h1; exact Bool.noConfusion h1
  · intro e; rw [e] at h1; revert h1; decide

theorem tasksByDate_planned_only_witness :
    truthy (some "2024-03-05") = true ∧ some "2024-03-05" ≠ (none : Option String) ∧
      some "2024-03-05" ≠ some "" :=
  tasksByDate_planned_only [{ id := 1, plannedDate := some "2024-03-05" }, { id := 2 }] ""
    ("2024-03-05", [{ id := 1, plannedDate := some "2024-03-05" }]) (by decide)
    { id := 1, plannedDate := some "2024-03-05" } (by decide)

theorem filter_not_length (tasks : List Task) (q : Task → Bool) :
    (tasks.filter fun t => !q t).length + (tasks.filter q).length = tasks.length := by
  induction tasks with
  | nil => rfl
  | cons t rest ih =>
    by_cases h : q t = true
    · simp [List.filter_cons, h]; omega
    · simp [List.filter_cons, h]; omega

/-- With no team filter, the number of tasks without a planned date (the tasks that line 109
skips) plus the sum of the sizes of all buckets of `tasksByDate` is the number of input
tasks. -/
theorem skipped_count (tasks : List Task) :
    (tasks.filter fun t => !truthy t.plannedDate).length + bucketSizes (tasksByDate tasks "") =
      tasks.length := by
  obtain ⟨_, _, hsz⟩ := tasksByDate_spec tasks ""
  rw [hsz]
  simpa using filter_not_length tasks (fun t => truthy t.plannedDate)

/-- The list rendered under "Planlanmamış Görevler" leaves out completed tasks and stops at 20
entries; when no task without a planned date is completed and at most 20 tasks have no planned
date, it is the list of all tasks without a planned date. -/
theorem unplannedList_eq_filter (tasks : List Task)
    (h1 : ∀ t ∈ tasks, truthy t.plannedDate = false → t.status ≠ some "completed")
    (h2 : (tasks.filter fun t => !truthy t.plannedDate).length ≤ 20) :
    unplannedList tasks "" = tasks.filter fun t => !truthy t.plannedDate := by
  have e : (tasks.filter fun t => !truthy t.plannedDate && decide (t.status ≠ some "completed")) =
      tasks.filter fun t => !truthy t.plannedDate := by
    apply List.filter_congr
    intro t ht
    cases hp : truthy t.plannedDate with
    | true => simp
    | false => simpa using h1 t ht hp
  unfold unplannedList
  rw [e]
  simp only [decide_True, Bool.true_or, List.filter_true]
  exact List.take_of_length_le h2

/-- C10 (as stated): the unplanned tasks the page shows are those of the list under
"Planlanmamış Görevler".  A completed task without a planned date is in no bucket and not in
that list, so the two counts add up to 0 for a list of one task. -/
theorem unplanned_count_counterexample :
    ¬ (∀ tasks : List Task, (tasks.map (·.id)).Nodup →
      (unplannedList tasks "").length + bucketSizes (tasksByDate tasks "") = tasks.length) := by
  intro h
  have h1 := h [{ id := 1, status := some "completed" }] (by decide)
  revert h1
  decide

/-- C10 (amended): with no team filter, every task is either skipped by the bucketing (it has
no planned date) or counted in one bucket: the number of skipped tasks plus the sizes of the
buckets is the number of tasks.  The list the page shows as unplanned holds the first 20 of the
skipped tasks that are not completed; its length plus the sizes of the buckets is at most the
number of tasks, and it is the number of tasks when no task without a planned date is
completed and at most 20 tasks have no planned date. -/
theorem unplanned_count (tasks : List Task) :
    ((tasks.filter fun t => !truthy t.plannedDate).length + bucketSizes (tasksByDate tasks "") =
      tasks.length) ∧
    (unplannedList tasks "").length =
      min 20 (tasks.filter fun t =>
        !truthy t.plannedDate && decide (t.status ≠ some "completed")).length ∧
    (unplannedList tasks "").length + bucketSizes (tasksByDate tasks "") ≤ tasks.length ∧
    ((∀ t ∈ tasks, truthy t.plannedDate = false → t.status ≠ some "completed") →
      (tasks.filter fun t => !truthy t.plannedDate).length ≤ 20 →
      (unplannedList tasks "").length + bucketSizes (tasksByDate tasks "") = tasks.length) := by
  have hs := skipped_count tasks
  have hlen : (unplannedList tasks "").length =
      min 20 (tasks.filter fun t =>
        !truthy t.plannedDate && decide (t.status ≠ some "completed")).length := by
    unfold unplannedList
    simp only [decide_True, Bool.true_or, List.filter_true, List.length_take]
  have hle : (tasks.filter fun t =>
        !truthy t.plannedDate && decide (t.status ≠ some "completed")).length ≤
      (tasks.filter fun t => !truthy t.plannedDate).length := by
    apply List.Sublist.length_le
    apply List.monotone_filter_right
    intro t ht
    simp only [Bool.and_eq_true] at ht
    exact ht.1
  refine ⟨hs, hlen, ?_, ?_⟩
  · rw [hlen]
    have := Nat.min_le_right 20 (tasks.filter fun t =>
        !truthy t.plannedDate && decide (t.status ≠ some "completed")).length
    omega
  · intro h1 h2
    rw [unplannedList_eq_filter tasks h1 h2]
    exact hs

end MontajTakvim


namespace MontajTakvim

open JSDate

/-! ## The unplanned list, the date keys and the drag sources -/

/-- The unplanned list is the list of the first 20 tasks that have no planned date, are not
completed and match the team filter. -/
theorem unplannedList_eq (tasks : List Task) (f : String) :
    unplannedList tasks f =
      (tasks.filter fun t => (!truthy t.plannedDate && decide (t.status ≠ some "completed")) &&
        (decide (f = "") || decide (t.teamId = some f))).take 20 := by
  unfold unplannedList
  rw [List.filter_filter]
  congr 1
  apply List.filter_congr
  intro t _
  rw [Bool.and_comm]

/-- C11 (as stated): a completed task without a planned date is not in the unplanned list, so
not every task without a planned date is surfaced there. -/
theorem unplannedList_counterexample :
    ¬ (∀ (tasks : List Task) (teamFilter : String) (t : Task), t ∈ tasks →
      truthy t.plannedDate = false → (teamFilter = "" ∨ t.teamId = some teamFilter) →
      t ∈ unplannedList tasks teamFilter) := by
  intro h
  have h1 := h [{ id := 1, status := some "completed" }] "" { id := 1, status := some "completed" }
    (by decide) (by decide) (by decide)
  revert h1
  decide

/-- C11 (amended): a task without a planned date that is not completed and matches the team
filter (when one is set) is a member of the unplanned list, provided at most 20 tasks of the
input are of that kind (the list shows the first 20 of them). -/
theorem unplannedList_mem (tasks : List Task) (teamFilter : String) (t : Task)
    (ht : t ∈ tasks) (hp : truthy t.plannedDate = false) (hs : t.status ≠ some "completed")
    (hf : teamFilter = "" ∨ t.teamId = some teamFilter)
    (hn : (tasks.filter fun t =>
      (!truthy t.plannedDate && decide (t.status ≠ some "completed")) &&
        (decide (teamFilter = "") || decide (t.teamId = some teamFilter))).length ≤ 20) :
    t ∈ unplannedList tasks teamFilter := by
  rw [unplannedList_eq, List.take_of_length_le hn, List.mem_filter]
  refine ⟨ht, ?_⟩
  simp only [hp, Bool.not_false, Bool.true_and, Bool.and_eq_true, Bool.or_eq_true,
    decide_eq_true_eq]
  exact ⟨hs, hf⟩

theorem unplannedList_mem_witness :
    ({ id := 2 } : Task) ∈ unplannedList [{ id := 1, plannedDate := some "2024-03-05" },
      { id := 2 }] "" :=
  unplannedList_mem [{ id := 1, plannedDate := some "2024-03-05" }, { id := 2 }] "" { id := 2 }
    (by decide) (by decide) (by decide) (by decide) (by decide)

/-- C12: the three tasks of the example bucket to the one-key map with tasks 1 and 3, in that
order, under 2024-03-05, and task 2 is the unplanned list. -/
theorem tasksByDate_example :
    tasksByDate [{ id := 1, plannedDate := some "2024-03-05" }, { id := 2 },
        { id := 3, plannedDate := some "2024-03-05" }] "" =
      [("2024-03-05", [{ id := 1, plannedDate := some "2024-03-05" },
        { id := 3, plannedDate := some "2024-03-05" }])] ∧
    unplannedList [{ id := 1, plannedDate := some "2024-03-05" }, { id := 2 },
        { id := 3, plannedDate := some "2024-03-05" }] "" = [{ id := 2 }] := by
  decide

/-- C16: a chip of a calendar cell is draggable exactly when its task is not completed, the
unplanned list contains no completed task, and so no drag source of the page is a completed
task. -/
theorem dragSources_not_completed (tza currentDate : Int) (viewMode : String)
    (tasks : List Task) (teamFilter : String) :
    (∀ task : Task, chipDraggable task = true ↔ task.status ≠ some "completed") ∧
    (∀ t ∈ unplannedList tasks teamFilter, t.status ≠ some "completed") ∧
    (∀ t ∈ dragSources tza currentDate viewMode tasks teamFilter,
      t.status ≠ some "completed") := by
  have h1 : ∀ task : Task, chipDraggable task = true ↔ task.status ≠ some "completed" := by
    intro task; simp [chipDraggable]
  have h2 : ∀ t ∈ unplannedList tasks teamFilter, t.status ≠ some "completed" := by
    intro t ht
    rw [unplannedList_eq] at ht
    have h := (List.mem_filter.1 (List.mem_of_mem_take ht)).2
    simp only [Bool.and_eq_true, decide_eq_true_eq] at h
    exact h.1.2
  refine ⟨h1, h2, ?_⟩
  intro t ht
  unfold dragSources at ht
  rcases List.mem_append.1 ht with h | h
  · obtain ⟨day, _, hd⟩ := List.mem_flatMap.1 h
    exact (h1 t).1 (List.mem_filter.1 hd).2
  · exact h2 t h

/-- The date key of a time value whose UTC year is in 0..9999 is the UTC calendar date. -/
theorem formatDateKey_eq (t : Int) (h0 : 0 ≤ YearFromTime t) (h1 : YearFromTime t ≤ 9999) :
    formatDateKey t = String.mk (isoDate (YearFromTime t) (MonthFromTime t) (DateFromTime t)) := by
  have hl : (isoDate (YearFromTime t) (MonthFromTime t) (DateFromTime t)).length = 10 := by
    simp [isoDate, isoYear, h0, h1, pad4, pad2]
  unfold formatDateKey slice10 toISOString
  simp only [List.append_assoc]
  rw [List.take_left' hl]

/-- The UTC day number of a cell (a local midnight): the local day number when the zone is at
or behind UTC, the day before when the zone is ahead of UTC. -/
theorem Day_newDate (tza y m d : Int) (h0 : -msPerDay < tza) (h1 : tza ≤ msPerDay) :
    Day (newDate tza y m d) =
      if 0 < tza then MakeDay (MakeFullYear y) m d - 1 else MakeDay (MakeFullYear y) m d := by
  unfold newDate UTC MakeDate Day msPerDay at *
  split_ifs <;> omega

/-- C13 (the code at the failing input): in a browser three hours ahead of UTC the cell of
5 March 2024 of the month grid has the date key 2024-03-04, so a task planned for 2024-03-05
is not among the tasks of that cell but among those of the cell of 6 March. -/
theorem formatDateKey_ahead_of_utc :
    (calendarDays 10800000 (newDate 10800000 2024 2 5) "month")[8]? =
        some ⟨newDate 10800000 2024 2 5, true⟩ ∧
      getFullYear 10800000 (newDate 10800000 2024 2 5) = 2024 ∧
      getMonth 10800000 (newDate 10800000 2024 2 5) = 2 ∧
      getDate 10800000 (newDate 10800000 2024 2 5) = 5 ∧
      formatDateKey (newDate 10800000 2024 2 5) = "2024-03-04" ∧
      dayTasks [{ id := 1, plannedDate := some "2024-03-05" }] ""
        (newDate 10800000 2024 2 5) = [] ∧
      dayTasks [{ id := 1, plannedDate := some "2024-03-05" }] ""
        (newDate 10800000 2024 2 6) = [{ id := 1, plannedDate := some "2024-03-05" }] := by
  decide

end MontajTakvim

namespace Handler

/-! ## Runs of handlers -/

theorem Proc.run_andThen {σ ρ : Type} {P : ρ → Type} (env : Env ρ P) (p q : Proc σ ρ P) (s : σ) :
    (p.andThen q).run env s =
      ((q.run env (p.run env s).1).1, (p.run env s).2 ++ (q.run env (p.run env s).1).2) := by
  induction p generalizing s with
  | done => simp [Proc.andThen, Proc.run]
  | set f k ih => simp [Proc.andThen, Proc.run, ih]
  | confirm msg k ih => simp [Proc.andThen, Proc.run, ih]
  | alert msg k ih => simp [Proc.andThen, Proc.run, ih]
  | consoleError k ih => simp [Proc.andThen, Proc.run, ih]
  | await r k ih => simp [Proc.andThen, Proc.run, ih]
  | all2 r₁ r₂ k ih => simp [Proc.andThen, Proc.run, ih]
  | all4 r₁ r₂ r₃ r₄ k ih => simp [Proc.andThen, Proc.run, ih]

theorem requests_append {σ ρ : Type} (a b : List (Event σ ρ)) :
    requests (a ++ b) = requests a ++ requests b := by
  induction a with
  | nil => rfl
  | cons e rest ih => cases e <;> simp [requests, ih]

end Handler

namespace MontajTakvim

open JSDate Handler

/-! ## The handlers of the calendar page -/

/-- What `loadData` does: it asks for both lists; when both fetches succeed it stores them (an
absent payload as the empty list), otherwise it logs the error and leaves both lists as they
are; in both cases `loading` ends `false`. -/
theorem takvim_loadData_run (env : Env Request Request.Payload) (s : State) :
    loadData.run env s =
      match env.respond .getAssemblyTasks, env.respond .getTeams with
      | .ok tasksData, .ok teamsData =>
        ({ s with loading := false, tasks := tasksData.getD [], teams := teamsData.getD [] },
          [Event.request .getAssemblyTasks { s with loading := true },
            Event.request .getTeams { s with loading := true }])
      | _, _ =>
        ({ s with loading := false },
          [Event.request .getAssemblyTasks { s with loading := true },
            Event.request .getTeams { s with loading := true }, Event.consoleError]) := by
  unfold loadData
  simp only [Proc.run]
  cases env.respond .getAssemblyTasks <;> cases env.respond .getTeams <;> simp [Proc.run]

theorem dropUpdate_run (env : Env Request Request.Payload) (task : Task) (date : Int)
    (s : State) :
    (dropUpdate task date).run env s =
      match env.respond (dropRequest task date) with
      | .ok _ =>
        ({ (loadData.run env s).1 with draggedTask := none },
          Event.request (dropRequest task date) s :: (loadData.run env s).2)
      | .error msg =>
        ({ s with draggedTask := none },
          [Event.request (dropRequest task date) s, Event.alert msg]) := by
  unfold dropUpdate
  simp only [Proc.run]
  cases env.respond (dropRequest task date) <;> simp [Proc.run, Proc.run_andThen]

/-- The run of `handleDrop`, case by case. -/
theorem handleDrop_run (parse : String → Option Int) (env : Env Request Request.Payload)
    (s : State) (date : Int) :
    (handleDrop parse s date).run env s =
      match s.draggedTask with
      | none => (s, [])
      | some task =>
        if needsConfirm parse task date = true then
          if env.answer confirmAfterDue = true then
            (((dropUpdate task date).run env s).1,
              Event.confirm confirmAfterDue true :: ((dropUpdate task date).run env s).2)
          else ({ s with draggedTask := none }, [Event.confirm confirmAfterDue false])
        else (dropUpdate task date).run env s := by
  unfold handleDrop
  cases hd : s.draggedTask with
  | none => simp [Proc.run]
  | some task =>
    by_cases hc : needsConfirm parse task date = true
    · by_cases ha : env.answer confirmAfterDue = true <;> simp [hc, ha, Proc.run]
    · simp [hc]

/-- The task list after `loadData` is the old one or the fetched one. -/
theorem loadData_tasks (env : Env Request Request.Payload) (s : State) :
    (loadData.run env s).1.tasks = s.tasks ∨
      ∃ tasksData, env.respond .getAssemblyTasks = .ok tasksData ∧
        (loadData.run env s).1.tasks = tasksData.getD [] := by
  rw [takvim_loadData_run]
  cases h1 : env.respond .getAssemblyTasks with
  | error e => left; cases env.respond .getTeams <;> rfl
  | ok a =>
    cases env.respond .getTeams with
    | error e => left; rfl
    | ok b => right; exact ⟨a, rfl, rfl⟩

/-- When the drop proceeds, the requests of `handleDrop` are one update of the dragged task,
followed by the two fetches of the reload if the update succeeds. -/
theorem handleDrop_requests (parse : String → Option Int) (env : Env Request Request.Payload)
    (s : State) (date : Int) (task : Task) (hd : s.draggedTask = some task)
    (hp : needsConfirm parse task date = false ∨ env.answer confirmAfterDue = true) :
    requests ((handleDrop parse s date).run env s).2 =
      dropRequest task date ::
        (match env.respond (dropRequest task date) with
          | .ok _ => [Request.getAssemblyTasks, Request.getTeams]
          | .error _ => []) := by
  have hu : requests ((dropUpdate task date).run env s).2 =
      dropRequest task date ::
        (match env.respond (dropRequest task date) with
          | .ok _ => [Request.getAssemblyTasks, Request.getTeams]
          | .error _ => []) := by
    rw [dropUpdate_run]
    cases env.respond (dropRequest task date) with
    | error e => simp [requests]
    | ok a =>
      simp only [requests, takvim_loadData_run]
      cases env.respond .getAssemblyTasks <;> cases env.respond .getTeams <;> simp [requests]
  rw [handleDrop_run, hd]
  simp only
  by_cases hc : needsConfirm parse task date = true
  · have ha : env.answer confirmAfterDue = true := by
      rcases hp with h | h
      · rw [h] at hc; exact absurd hc (by decide)
      · exact h
    simp only [hc, ha, if_true, requests]
    exact hu
  · simp only [hc, Bool.false_eq_true, if_false]
    exact hu

/-- C14 (the code at the failing input): in a browser three hours ahead of UTC, a drop on the
cell of 5 March 2024 sends the planned date 2024-03-04, whatever the backend answers. -/
theorem handleDrop_payload_ahead_of_utc (parse : String → Option Int)
    (env : Env Request Request.Payload) :
    getFullYear 10800000 (newDate 10800000 2024 2 5) = 2024 ∧
      getMonth 10800000 (newDate 10800000 2024 2 5) = 2 ∧
      getDate 10800000 (newDate 10800000 2024 2 5) = 5 ∧
      (requests ((handleDrop parse { draggedTask := some { id := 7 } }
        (newDate 10800000 2024 2 5)).run env { draggedTask := some { id := 7 } }).2).head? =
        some (.updateAssemblyTask 7 [("plannedDate", "2024-03-04"), ("status", "planned")]) := by
  refine ⟨by decide, by decide, by decide, ?_⟩
  rw [handleDrop_requests parse env _ _ { id := 7 } rfl (Or.inl rfl)]
  simp only [List.head?_cons, dropRequest]
  rw [show formatDateKey (newDate 10800000 2024 2 5) = "2024-03-04" by decide]

/-- C15: when the dragged task has an estimated date and the cell dropped on is after it,
`handleDrop` first asks for the confirmation; when the user declines, the confirmation is the
only event, so no backend request is issued, and the state is the old one with the drag
ended: the task list is unchanged. -/
theorem handleDrop_confirm (parse : String → Option Int) (env : Env Request Request.Payload)
    (s : State) (date : Int) (task : Task) (estimatedDate : String) (estimated : Int)
    (hd : s.draggedTask = some task) (he : task.estimatedDate = some estimatedDate)
    (hne : estimatedDate ≠ "") (hp : parse estimatedDate = some estimated)
    (hlt : estimated < date) :
    ((handleDrop parse s date).run env s).2.head? =
        some (Event.confirm confirmAfterDue (env.answer confirmAfterDue)) ∧
      (env.answer confirmAfterDue = false →
        ((handleDrop parse s date).run env s).2 = [Event.confirm confirmAfterDue false] ∧
        requests ((handleDrop parse s date).run env s).2 = [] ∧
        ((handleDrop parse s date).run env s).1 = { s with draggedTask := none } ∧
        ((handleDrop parse s date).run env s).1.tasks = s.tasks) := by
  have hc : needsConfirm parse task date = true := by
    simp [needsConfirm, he, truthy, hne, afterEstimated, hp, hlt]
  rw [handleDrop_run, hd]
  simp only [hc, if_true]
  by_cases ha : env.answer confirmAfterDue = true
  · simp [ha]
  · have ha' : env.answer confirmAfterDue = false := by simpa using ha
    simp [ha', requests]

theorem handleDrop_confirm_witness :
    ((handleDrop (fun _ => some 0) { draggedTask := some { id := 7, estimatedDate := some "x" } }
        86400000).run ⟨fun _ => false, fun r => match r with
          | .getAssemblyTasks => .ok none
          | .getTeams => .ok none
          | .updateAssemblyTask _ _ => .ok ()⟩
        { draggedTask := some { id := 7, estimatedDate := some "x" } }).2.head? =
        some (Event.confirm confirmAfterDue false) :=
  (handleDrop_confirm (fun _ => some 0) ⟨fun _ => false, fun r => match r with
      | .getAssemblyTasks => .ok none
      | .getTeams => .ok none
      | .updateAssemblyTask _ _ => .ok ()⟩
    { draggedTask := some { id := 7, estimatedDate := some "x" } } 86400000
    { id := 7, estimatedDate := some "x" } "x" 0 rfl rfl (by decide) rfl (by decide)).1

/-- A time value on a later local calendar day than another is after it. -/
theorem lt_of_localDay_lt (tza a b : Int)
    (h : Day (LocalTime tza a) < Day (LocalTime tza b)) : a < b := by
  unfold Day LocalTime msPerDay at h
  omega

/-- A cell of a later calendar day than a due date given as a UTC midnight is after it, in
every zone less than a day ahead of UTC. -/
theorem afterEstimated_later_day (parse : String → Option Int) (estimatedDate : String)
    (tza y m d dueDay : Int) (hp : parse estimatedDate = some (dueDay * msPerDay))
    (hz : tza < msPerDay) (hlt : dueDay < MakeDay (MakeFullYear y) m d) :
    afterEstimated parse estimatedDate (newDate tza y m d) = true := by
  simp only [afterEstimated, hp, decide_eq_true_eq]
  unfold newDate UTC MakeDate msPerDay at *
  omega

/-- C17 (as stated): a successful update is not always followed by the re-fetched list.  The
update of task 7 succeeds and the task fetch of the reload returns the task as planned, but
the team fetch fails: the fetched list is dropped and the page keeps its old list. -/
theorem handleDrop_tasks_counterexample :
    ¬ (∀ (parse : String → Option Int) (env : Env Request Request.Payload) (s : State)
        (date : Int) (task : Task) (tasksData : Option (List Task)),
      s.draggedTask = some task → needsConfirm parse task date = false →
      env.respond (dropRequest task date) = .ok () →
      env.respond .getAssemblyTasks = .ok tasksData →
      ((handleDrop parse s date).run env s).1.tasks = tasksData.getD []) := by
  intro h
  have h1 := h (fun _ => none) ⟨fun _ => true, fun r => match r with
      | .getAssemblyTasks => .ok (some [{ id := 7, plannedDate := some "1970-01-01" }])
      | .getTeams => .error "500"
      | .updateAssemblyTask _ _ => .ok ()⟩
    { draggedTask := some { id := 7 }, tasks := [{ id := 7 }] } 0 { id := 7 }
    (some [{ id := 7, plannedDate := some "1970-01-01" }]) rfl rfl rfl rfl
  revert h1
  decide

/-- C17 (amended): a drop whose update fails leaves the task list as it was and issues no
fetch; a drop that proceeds, whose update succeeds and whose reload succeeds (both fetches),
leaves the fetched list (the empty list for an absent payload); when the update succeeds and
one of the two fetches of the reload fails, the old list stays; and in every case the task
list after the drop is the old list or the fetched list, never a list patched on the page. -/
theorem handleDrop_tasks (parse : String → Option Int) (env : Env Request Request.Payload)
    (s : State) (date : Int) (task : Task) (hd : s.draggedTask = some task) :
    (∀ msg, env.respond (dropRequest task date) = .error msg →
      ((handleDrop parse s date).run env s).1.tasks = s.tasks ∧
      Request.getAssemblyTasks ∉ requests ((handleDrop parse s date).run env s).2) ∧
    (∀ tasksData teamsData,
      (needsConfirm parse task date = false ∨ env.answer confirmAfterDue = true) →
      env.respond (dropRequest task date) = .ok () →
      env.respond .getAssemblyTasks = .ok tasksData → env.respond .getTeams = .ok teamsData →
      ((handleDrop parse s date).run env s).1.tasks = tasksData.getD []) ∧
    (((handleDrop parse s date).run env s).1.tasks = s.tasks ∨
      ∃ tasksData, env.respond .getAssemblyTasks = .ok tasksData ∧
        ((handleDrop parse s date).run env s).1.tasks = tasksData.getD []) ∧
    (((∃ e, env.respond .getAssemblyTasks = .error e) ∨ (∃ e, env.respond .getTeams = .error e)) →
      ((handleDrop parse s date).run env s).1.tasks = s.tasks) := by
  have hfail : ((∃ e, env.respond .getAssemblyTasks = .error e) ∨
      (∃ e, env.respond .getTeams = .error e)) → (loadData.run env s).1.tasks = s.tasks := by
    intro h
    rw [takvim_loadData_run]
    rcases h with ⟨e, h⟩ | ⟨e, h⟩
    · rw [h]
    · rw [h]; cases env.respond .getAssemblyTasks <;> rfl
  have hu : ((dropUpdate task date).run env s).1.tasks = (loadData.run env s).1.tasks ∨
      ((dropUpdate task date).run env s).1.tasks = s.tasks := by
    rw [dropUpdate_run]
    cases env.respond (dropRequest task date) with
    | error e => right; rfl
    | ok a => left; rfl
  refine ⟨?_, ?_, ?_, ?_⟩
  · intro msg hm
    rw [handleDrop_run, hd]
    simp only
    have h1 : (dropUpdate task date).run env s =
        ({ s with draggedTask := none },
          [Event.request (dropRequest task date) s, Event.alert msg]) := by
      rw [dropUpdate_run, hm]
    split_ifs
    · rw [h1]; simp [requests, dropRequest]
    · simp [requests]
    · rw [h1]; simp [requests, dropRequest]
  · intro tasksData teamsData hp hok h1 h2
    rw [handleDrop_run, hd]
    simp only
    have h3 : ((dropUpdate task date).run env s).1.tasks = tasksData.getD [] := by
      rw [dropUpdate_run, hok]
      simp only [takvim_loadData_run, h1, h2]
    by_cases hc : needsConfirm parse task date = true
    · have ha : env.answer confirmAfterDue = true := by
        rcases hp with h | h
        · rw [h] at hc; exact absurd hc (by decide)
        · exact h
      simp only [hc, ha, if_true]
      exact h3
    · simp only [hc, Bool.false_eq_true, if_false]
      exact h3
  · rw [handleDrop_run, hd]
    simp only
    have h4 : ((dropUpdate task date).run env s).1.tasks = s.tasks ∨
        ∃ tasksData, env.respond .getAssemblyTasks = .ok tasksData ∧
          ((dropUpdate task date).run env s).1.tasks = tasksData.getD [] := by
      rcases hu with h | h
      · rw [h]; exact loadData_tasks env s
      · left; exact h
    split_ifs
    · exact h4
    · left; rfl
    · exact h4
  · intro hf
    rw [handleDrop_run, hd]
    simp only
    have h5 : ((dropUpdate task date).run env s).1.tasks = s.tasks := by
      rcases hu with h | h
      · rw [h]; exact hfail hf
      · exact h
    split_ifs
    · exact h5
    · rfl
    · exact h5

theorem handleDrop_tasks_witness :
    ((handleDrop (fun _ => none) { draggedTask := some { id := 7 }, tasks := [{ id := 7 }] }
        0).run ⟨fun _ => true, fun r => match r with
          | .getAssemblyTasks => .ok none
          | .getTeams => .ok none
          | .updateAssemblyTask _ _ => .error "500"⟩
        { draggedTask := some { id := 7 }, tasks := [{ id := 7 }] }).1.tasks = [{ id := 7 }] :=
  ((handleDrop_tasks (fun _ => none) ⟨fun _ => true, fun r => match r with
      | .getAssemblyTasks => .ok none
      | .getTeams => .ok none
      | .updateAssemblyTask _ _ => .error "500"⟩
    { draggedTask := some { id := 7 }, tasks := [{ id := 7 }] } 0 { id := 7 } rfl).1 "500"
    rfl).1

end MontajTakvim

namespace Arsiv

open Handler

/-! ## The archive page -/

/-- The run of `loadData` of the archive: the four fetches are issued together, each list is
stored as fetched or, if its fetch failed, as the empty list; no error is set and `loading`
ends `false`. -/
theorem arsiv_loadData_run (env : Env Request Request.Payload) (s : State) :
    (loadData.run env s).1 =
      { s with
        loading := false, error := ""
        documents := orEmpty (env.respond .getDocuments)
        jobs := orEmpty (env.respond .getJobs)
        suppliers := orEmpty (env.respond .getSuppliers)
        folders := orEmpty (env.respond .getFolders) } ∧
    requests (loadData.run env s).2 =
      [Request.getDocuments, Request.getJobs, Request.getSuppliers, Request.getFolders] := by
  simp [loadData, Proc.run, requests]

/-- C20: `handleUpload` issues a backend request exactly when a file is chosen and at least
one of the job, folder and supplier references is not empty, and the request is then the one
upload of that file; when the file is missing or all three references are empty, no request
is issued and the state is unchanged, so the documents and the upload form are as before. -/
theorem handleUpload_attempt (env : Env Request Request.Payload) (s : State) :
    (requests ((handleUpload s).run env s).2 ≠ [] ↔
      (s.uploadForm.file ≠ none ∧
        (s.uploadForm.jobId ≠ "" ∨ s.uploadForm.folderId ≠ "" ∨ s.uploadForm.supplierId ≠ ""))) ∧
    (∀ file, s.uploadForm.file = some file →
      (s.uploadForm.jobId ≠ "" ∨ s.uploadForm.folderId ≠ "" ∨ s.uploadForm.supplierId ≠ "") →
      requests ((handleUpload s).run env s).2 = [uploadRequest s.uploadForm file]) ∧
    ((s.uploadForm.file = none ∨
        (s.uploadForm.jobId = "" ∧ s.uploadForm.folderId = "" ∧ s.uploadForm.supplierId = "")) →
      requests ((handleUpload s).run env s).2 = [] ∧
      ((handleUpload s).run env s).1 = s ∧
      ((handleUpload s).run env s).1.documents = s.documents ∧
      ((handleUpload s).run env s).1.uploadForm = s.uploadForm) := by
  have hyes : ∀ file, s.uploadForm.file = some file →
      (s.uploadForm.jobId ≠ "" ∨ s.uploadForm.folderId ≠ "" ∨ s.uploadForm.supplierId ≠ "") →
      requests ((handleUpload s).run env s).2 = [uploadRequest s.uploadForm file] := by
    intro file hf hr
    have hn : ¬ (s.uploadForm.jobId = "" ∧ s.uploadForm.folderId = "" ∧
        s.uploadForm.supplierId = "") := by
      rintro ⟨h1, h2, h3⟩
      rcases hr with h | h | h
      · exact h h1
      · exact h h2
      · exact h h3
    unfold handleUpload
    rw [hf]
    simp only [if_neg hn, Proc.run]
    cases env.respond (uploadRequest s.uploadForm file) <;> simp [Proc.run, requests]
  have hno : (s.uploadForm.file = none ∨
        (s.uploadForm.jobId = "" ∧ s.uploadForm.folderId = "" ∧ s.uploadForm.supplierId = "")) →
      requests ((handleUpload s).run env s).2 = [] ∧ ((handleUpload s).run env s).1 = s := by
    intro h
    unfold handleUpload
    cases hf : s.uploadForm.file with
    | none => simp [Proc.run, requests]
    | some file =>
      rcases h with h | h
      · rw [hf] at h; exact Option.noConfusion h
      · simp [if_pos h, Proc.run, requests]
  refine ⟨?_, hyes, ?_⟩
  · constructor
    · intro hne
      by_contra hc
      have hc' : s.uploadForm.file = none ∨
          (s.uploadForm.jobId = "" ∧ s.uploadForm.folderId = "" ∧
            s.uploadForm.supplierId = "") := by
        by_cases hf : s.uploadForm.file = none
        · exact Or.inl hf
        · right
          refine ⟨?_, ?_, ?_⟩ <;> by_contra h
          · exact hc ⟨hf, Or.inl h⟩
          · exact hc ⟨hf, Or.inr (Or.inl h)⟩
          · exact hc ⟨hf, Or.inr (Or.inr h)⟩
      exact hne (hno hc').1
    · rintro ⟨hf, hr⟩
      obtain ⟨file, hfile⟩ := Option.ne_none_iff_exists'.1 hf
      rw [hyes file hfile hr]
      exact List.cons_ne_nil _ _
  · intro h
    obtain ⟨h1, h2⟩ := hno h
    exact ⟨h1, h2, by rw [h2], by rw [h2]⟩

theorem handleUpload_attempt_witness :
    requests ((handleUpload {}).run ⟨fun _ => true, fun r => match r with
        | .getDocuments => .ok []
        | .getJobs => .ok []
        | .getSuppliers => .ok []
        | .getFolders => .ok []
        | .deleteDocument _ => .ok ()
        | .uploadDocument _ _ _ _ _ _ => .error ""
        | .createFolder _ _ _ _ _ => .error ""⟩ {}).2 = [] :=
  ((handleUpload_attempt ⟨fun _ => true, fun r => match r with
        | .getDocuments => .ok []
        | .getJobs => .ok []
        | .getSuppliers => .ok []
        | .getFolders => .ok []
        | .deleteDocument _ => .ok ()
        | .uploadDocument _ _ _ _ _ _ => .error ""
        | .createFolder _ _ _ _ _ => .error ""⟩ {}).2.2 (Or.inl rfl)).1

/-- The folder creation is not guarded either: while its request is in flight the page state
is what it was, and the create button is still enabled. -/
theorem handleCreateFolder_unguarded :
    ((handleCreateFolder { folderForm := { name := "Arac" } }).start (fun _ => true)
        { folderForm := { name := "Arac" } }).1 = { folderForm := { name := "Arac" } } ∧
      ((handleCreateFolder { folderForm := { name := "Arac" } }).start (fun _ => true)
        { folderForm := { name := "Arac" } }).2.map Susp.inFlight =
        some [.createFolder "Arac" "📁" "#6b7280" "company" "FOLDER-SIRKET"] ∧
      createFolderDisabled { folderForm := { name := "Arac" } } = false := by
  decide

end Arsiv

namespace MontajBugun

open Handler

/-! ## The today page -/

/-- What `loadData` of the today page does: as on the calendar page, both lists are stored
when both fetches succeed and are left as they are otherwise. -/
theorem bugun_loadData_run (env : Env Request Request.Payload) (c s : State) :
    (loadData c).run env s =
      match env.respond (.getAssemblyTasksToday (Arsiv.orNull c.selectedTeam)),
        env.respond .getTeams with
      | .ok jobsData, .ok teamsData =>
        ({ s with loading := false, jobs := jobsData.getD [], teams := teamsData.getD [] },
          [Event.request (.getAssemblyTasksToday (Arsiv.orNull c.selectedTeam))
              { s with loading := true },
            Event.request .getTeams { s with loading := true }])
      | _, _ =>
        ({ s with loading := false },
          [Event.request (.getAssemblyTasksToday (Arsiv.orNull c.selectedTeam))
              { s with loading := true },
            Event.request .getTeams { s with loading := true }, Event.consoleError]) := by
  unfold loadData
  simp only [Proc.run]
  cases env.respond (.getAssemblyTasksToday (Arsiv.orNull c.selectedTeam)) <;>
    cases env.respond .getTeams <;> simp [Proc.run]

/-- The reload followed by the steps `q` keeps the busy flag set until `q` takes over. -/
theorem busy_loadData_andThen (c s : State) (q : Proc State Request Request.Payload)
    (hs : s.actionLoading = true)
    (hq : ∀ s' : State, s'.actionLoading = true →
      q.busyUntilDone (·.actionLoading) Request.action s') :
    ((loadData c).andThen q).busyUntilDone (·.actionLoading) Request.action s := by
  unfold loadData
  simp only [Proc.andThen, Proc.busyUntilDone]
  refine ⟨hs, rfl, rfl, ?_⟩
  intro a b s' hs'
  cases a <;> cases b <;> simp only [Proc.andThen, Proc.busyUntilDone] <;> exact hq _ hs'

theorem busy_finish (s : State) : finish.busyUntilDone (·.actionLoading) Request.action s := by
  simp [finish, Proc.busyUntilDone]

theorem busy_handleStartTask (s : State) (task : Task) :
    (handleStartTask s task).busyUntilDone (·.actionLoading) Request.action s := by
  unfold handleStartTask
  simp only [Proc.busyUntilDone, true_and]
  intro a s' hs'
  cases a with
  | error msg => exact busy_finish s'
  | ok v => exact busy_loadData_andThen s s' _ hs' (fun s'' _ => busy_finish s'')

theorem busy_handleResolveIssue (s : State) (task : Task) (issueId : String) :
    (handleResolveIssue s task issueId).busyUntilDone (·.actionLoading) Request.action s := by
  unfold handleResolveIssue
  simp only [Proc.busyUntilDone, true_and]
  intro a s' hs'
  cases a with
  | error msg => exact busy_finish s'
  | ok v => exact busy_loadData_andThen s s' _ hs' (fun s'' _ => busy_finish s'')

theorem busy_handleCompleteTask (s : State) (task : Option Task) :
    (handleCompleteTask s task).busyUntilDone (·.actionLoading) Request.action s := by
  unfold handleCompleteTask
  cases task with
  | none => simp [Proc.busyUntilDone, finish]
  | some task =>
    simp only [Proc.busyUntilDone, true_and]
    intro a s' hs'
    cases a with
    | error msg => exact busy_finish s'
    | ok v =>
      exact busy_loadData_andThen s s' _ hs' (fun s'' _ => by simp [Proc.busyUntilDone, finish])

theorem busy_handleCompleteAll (s : State) (job : Job) (h0 : s.actionLoading = false) :
    (handleCompleteAll s job).busyUntilDone (·.actionLoading) Request.action s := by
  unfold handleCompleteAll
  simp only [Proc.busyUntilDone]
  intro b
  cases b with
  | false => simpa [Proc.busyUntilDone] using h0
  | true =>
    simp only [if_true, Proc.busyUntilDone, true_and]
    intro a s' hs'
    cases a with
    | error msg => exact busy_finish s'
    | ok v =>
      exact busy_loadData_andThen s s' _ hs' (fun s'' _ => by simp [Proc.busyUntilDone, finish])

theorem busy_handleReportIssue (s : State) (h0 : s.actionLoading = false) :
    (handleReportIssue s).busyUntilDone (·.actionLoading) Request.action s := by
  unfold handleReportIssue
  cases s.selectedTask with
  | none => simpa [Proc.busyUntilDone] using h0
  | some selectedTask =>
    by_cases hi : s.issueForm.item = ""
    · simpa [hi, Proc.busyUntilDone] using h0
    · simp only [hi, if_false, Proc.busyUntilDone, true_and]
      intro a s' hs'
      cases a with
      | error msg => exact busy_finish s'
      | ok v =>
        exact busy_loadData_andThen s s' _ hs'
          (fun s'' _ => by simp [Proc.busyUntilDone, finish])

end MontajBugun

namespace Arsiv

open Handler

theorem busy_handleUpload (s : State) (h0 : s.uploading = false) :
    (handleUpload s).busyUntilDone (·.uploading) Request.mutating s := by
  unfold handleUpload
  cases s.uploadForm.file with
  | none => simpa [Proc.busyUntilDone] using h0
  | some file =>
    by_cases hr : s.uploadForm.jobId = "" ∧ s.uploadForm.folderId = "" ∧
        s.uploadForm.supplierId = ""
    · simpa [hr, Proc.busyUntilDone] using h0
    · simp only [hr, if_false, Proc.busyUntilDone, true_and]
      intro a s' _
      cases a <;> simp [Proc.busyUntilDone]

end Arsiv

namespace MontajTakvim

open JSDate Handler

/-- C18 (as stated): the reschedule by drop is not guarded.  After a drop of task 7 on the cell
of 5 March 2024 the page state is what it was before the drop, with the update in flight; the
same task can be dragged again and dropped on the cell of 6 March, and then two updates of
task 7 are in flight. -/
theorem handleDrop_overlap :
    ((handleDrop (fun _ => none) { draggedTask := some { id := 7 } }
        (newDate 0 2024 2 5)).start (fun _ => true) { draggedTask := some { id := 7 } }).1 =
        { draggedTask := some { id := 7 } } ∧
      ((handleDrop (fun _ => none) { draggedTask := some { id := 7 } }
        (newDate 0 2024 2 5)).start (fun _ => true)
          { draggedTask := some { id := 7 } }).2.map Susp.inFlight =
        some [.updateAssemblyTask 7 [("plannedDate", "2024-03-05"), ("status", "planned")]] ∧
      ((handleDrop (fun _ => none)
          (handleDragStart { draggedTask := some { id := 7 } } { id := 7 })
          (newDate 0 2024 2 6)).start (fun _ => true)
            (handleDragStart { draggedTask := some { id := 7 } } { id := 7 })).2.map
          Susp.inFlight =
        some [.updateAssemblyTask 7 [("plannedDate", "2024-03-06"), ("status", "planned")]] := by
  decide

/-- C19 (as stated, for the calendar page): when the task fetch succeeds and the team fetch
fails, the fetched tasks are not stored. -/
theorem loadData_counterexample :
    ¬ (∀ (env : Env Request Request.Payload) (s : State),
      (loadData.run env s).1.tasks =
          (match env.respond .getAssemblyTasks with
            | .ok tasksData => tasksData.getD []
            | .error _ => []) ∧
        (loadData.run env s).1.teams =
          (match env.respond .getTeams with
            | .ok teamsData => teamsData.getD []
            | .error _ => [])) := by
  intro h
  have h1 := (h ⟨fun _ => true, fun r => match r with
    | .getAssemblyTasks => .ok (some [{ id := 1 }])
    | .getTeams => .error "500"
    | .updateAssemblyTask _ _ => .ok ()⟩ {}).1
  rw [takvim_loadData_run] at h1
  revert h1
  decide

end MontajTakvim

/-- C19 (amended): the load of the archive stores each of its four lists as fetched, or as the
empty list if its fetch failed, sets no error and ends with `loading` false.  The loads of the
calendar page and of the today page end with `loading` false as well, with their two lists
stored as fetched (an absent payload as the empty list) when both fetches succeed, and with
both lists left as they were, the error logged and nothing shown to the user, when one of the
two fetches fails. -/
theorem loadData_outcomes (envA : Handler.Env Arsiv.Request Arsiv.Request.Payload)
    (a : Arsiv.State) (envT : Handler.Env MontajTakvim.Request MontajTakvim.Request.Payload)
    (t : MontajTakvim.State) (envB : Handler.Env MontajBugun.Request MontajBugun.Request.Payload)
    (b : MontajBugun.State) :
    ((Arsiv.loadData.run envA a).1.documents = Arsiv.orEmpty (envA.respond .getDocuments) ∧
      (Arsiv.loadData.run envA a).1.jobs = Arsiv.orEmpty (envA.respond .getJobs) ∧
      (Arsiv.loadData.run envA a).1.suppliers = Arsiv.orEmpty (envA.respond .getSuppliers) ∧
      (Arsiv.loadData.run envA a).1.folders = Arsiv.orEmpty (envA.respond .getFolders) ∧
      (Arsiv.loadData.run envA a).1.error = "" ∧
      (Arsiv.loadData.run envA a).1.loading = false) ∧
    ((MontajTakvim.loadData.run envT t).1.loading = false ∧
      (∀ tasksData teamsData, envT.respond .getAssemblyTasks = .ok tasksData →
        envT.respond .getTeams = .ok teamsData →
        (MontajTakvim.loadData.run envT t).1.tasks = tasksData.getD [] ∧
        (MontajTakvim.loadData.run envT t).1.teams = teamsData.getD []) ∧
      (((∃ e, envT.respond .getAssemblyTasks = .error e) ∨
          (∃ e, envT.respond .getTeams = .error e)) →
        (MontajTakvim.loadData.run envT t).1.tasks = t.tasks ∧
        (MontajTakvim.loadData.run envT t).1.teams = t.teams ∧
        (MontajTakvim.loadData.run envT t).2.getLast? = some Handler.Event.consoleError)) ∧
    (((MontajBugun.loadData b).run envB b).1.loading = false ∧
      (∀ jobsData teamsData,
        envB.respond (.getAssemblyTasksToday (Arsiv.orNull b.selectedTeam)) = .ok jobsData →
        envB.respond .getTeams = .ok teamsData →
        ((MontajBugun.loadData b).run envB b).1.jobs = jobsData.getD [] ∧
        ((MontajBugun.loadData b).run envB b).1.teams = teamsData.getD []) ∧
      (((∃ e, envB.respond (.getAssemblyTasksToday (Arsiv.orNull b.selectedTeam)) = .error e) ∨
          (∃ e, envB.respond .getTeams = .error e)) →
        ((MontajBugun.loadData b).run envB b).1.jobs = b.jobs ∧
        ((MontajBugun.loadData b).run envB b).1.teams = b.teams ∧
        ((MontajBugun.loadData b).run envB b).2.getLast? = some Handler.Event.consoleError)) := by
  refine ⟨?_, ?_, ?_⟩
  · rw [(Arsiv.arsiv_loadData_run envA a).1]
    exact ⟨rfl, rfl, rfl, rfl, rfl, rfl⟩
  · rw [MontajTakvim.takvim_loadData_run]
    refine ⟨?_, ?_, ?_⟩
    · cases envT.respond .getAssemblyTasks <;> cases envT.respond .getTeams <;> rfl
    · intro tasksData teamsData h1 h2
      rw [h1, h2]
      exact ⟨rfl, rfl⟩
    · rintro (⟨e, h⟩ | ⟨e, h⟩)
      · rw [h]; cases envT.respond .getTeams <;> exact ⟨rfl, rfl, rfl⟩
      · rw [h]; cases envT.respond .getAssemblyTasks <;> exact ⟨rfl, rfl, rfl⟩
  · rw [MontajBugun.bugun_loadData_run]
    refine ⟨?_, ?_, ?_⟩
    · cases envB.respond (.getAssemblyTasksToday (Arsiv.orNull b.selectedTeam)) <;>
        cases envB.respond .getTeams <;> rfl
    · intro jobsData teamsData h1 h2
      rw [h1, h2]
      exact ⟨rfl, rfl⟩
    · rintro (⟨e, h⟩ | ⟨e, h⟩)
      · rw [h]; cases envB.respond .getTeams <;> exact ⟨rfl, rfl, rfl⟩
      · rw [h]
        cases envB.respond (.getAssemblyTasksToday (Arsiv.orNull b.selectedTeam)) <;>
          exact ⟨rfl, rfl, rfl⟩

namespace Handler

/-! ## Handlers that wait: the busy flag across the waits -/

theorem Proc.start_readOnly {σ ρ : Type} {P : ρ → Type} (busy : σ → Bool) (chg : ρ → Bool)
    (answer : String → Bool) (p : Proc σ ρ P) (s : σ) (hp : p.readOnly busy chg) :
    busy (p.start answer s).1 = busy s ∧
      ∀ w, (p.start answer s).2 = some w → w.readOnly busy chg := by
  induction p generalizing s with
  | done => exact ⟨rfl, fun w h => Option.noConfusion h⟩
  | set f k ih =>
    obtain ⟨h1, h2⟩ := ih (f s) hp.2
    exact ⟨h1.trans (hp.1 s), h2⟩
  | confirm msg k ih => exact ih (answer msg) s (hp (answer msg))
  | alert msg k ih => exact ih s hp
  | consoleError k ih => exact ih s hp
  | await r k _ =>
    refine ⟨rfl, ?_⟩
    intro w hw
    cases Option.some.inj hw
    exact ⟨by simpa [Susp.inFlight] using hp.1, fun env => hp.2 _⟩
  | all2 r₁ r₂ k _ =>
    refine ⟨rfl, ?_⟩
    intro w hw
    cases Option.some.inj hw
    exact ⟨by simpa [Susp.inFlight] using ⟨hp.1, hp.2.1⟩, fun env => hp.2.2 _ _⟩
  | all4 r₁ r₂ r₃ r₄ k _ =>
    refine ⟨rfl, ?_⟩
    intro w hw
    cases Option.some.inj hw
    exact ⟨by simpa [Susp.inFlight] using ⟨hp.1, hp.2.1, hp.2.2.1, hp.2.2.2.1⟩,
      fun env => hp.2.2.2.2 _ _ _ _⟩

theorem Proc.start_busyUntilDone {σ ρ : Type} {P : ρ → Type} (busy : σ → Bool) (chg : ρ → Bool)
    (answer : String → Bool) (p : Proc σ ρ P) (s : σ) (hp : p.busyUntilDone busy chg s) :
    ((p.start answer s).2 = none → busy (p.start answer s).1 = false) ∧
      ∀ w, (p.start answer s).2 = some w →
        busy (p.start answer s).1 = true ∧ w.holdsFlag busy chg := by
  induction p generalizing s with
  | done => exact ⟨fun _ => hp, fun w h => Option.noConfusion h⟩
  | set f k ih => exact ih (f s) hp
  | confirm msg k ih => exact ih (answer msg) s (hp (answer msg))
  | alert msg k ih => exact ih s hp
  | consoleError k ih => exact ih s hp
  | await r k _ =>
    refine ⟨fun h => Option.noConfusion h, ?_⟩
    intro w hw
    cases Option.some.inj hw
    refine ⟨hp.1, ?_, fun env s' hs' => hp.2 _ s' hs'⟩
    simp only [Susp.inFlight, List.filter_cons, List.filter_nil]
    split <;> simp
  | all2 r₁ r₂ k _ =>
    refine ⟨fun h => Option.noConfusion h, ?_⟩
    intro w hw
    cases Option.some.inj hw
    refine ⟨hp.1, ?_, fun env s' hs' => hp.2.2.2 _ _ s' hs'⟩
    simp [Susp.inFlight, hp.2.1, hp.2.2.1]
  | all4 r₁ r₂ r₃ r₄ k _ =>
    refine ⟨fun h => Option.noConfusion h, ?_⟩
    intro w hw
    cases Option.some.inj hw
    refine ⟨hp.1, ?_, fun env s' hs' => hp.2.2.2.2.2 _ _ _ _ s' hs'⟩
    simp [Susp.inFlight, hp.2.1, hp.2.2.1, hp.2.2.2.1, hp.2.2.2.2.1]

theorem filter_length_eraseIdx {α : Type} (l : List (Bool × α)) (i : Nat) (w : Bool × α)
    (h : l[i]? = some w) :
    (l.filter (·.1)).length = ((l.eraseIdx i).filter (·.1)).length + (if w.1 then 1 else 0) := by
  induction l generalizing i with
  | nil => simp at h
  | cons x rest ih =>
    cases i with
    | zero =>
      simp only [List.getElem?_cons_zero, Option.some.injEq] at h
      subst h
      cases hx : x.1 <;> simp [List.filter_cons, hx]
    | succ j =>
      simp only [List.getElem?_cons_succ] at h
      have := ih j h
      cases hx : x.1 <;> simp [List.filter_cons, hx, List.eraseIdx_cons_succ] <;> omega

end Handler

namespace MontajBugun

open Handler

/-! ## The today page as a machine: at most one request of a task action in flight -/

theorem readOnly_loadData (c : State) :
    (loadData c).readOnly (·.actionLoading) Request.action := by
  unfold loadData
  simp only [Proc.readOnly, Request.action, true_and]
  refine ⟨fun _ => trivial, ?_⟩
  intro a b
  cases a <;> cases b <;> simp [Proc.readOnly]

theorem actionLoading_storeUpload (type url : String) (s : State) :
    (storeUpload type url s).actionLoading = s.actionLoading := by
  unfold storeUpload
  split_ifs <;> rfl

/-- An upload never writes the busy flag and issues no request of a task action. -/
theorem readOnly_handleFileUpload (createObjectURL : String → String) (c : State)
    (file : Option String) (type : String) :
    (handleFileUpload createObjectURL c file type).readOnly (·.actionLoading)
      Request.action := by
  unfold handleFileUpload
  cases file with
  | none => simp [Proc.readOnly]
  | some file =>
    cases uploadJobId c with
    | none => simp [Proc.readOnly]
    | some jobId =>
      simp only [Proc.readOnly, Request.action, true_and]
      intro a
      cases a with
      | error msg => simp [Proc.readOnly]
      | ok result =>
        simp only [Proc.readOnly, and_true]
        intro s
        exact actionLoading_storeUpload _ _ s

theorem Inv_invoke_readOnly (c : Config) (answer : String → Bool)
    (p : Proc State Request Request.Payload) (hc : c.Inv)
    (hp : p.readOnly (·.actionLoading) Request.action) : (c.invoke answer false p).Inv := by
  obtain ⟨h1, h2⟩ := Proc.start_readOnly (·.actionLoading) Request.action answer p c.state hp
  obtain ⟨i1, i2, i3⟩ := hc
  unfold Config.invoke
  cases hw : (p.start answer c.state).2 with
  | none =>
    simp only
    exact ⟨i1, i2, by simpa [h1] using i3⟩
  | some w =>
    simp only
    refine ⟨?_, ?_, ?_⟩
    · intro x hx hx1
      rcases List.mem_append.1 hx with h | h
      · exact i1 x h hx1
      · simp only [List.mem_singleton] at h
        subst h
        exact h2 w hw
    · intro x hx hx1
      rcases List.mem_append.1 hx with h | h
      · exact i2 x h hx1
      · simp only [List.mem_singleton] at h
        subst h
        exact absurd hx1 (by simp)
    · simp only [List.filter_append, List.length_append]
      simpa [h1] using i3

theorem Inv_invoke_action (c : Config) (answer : String → Bool)
    (p : Proc State Request Request.Payload)
    (i1 : ∀ w ∈ c.pending, w.1 = false → w.2.readOnly (·.actionLoading) Request.action)
    (i2 : ∀ w ∈ c.pending, w.1 = true → w.2.holdsFlag (·.actionLoading) Request.action)
    (i3 : (c.pending.filter (·.1)).length = 0)
    (hp : p.busyUntilDone (·.actionLoading) Request.action c.state) :
    (c.invoke answer true p).Inv := by
  obtain ⟨h1, h2⟩ :=
    Proc.start_busyUntilDone (·.actionLoading) Request.action answer p c.state hp
  unfold Config.invoke
  cases hw : (p.start answer c.state).2 with
  | none =>
    simp only
    have hb := h1 hw
    exact ⟨i1, i2, by simp [hb, i3]⟩
  | some w =>
    simp only
    obtain ⟨hb, hh⟩ := h2 w hw
    refine ⟨?_, ?_, ?_⟩
    · intro x hx hx1
      rcases List.mem_append.1 hx with h | h
      · exact i1 x h hx1
      · simp only [List.mem_singleton] at h
        subst h
        exact absurd hx1 (by simp)
    · intro x hx hx1
      rcases List.mem_append.1 hx with h | h
      · exact i2 x h hx1
      · simp only [List.mem_singleton] at h
        subst h
        exact hh
    · simp only [List.filter_append, List.length_append, i3]
      simp [hb]

theorem Inv_press (c : Config) (answer : String → Bool)
    (p : Proc State Request Request.Payload) (hc : c.Inv) (h0 : c.state.actionLoading = false)
    (hp : p.busyUntilDone (·.actionLoading) Request.action c.state) :
    (c.invoke answer true p).Inv :=
  Inv_invoke_action c answer p hc.1 hc.2.1 (by simpa [h0] using hc.2.2) hp

/-- Every event keeps the invariant. -/
theorem Inv_step (c : Config) (answer : String → Bool) (e : Step) (hc : c.Inv) :
    (c.step answer e).Inv := by
  cases e with
  | pressStart task =>
    simp only [Config.step]
    by_cases hd : startDisabled c.state = true
    · simpa [hd] using hc
    · have h0 : c.state.actionLoading = false := by simpa [startDisabled] using hd
      simp only [hd, Bool.false_eq_true, if_false]
      exact Inv_press c answer _ hc h0 (busy_handleStartTask c.state task)
  | pressResolve task issueId =>
    simp only [Config.step]
    by_cases hd : startDisabled c.state = true
    · simpa [hd] using hc
    · have h0 : c.state.actionLoading = false := by simpa [startDisabled] using hd
      simp only [hd, Bool.false_eq_true, if_false]
      exact Inv_press c answer _ hc h0 (busy_handleResolveIssue c.state task issueId)
  | pressReport =>
    simp only [Config.step]
    by_cases hd : reportDisabled c.state = true
    · simpa [hd] using hc
    · have h0 : c.state.actionLoading = false := by
        cases h : c.state.actionLoading
        · rfl
        · exact absurd (by simp [reportDisabled, h]) hd
      simp only [hd, Bool.false_eq_true, if_false]
      exact Inv_press c answer _ hc h0 (busy_handleReportIssue c.state h0)
  | pressComplete =>
    simp only [Config.step]
    by_cases hd : completeDisabled c.state = true
    · simpa [hd] using hc
    · have h0 : c.state.actionLoading = false := by
        cases h : c.state.actionLoading
        · rfl
        · exact absurd (by simp [completeDisabled, h]) hd
      simp only [hd, Bool.false_eq_true, if_false]
      cases c.state.selectedJob with
      | none => exact Inv_press c answer _ hc h0 (busy_handleCompleteTask c.state _)
      | some job => exact Inv_press c answer _ hc h0 (busy_handleCompleteAll c.state job h0)
  | reload =>
    simp only [Config.step]
    exact Inv_invoke_readOnly c answer _ hc (readOnly_loadData c.state)
  | chooseFile createObjectURL file type =>
    simp only [Config.step]
    exact Inv_invoke_readOnly c answer _ hc
      (readOnly_handleFileUpload createObjectURL c.state file type)
  | input f =>
    simp only [Config.step]
    exact hc
  | answered i env =>
    simp only [Config.step]
    cases hw : c.pending[i]? with
    | none => simpa using hc
    | some w =>
      simp only
      obtain ⟨i1, i2, i3⟩ := hc
      have hmem : w ∈ c.pending := List.getElem?_mem hw
      have i1' : ∀ x ∈ c.pending.eraseIdx i, x.1 = false →
          x.2.readOnly (·.actionLoading) Request.action :=
        fun x hx => i1 x (List.mem_of_mem_eraseIdx hx)
      have i2' : ∀ x ∈ c.pending.eraseIdx i, x.1 = true →
          x.2.holdsFlag (·.actionLoading) Request.action :=
        fun x hx => i2 x (List.mem_of_mem_eraseIdx hx)
      have hcount := filter_length_eraseIdx c.pending i w hw
      cases hw1 : w.1 with
      | false =>
        rw [hw1] at hcount
        simp only [Bool.false_eq_true, if_false, add_zero] at hcount
        exact Inv_invoke_readOnly _ answer _ ⟨i1', i2', by simpa [hcount] using i3⟩
          ((i1 w hmem hw1).2 env)
      | true =>
        rw [hw1] at hcount
        simp only [if_true] at hcount
        have hflag : c.state.actionLoading = true := by
          cases h : c.state.actionLoading
          · rw [h] at i3
            simp only [Bool.false_eq_true, if_false] at i3
            omega
          · rfl
        have hzero : ((c.pending.eraseIdx i).filter (·.1)).length = 0 := by
          rw [hflag] at i3
          simp only [if_true] at i3
          omega
        exact Inv_invoke_action _ answer _ i1' i2' hzero ((i2 w hmem hw1).2 env _ hflag)

theorem Inv_steps (c : Config) (events : List ((String → Bool) × Step)) (hc : c.Inv) :
    (c.steps events).Inv := by
  induction events generalizing c with
  | nil => exact hc
  | cons e rest ih => exact ih _ (Inv_step c e.1 e.2 hc)

theorem actions_le_holders (l : List (Bool × Susp State Request Request.Payload))
    (i1 : ∀ w ∈ l, w.1 = false → w.2.readOnly (·.actionLoading) Request.action)
    (i2 : ∀ w ∈ l, w.1 = true → w.2.holdsFlag (·.actionLoading) Request.action) :
    ((l.flatMap fun w => w.2.inFlight).filter Request.action).length ≤
      (l.filter (·.1)).length := by
  induction l with
  | nil => simp
  | cons x rest ih =>
    have hr := ih (fun w hw => i1 w (List.mem_cons_of_mem _ hw))
      (fun w hw => i2 w (List.mem_cons_of_mem _ hw))
    simp only [List.flatMap_cons, List.filter_append, List.length_append]
    cases hx : x.1 with
    | false =>
      have h0 : x.2.inFlight.filter Request.action = [] := by
        rw [List.filter_eq_nil_iff]
        intro r hr'
        simp [(i1 x (List.mem_cons_self _ _) hx).1 r hr']
      simp only [List.filter_cons, hx, h0, List.length_nil, zero_add]
      simpa using hr
    | true =>
      have h1 := (i2 x (List.mem_cons_self _ _) hx).1
      simp only [List.filter_cons, hx, if_true, List.length_cons]
      omega

/-- On the today page, whatever the user does (file choices included) and whatever the
backend answers, at most one request of the five task actions is in flight; and while one is
in flight, the busy flag is set and the buttons that invoke the five action handlers are
disabled.  Uploads are outside this guard. -/
theorem today_one_in_flight (s : State) (h0 : s.actionLoading = false)
    (events : List ((String → Bool) × Step)) :
    ((Config.mk s []).steps events).actionsInFlight.length ≤ 1 ∧
      (((Config.mk s []).steps events).actionsInFlight ≠ [] →
        ((Config.mk s []).steps events).state.actionLoading = true ∧
        startDisabled ((Config.mk s []).steps events).state = true ∧
        reportDisabled ((Config.mk s []).steps events).state = true ∧
        completeDisabled ((Config.mk s []).steps events).state = true) := by
  have hinit : (Config.mk s []).Inv := by
    refine ⟨fun w hw => absurd hw (List.not_mem_nil _), fun w hw => absurd hw (List.not_mem_nil _),
      ?_⟩
    simp [h0]
  obtain ⟨i1, i2, i3⟩ := Inv_steps _ events hinit
  have hle : ((Config.mk s []).steps events).actionsInFlight.length ≤ _ :=
    actions_le_holders _ i1 i2
  generalize (Config.mk s []).steps events = c at *
  have hle' : c.actionsInFlight.length ≤ if c.state.actionLoading then 1 else 0 := by
    rw [← i3]; exact hle
  constructor
  · split_ifs at hle' <;> omega
  · intro hne
    have hpos : 0 < c.actionsInFlight.length := List.length_pos.2 hne
    have hflag : c.state.actionLoading = true := by
      cases h : c.state.actionLoading
      · rw [h] at hle'
        simp only [Bool.false_eq_true, if_false] at hle'
        omega
      · rfl
    simp [hflag, startDisabled, reportDisabled, completeDisabled]

end MontajBugun
/-- C18 (amended): each of the five action handlers of the today page and the upload of the
archive, invoked with its busy flag clear, has the flag set whenever it waits for the backend
(for its request and for the reload after it) and ends with the flag clear, after a success
and after a failure; while the flag is set, the buttons that invoke these handlers are
disabled; and on the today page, whatever the user does (pressing buttons, choosing files,
other input) and whatever the backend answers, at most one request of the five task actions
is in flight, with the flag set while it is. -/
theorem busy_flag_guards (s : MontajBugun.State) (h0 : s.actionLoading = false)
    (task : MontajBugun.Task) (selected : Option MontajBugun.Task) (job : MontajBugun.Job)
    (issueId : String) (a : Arsiv.State) (ha : a.uploading = false)
    (events : List ((String → Bool) × MontajBugun.Step)) :
    (MontajBugun.handleStartTask s task).busyUntilDone (·.actionLoading)
      MontajBugun.Request.action s ∧
    (MontajBugun.handleCompleteTask s selected).busyUntilDone (·.actionLoading)
      MontajBugun.Request.action s ∧
    (MontajBugun.handleCompleteAll s job).busyUntilDone (·.actionLoading)
      MontajBugun.Request.action s ∧
    (MontajBugun.handleReportIssue s).busyUntilDone (·.actionLoading)
      MontajBugun.Request.action s ∧
    (MontajBugun.handleResolveIssue s task issueId).busyUntilDone (·.actionLoading)
      MontajBugun.Request.action s ∧
    (Arsiv.handleUpload a).busyUntilDone (·.uploading) Arsiv.Request.mutating a ∧
    (∀ s' : MontajBugun.State, s'.actionLoading = true →
      MontajBugun.startDisabled s' = true ∧ MontajBugun.reportDisabled s' = true ∧
        MontajBugun.completeDisabled s' = true) ∧
    (∀ a' : Arsiv.State, a'.uploading = true → Arsiv.uploadDisabled a' = true) ∧
    ((MontajBugun.Config.mk s []).steps events).actionsInFlight.length ≤ 1 ∧
    (((MontajBugun.Config.mk s []).steps events).actionsInFlight ≠ [] →
      ((MontajBugun.Config.mk s []).steps events).state.actionLoading = true) := by
  refine ⟨MontajBugun.busy_handleStartTask s task, MontajBugun.busy_handleCompleteTask s selected,
    MontajBugun.busy_handleCompleteAll s job h0, MontajBugun.busy_handleReportIssue s h0,
    MontajBugun.busy_handleResolveIssue s task issueId, Arsiv.busy_handleUpload a ha, ?_, ?_,
    (MontajBugun.today_one_in_flight s h0 events).1,
    fun h => ((MontajBugun.today_one_in_flight s h0 events).2 h).1⟩
  · intro s' h
    simp [MontajBugun.startDisabled, MontajBugun.reportDisabled, MontajBugun.completeDisabled, h]
  · intro a' h
    simp [Arsiv.uploadDisabled, h]

theorem busy_flag_guards_witness :
    (MontajBugun.handleStartTask {} { id := 1 }).busyUntilDone (·.actionLoading)
      MontajBugun.Request.action {} :=
  (busy_flag_guards {} rfl { id := 1 } none { jobId := "J1" } "I1" {} rfl []).1

namespace Handler

theorem requests_request {σ ρ : Type} (r : ρ) (s : σ) (l : List (Event σ ρ)) :
    requests (Event.request r s :: l) = r :: requests l := rfl

end Handler

namespace MontajBugun

open Handler

/-! ## The issue report, the completion controls and the completion form -/

/-- The requests of `loadData` of the today page are its two fetches. -/
theorem requests_loadData (env : Env Request Request.Payload) (c s : State) :
    requests ((loadData c).run env s).2 =
      [.getAssemblyTasksToday (Arsiv.orNull c.selectedTeam), .getTeams] := by
  rw [bugun_loadData_run]
  cases env.respond (.getAssemblyTasksToday (Arsiv.orNull c.selectedTeam)) <;>
    cases env.respond .getTeams <;> simp [requests]

/-- C21: `handleReportIssue` checks its required fields before any backend call.  When no
task is selected or the name of the affected item is empty, the run consists of the one alert:
no request is issued and the page state, job list and modals included, is unchanged.
Otherwise the first request is the report for the selected task with the current issue form,
and it is the only request of the run that changes data (the reload follows on success). -/
theorem handleReportIssue_check (env : Env Request Request.Payload) (s : State) :
    ((s.selectedTask = none ∨ s.issueForm.item = "") →
      ((handleReportIssue s).run env s).2 = [Event.alert "Sorunlu ürün/malzeme adı gerekli"] ∧
      requests ((handleReportIssue s).run env s).2 = [] ∧
      ((handleReportIssue s).run env s).1 = s) ∧
    (∀ task, s.selectedTask = some task → s.issueForm.item ≠ "" →
      (requests ((handleReportIssue s).run env s).2).head? =
        some (.reportAssemblyIssue task.id s.issueForm) ∧
      (requests ((handleReportIssue s).run env s).2).filter Request.mutating =
        [.reportAssemblyIssue task.id s.issueForm] ∧
      (requests ((handleReportIssue s).run env s).2).count
        (.reportAssemblyIssue task.id s.issueForm) = 1) := by
  constructor
  · intro h
    unfold handleReportIssue
    cases hs : s.selectedTask with
    | none => simp [Proc.run, requests]
    | some task =>
      rcases h with h | h
      · rw [hs] at h; exact Option.noConfusion h
      · simp [if_pos h, Proc.run, requests]
  · intro task hs hi
    have hq : ∀ x : State, requests ((Proc.set (fun s : State =>
        { s with showIssueModal := false }) finish).run env x).2 = [] := by
      intro x
      simp [Proc.run, requests, finish]
    unfold handleReportIssue
    rw [hs]
    simp only [if_neg hi]
    rw [Proc.run, Proc.run]
    cases env.respond (.reportAssemblyIssue task.id s.issueForm) with
    | error msg => simp [Proc.run, requests, Request.mutating, finish]
    | ok u =>
      simp only [Proc.run_andThen, requests_request, requests_append, requests_loadData, hq]
      simp [Request.mutating]

theorem handleReportIssue_check_witness :
    (requests ((handleReportIssue
        { selectedTask := some { id := 4 }, issueForm := { item := "Cam 80x120" } }).run
      (acceptAll none)
        { selectedTask := some { id := 4 }, issueForm := { item := "Cam 80x120" } }).2).head? =
      some (.reportAssemblyIssue 4 { item := "Cam 80x120" }) :=
  ((handleReportIssue_check _ _).2 { id := 4 } rfl (by decide)).1

end MontajBugun

namespace MontajBugun

open Handler

/-- The per-task path keeps its promise: a press on "Tamamla" of a task with a pending issue
opens nothing. -/
theorem pressCompleteTask_pending (s : State) (task : Task) (h : pendingIssues task ≠ []) :
    pressCompleteTask s task = s := by
  have hl : (pendingIssues task).length > 0 := List.length_pos.2 h
  simp [pressCompleteTask, completeTaskDisabled, hl]

/-- C22 (the failing input): job J1 has one task, in progress, with a pending issue.  The
"Tamamla" button of the task is disabled, but the card of the job draws "Tek Seferde
Tamamla", which is never disabled: a press on it opens the complete modal for the job, and
once the three pieces of evidence are uploaded a press on the submit button, confirmed by the
user, puts the request to complete all tasks of J1 in flight. -/
theorem completeAll_covers_pending_issue :
    jobWithIssue.tasks = [taskWithIssue] ∧
    taskWithIssue.status = some "in_progress" ∧
    pendingIssues taskWithIssue = [{ id := "i1", status := some "pending" }] ∧
    completeTaskDisabled { loading := false } taskWithIssue = true ∧
    completeAllShown jobWithIssue = true ∧
    (Config.steps { state := { loading := false, jobs := [jobWithIssue] } }
      [(fun _ => true, .input fun s => pressCompleteAll s jobWithIssue),
        (fun _ => true, .input (storeUpload "before" "/docs/b.jpg")),
        (fun _ => true, .input (storeUpload "after" "/docs/a.jpg")),
        (fun _ => true, .input (storeUpload "signature" "/docs/s.png")),
        (fun _ => true, .pressComplete)]).mutatingInFlight =
      [.completeAllAssemblyTasks "J1" { photosBefore := ["/docs/b.jpg"],
                                        photosAfter := ["/docs/a.jpg"],
                                        customerSignature := "/docs/s.png" }] := by
  decide

/-- C23 (the failing input): evidence of a previously opened task reaches the form of the next
one.  The complete modal is opened for task 1 of job J1 and a before-photo is chosen: its
upload for J1 is in flight.  The modal is closed and opened for task 2 of job J2, which empties
the form.  When the upload then succeeds, its file is added to the form as it is now: the
form for task 2 holds the photo taken for task 1. -/
theorem openCompleteModal_late_upload :
    (Config.steps { state := { loading := false } }
      [(fun _ => true, .input fun s => openCompleteModal s (some { id := 1, jobId := some "J1" })
          none),
        (fun _ => true, .chooseFile (fun f => "blob:" ++ f) (some "a.jpg") "before")]
      ).mutatingInFlight =
      [.uploadDocument "a.jpg" "J1" "montaj_oncesi" "Montaj öncesi fotoğraf"] ∧
    (Config.steps { state := { loading := false } }
      [(fun _ => true, .input fun s => openCompleteModal s (some { id := 1, jobId := some "J1" })
          none),
        (fun _ => true, .chooseFile (fun f => "blob:" ++ f) (some "a.jpg") "before"),
        (fun _ => true, .input fun s => { s with showCompleteModal := false }),
        (fun _ => true, .input fun s => openCompleteModal s (some { id := 2, jobId := some "J2" })
          none)]).state =
      { loading := false, showCompleteModal := true,
        selectedTask := some { id := 2, jobId := some "J2" }, completeForm := {} } ∧
    (Config.steps { state := { loading := false } }
      [(fun _ => true, .input fun s => openCompleteModal s (some { id := 1, jobId := some "J1" })
          none),
        (fun _ => true, .chooseFile (fun f => "blob:" ++ f) (some "a.jpg") "before"),
        (fun _ => true, .input fun s => { s with showCompleteModal := false }),
        (fun _ => true, .input fun s => openCompleteModal s (some { id := 2, jobId := some "J2" })
          none),
        (fun _ => true, .answered 0 (acceptAll (some { url := some "/docs/a.jpg" })))]).state =
      { loading := false, showCompleteModal := true,
        selectedTask := some { id := 2, jobId := some "J2" },
        completeForm := { photosBefore := ["/docs/a.jpg"] } } := by
  decide

/-- The parts of the completion form that hold.  The submit button of the complete modal is
enabled exactly when the busy flag is clear and the form holds a before-photo, an after-photo
and a customer signature.  Opening the modal empties the form, so the button is disabled right
after every opening.  An upload started in state `s` has its one request in flight for the
job selected in `s`, and when it succeeds in state `s'` it stores its file in the form of
`s'`. -/
theorem completeForm_mandatory (s : State) (task : Option Task) (job : Option Job) :
    (completeDisabled s = false ↔
      s.actionLoading = false ∧ s.completeForm.photosBefore ≠ [] ∧
        s.completeForm.photosAfter ≠ [] ∧ s.completeForm.customerSignature ≠ "") ∧
    ((openCompleteModal s task job).completeForm.photosBefore = [] ∧
      (openCompleteModal s task job).completeForm.photosAfter = [] ∧
      (openCompleteModal s task job).completeForm.customerSignature = "" ∧
      (openCompleteModal s task job).completeForm.note = "" ∧
      (openCompleteModal s task job).selectedTask = task ∧
      (openCompleteModal s task job).selectedJob = job ∧
      completeDisabled (openCompleteModal s task job) = true) ∧
    (∀ (createObjectURL : String → String) (file type jobId : String)
        (result : Option UploadResult) (env : Env Request Request.Payload) (s' : State),
      uploadJobId s = some jobId →
      env.respond (.uploadDocument file jobId (uploadKind type).1 (uploadKind type).2) =
        .ok result →
      ((handleFileUpload createObjectURL s (some file) type).start env.answer s).1 = s ∧
      ((handleFileUpload createObjectURL s (some file) type).start env.answer s).2.map
          Susp.inFlight =
        some [.uploadDocument file jobId (uploadKind type).1 (uploadKind type).2] ∧
      ((handleFileUpload createObjectURL s (some file) type).start env.answer s).2.map
          (fun w => ((w.resume env).run env s').1) =
        some (storeUpload type (uploadedUrl createObjectURL file result) s')) := by
  refine ⟨?_, ?_, ?_⟩
  · simp [completeDisabled, List.length_eq_zero, and_assoc]
  · simp [openCompleteModal, completeDisabled]
  · intro cu file type jobId result env s' hj hr
    simp [handleFileUpload, hj, Proc.start, Susp.inFlight, Susp.resume, Proc.run, hr]

/-- The upload is outside the guard of the busy flag: with an action in flight and the flag
set, two files can be chosen one after the other, and then three requests that change data
are in flight, one of them the request of a task action. -/
theorem upload_unguarded :
    (Config.steps
      { state := { loading := false, selectedTask := some { id := 1, jobId := some "J1" } } }
      [(fun _ => true, .pressStart { id := 1, jobId := some "J1" }),
        (fun _ => true, .chooseFile (fun f => "blob:" ++ f) (some "a.jpg") "before"),
        (fun _ => true, .chooseFile (fun f => "blob:" ++ f) (some "b.jpg") "after")]
      ).mutatingInFlight =
      [.startAssemblyTask 1,
        .uploadDocument "a.jpg" "J1" "montaj_oncesi" "Montaj öncesi fotoğraf",
        .uploadDocument "b.jpg" "J1" "montaj_sonrasi" "Montaj sonrası fotoğraf"] ∧
    (Config.steps
      { state := { loading := false, selectedTask := some { id := 1, jobId := some "J1" } } }
      [(fun _ => true, .pressStart { id := 1, jobId := some "J1" }),
        (fun _ => true, .chooseFile (fun f => "blob:" ++ f) (some "a.jpg") "before"),
        (fun _ => true, .chooseFile (fun f => "blob:" ++ f) (some "b.jpg") "after")]
      ).actionsInFlight = [.startAssemblyTask 1] := by
  decide

end MontajBugun

namespace Arsiv

open Handler

/-! ## Deleting a document -/

/-- C29: `handleDelete` and the local document list.  If the user declines the confirmation,
the run ends there: no request is issued and the state is unchanged.  If the user confirms,
the one request of the run is the delete of that document; when it succeeds the list becomes
the old list without the documents of that id, the others in their order, and when it fails
the list is unchanged and the error is shown; in both cases `deleting` ends false.  So
`deleting` ends false in every outcome of a run that started with it false. -/
theorem handleDelete_outcomes (env : Env Request Request.Payload) (docId : String) (s : State) :
    (env.answer "Bu dökümanı silmek istediğinize emin misiniz?" = false →
      requests ((handleDelete docId).run env s).2 = [] ∧
      ((handleDelete docId).run env s).1 = s) ∧
    (env.answer "Bu dökümanı silmek istediğinize emin misiniz?" = true →
      requests ((handleDelete docId).run env s).2 = [.deleteDocument docId] ∧
      ((handleDelete docId).run env s).1.deleting = false ∧
      (∀ u, env.respond (.deleteDocument docId) = .ok u →
        ((handleDelete docId).run env s).1.documents =
          s.documents.filter (fun d => decide (d.id ≠ docId)) ∧
        (∀ d, d ∈ ((handleDelete docId).run env s).1.documents ↔
          d ∈ s.documents ∧ d.id ≠ docId) ∧
        ((handleDelete docId).run env s).1.documents.Sublist s.documents) ∧
      (∀ msg, env.respond (.deleteDocument docId) = .error msg →
        ((handleDelete docId).run env s).1.documents = s.documents ∧
        ((handleDelete docId).run env s).2.getLast? =
          some (Event.alert (messageOr msg "Silinemedi")))) ∧
    (s.deleting = false → ((handleDelete docId).run env s).1.deleting = false) := by
  have hno : env.answer "Bu dökümanı silmek istediğinize emin misiniz?" = false →
      requests ((handleDelete docId).run env s).2 = [] ∧
      ((handleDelete docId).run env s).1 = s := by
    intro h
    simp [handleDelete, Proc.run, h, requests]
  have hyes : env.answer "Bu dökümanı silmek istediğinize emin misiniz?" = true →
      requests ((handleDelete docId).run env s).2 = [.deleteDocument docId] ∧
      ((handleDelete docId).run env s).1.deleting = false ∧
      (∀ u, env.respond (.deleteDocument docId) = .ok u →
        ((handleDelete docId).run env s).1.documents =
          s.documents.filter (fun d => decide (d.id ≠ docId)) ∧
        (∀ d, d ∈ ((handleDelete docId).run env s).1.documents ↔
          d ∈ s.documents ∧ d.id ≠ docId) ∧
        ((handleDelete docId).run env s).1.documents.Sublist s.documents) ∧
      (∀ msg, env.respond (.deleteDocument docId) = .error msg →
        ((handleDelete docId).run env s).1.documents = s.documents ∧
        ((handleDelete docId).run env s).2.getLast? =
          some (Event.alert (messageOr msg "Silinemedi"))) := by
    intro h
    refine ⟨?_, ?_, ?_, ?_⟩
    · simp only [handleDelete, Proc.run, h, if_true]
      cases env.respond (.deleteDocument docId) <;> simp [Proc.run, requests]
    · simp only [handleDelete, Proc.run, h, if_true]
      cases env.respond (.deleteDocument docId) <;> simp [Proc.run]
    · intro u hu
      have hd : ((handleDelete docId).run env s).1.documents =
          s.documents.filter (fun d => decide (d.id ≠ docId)) := by
        simp only [handleDelete, Proc.run, h, if_true, hu]
      refine ⟨hd, ?_, ?_⟩
      · intro d
        rw [hd]
        simp [List.mem_filter]
      · rw [hd]
        exact List.filter_sublist _
    · intro msg hm
      simp [handleDelete, Proc.run, h, hm]
  refine ⟨hno, hyes, ?_⟩
  intro hd
  cases h : env.answer "Bu dökümanı silmek istediğinize emin misiniz?" with
  | false => rw [(hno h).2]; exact hd
  | true => exact (hyes h).2.1

theorem handleDelete_outcomes_witness :
    ((handleDelete "d1").run ⟨fun _ => true, fun r => match r with
        | .getDocuments => .ok []
        | .getJobs => .ok []
        | .getSuppliers => .ok []
        | .getFolders => .ok []
        | .deleteDocument _ => .ok ()
        | .uploadDocument _ _ _ _ _ _ => .error ""
        | .createFolder _ _ _ _ _ => .error ""⟩
      { documents := [{ id := "d0" }, { id := "d1" }, { id := "d2" }] }).1.documents =
      [{ id := "d0" }, { id := "d2" }] :=
  (((handleDelete_outcomes ⟨fun _ => true, fun r => match r with
        | .getDocuments => .ok []
        | .getJobs => .ok []
        | .getSuppliers => .ok []
        | .getFolders => .ok []
        | .deleteDocument _ => .ok ()
        | .uploadDocument _ _ _ _ _ _ => .error ""
        | .createFolder _ _ _ _ _ => .error ""⟩ "d1"
      { documents := [{ id := "d0" }, { id := "d1" }, { id := "d2" }] }).2.1 rfl).2.2.1 ()
        rfl).1.trans (by decide)

end Arsiv

namespace Ayarlar

/-! ## The stage editor keeps the order numbers in step with the positions -/

theorem getElem?_renumberFrom (i : Nat) (l : List Stage) (j : Nat) :
    (renumberFrom i l)[j]? = (l[j]?).map fun s => { s with order := i + j + 1 } := by
  induction l generalizing i j with
  | nil => simp [renumberFrom]
  | cons x rest ih =>
    cases j with
    | zero => simp [renumberFrom]
    | succ j =>
      simp only [renumberFrom, List.getElem?_cons_succ, ih]
      congr 1
      funext s
      congr 1
      omega

theorem length_renumberFrom (i : Nat) (l : List Stage) : (renumberFrom i l).length = l.length := by
  induction l generalizing i with
  | nil => rfl
  | cons x rest ih => simp [renumberFrom, ih]

theorem map_key_renumberFrom (i : Nat) (l : List Stage) :
    (renumberFrom i l).map Stage.key = l.map Stage.key := by
  induction l generalizing i with
  | nil => rfl
  | cons x rest ih => simp [renumberFrom, ih, Stage.key]

theorem Ordered_renumber (l : List Stage) : Ordered (renumber l) := by
  intro i s h
  rw [renumber, getElem?_renumberFrom] at h
  cases hl : l[i]? with
  | none => rw [hl] at h; exact Option.noConfusion h
  | some x =>
    rw [hl] at h
    simp only [Option.map_some', Option.some.injEq] at h
    rw [← h]
    simp

theorem swapAt_succ (x : Stage) (rest : List Stage) (k : Nat) :
    swapAt (x :: rest) (k + 1) (k + 2) = x :: swapAt rest k (k + 1) := by
  unfold swapAt
  simp only [List.getElem?_cons_succ]
  cases rest[k]? <;> cases rest[k + 1]? <;> simp [List.set]

theorem swapAt_adjacent_perm (l : List Stage) (i : Nat) : (swapAt l i (i + 1)).Perm l := by
  induction l generalizing i with
  | nil => simp [swapAt]
  | cons x rest ih =>
    cases i with
    | zero =>
      cases rest with
      | nil => simp [swapAt]
      | cons y r =>
        simp only [swapAt, List.getElem?_cons_zero, List.getElem?_cons_succ, List.set]
        exact List.Perm.swap x y r
    | succ k =>
      rw [swapAt_succ]
      exact List.Perm.cons x (ih k)

theorem enum_filter_ne (l : List Stage) (idx n : Nat) :
    ((l.enumFrom n).filter fun p => decide (p.1 ≠ n + idx)).map (fun p => p.2) =
      l.eraseIdx idx := by
  induction l generalizing idx n with
  | nil => simp
  | cons x rest ih =>
    cases idx with
    | zero =>
      simp only [List.enumFrom, Nat.add_zero, List.eraseIdx_cons_zero]
      rw [List.filter_cons_of_neg (by simp)]
      have h : ∀ (m : Nat) (r : List Stage), n < m →
          ((r.enumFrom m).filter fun p => decide (p.1 ≠ n)).map (fun p => p.2) = r := by
        intro m r
        induction r generalizing m with
        | nil => intro _; rfl
        | cons y r ihr =>
          intro hm
          simp only [List.enumFrom]
          rw [List.filter_cons_of_pos (by simp; omega)]
          simp only [List.map_cons]
          rw [ihr (m + 1) (by omega)]
      exact h (n + 1) rest (by omega)
    | succ k =>
      simp only [List.enumFrom, List.eraseIdx_cons_succ]
      rw [List.filter_cons_of_pos (by simp)]
      simp only [List.map_cons]
      have := ih k (n + 1)
      rw [show n + 1 + k = n + (k + 1) by omega] at this
      rw [this]

theorem deleteStage_eq (stages : List Stage) (idx : Nat) :
    deleteStage stages idx = renumber (stages.eraseIdx idx) := by
  unfold deleteStage
  have := enum_filter_ne stages idx 0
  simp only [Nat.zero_add] at this
  rw [List.enum, this]

theorem map_eraseIdx_key (l : List Stage) (idx : Nat) :
    (l.eraseIdx idx).map Stage.key = (l.map Stage.key).eraseIdx idx := by
  induction l generalizing idx with
  | nil => simp
  | cons x rest ih =>
    cases idx with
    | zero => simp
    | succ k => simp [ih]

/-- C27: the stage editor keeps the order numbers equal to the positions.  If every stage at
index `i` has order `i + 1`, the same holds after adding a stage, after moving the row `idx`
up or down, after deleting it and after editing its name.  A move keeps the stages (their ids
and names) up to their arrangement and keeps their number; a delete leaves the stages of the
other rows, in their order; a rename changes the name of the row and nothing else; the new
stage is added last, unsaved and unnamed. -/
theorem stages_ordered (stages : List Stage) (idx : Nat) (name : String)
    (h : Ordered stages) (hidx : idx < stages.length) :
    (Ordered (addStage stages) ∧ Ordered (moveUp stages idx) ∧ Ordered (moveDown stages idx) ∧
      Ordered (deleteStage stages idx) ∧ Ordered (renameStage stages idx name)) ∧
    (((moveUp stages idx).map Stage.key).Perm (stages.map Stage.key) ∧
      (moveUp stages idx).length = stages.length ∧
      ((moveDown stages idx).map Stage.key).Perm (stages.map Stage.key) ∧
      (moveDown stages idx).length = stages.length) ∧
    ((deleteStage stages idx).map Stage.key = (stages.map Stage.key).eraseIdx idx ∧
      (deleteStage stages idx).length + 1 = stages.length) ∧
    ((renameStage stages idx name).map Stage.key =
        (stages.map Stage.key).set idx ((stages.map Stage.id).getD idx none, name) ∧
      (addStage stages).map Stage.key = stages.map Stage.key ++ [(none, "")]) := by
  have hup : ((moveUp stages idx).map Stage.key).Perm (stages.map Stage.key) := by
    unfold moveUp
    by_cases h0 : idx = 0
    · rw [if_pos h0]
    · rw [if_neg h0, renumber, map_key_renumberFrom]
      have := swapAt_adjacent_perm stages (idx - 1)
      rw [show idx - 1 + 1 = idx by omega] at this
      exact this.map _
  have hdown : ((moveDown stages idx).map Stage.key).Perm (stages.map Stage.key) := by
    unfold moveDown
    by_cases h0 : idx + 1 = stages.length
    · rw [if_pos h0]
    · rw [if_neg h0, renumber, map_key_renumberFrom]
      exact (swapAt_adjacent_perm stages idx).map _
  have hdel : (deleteStage stages idx).map Stage.key = (stages.map Stage.key).eraseIdx idx := by
    rw [deleteStage_eq, renumber, map_key_renumberFrom, map_eraseIdx_key]
  refine ⟨⟨?_, ?_, ?_, ?_, ?_⟩, ⟨hup, ?_, hdown, ?_⟩, ⟨hdel, ?_⟩, ?_, ?_⟩
  · intro i s hs
    unfold addStage at hs
    by_cases hi : i < stages.length
    · rw [List.getElem?_append_left hi] at hs
      exact h i s hs
    · rw [List.getElem?_append_right (by omega)] at hs
      have hi0 : i - stages.length = 0 := by
        by_contra hne
        rw [List.getElem?_eq_none (by simp; omega)] at hs
        exact Option.noConfusion hs
      rw [hi0] at hs
      simp only [List.getElem?_cons_zero, Option.some.injEq] at hs
      rw [← hs]
      simp only
      omega
  · unfold moveUp
    by_cases h0 : idx = 0
    · rw [if_pos h0]; exact h
    · rw [if_neg h0]; exact Ordered_renumber _
  · unfold moveDown
    by_cases h0 : idx + 1 = stages.length
    · rw [if_pos h0]; exact h
    · rw [if_neg h0]; exact Ordered_renumber _
  · rw [deleteStage_eq]; exact Ordered_renumber _
  · intro i s hs
    unfold renameStage at hs
    rw [List.getElem?_eq_getElem hidx] at hs
    simp only at hs
    rw [List.getElem?_set] at hs
    by_cases hi : idx = i
    · subst hi
      rw [if_pos rfl] at hs
      simp only [hidx, if_true, Option.some.injEq] at hs
      rw [← hs]
      exact h idx stages[idx] (List.getElem?_eq_getElem hidx)
    · rw [if_neg hi] at hs
      exact h i s hs
  · have := hup.length_eq
    simpa using this
  · have := hdown.length_eq
    simpa using this
  · have := congrArg List.length hdel
    simp only [List.length_map] at this
    rw [this, List.length_eraseIdx]
    simp only [List.length_map, hidx, if_true]
    omega
  · unfold renameStage
    rw [List.getElem?_eq_getElem hidx]
    simp only
    rw [List.map_set]
    simp [Stage.key, List.getD, hidx]
  · simp [addStage, Stage.key]

theorem stages_ordered_witness :
    Ordered (moveUp [{ name := "PVC Montaj", order := 1 }, { name := "Cam", order := 2 }] 1) :=
  (stages_ordered [{ name := "PVC Montaj", order := 1 }, { name := "Cam", order := 2 }] 1 ""
    (by
      intro i s hs
      match i, hs with
      | 0, hs => simp at hs; rw [← hs]
      | 1, hs => simp at hs; rw [← hs]
      | n + 2, hs => simp at hs)
    (by decide)).1.2.1

end Ayarlar

namespace Arsiv

open MontajTakvim (truthy)

/-! ## The tabs of the archive -/

theorem tab_disjoint (d : Doc) :
    ¬ (isJobDoc d = true ∧ isCompanyDoc d = true) ∧
    ¬ (isJobDoc d = true ∧ isSupplierDoc d = true) ∧
    ¬ (isCompanyDoc d = true ∧ isSupplierDoc d = true) := by
  unfold isJobDoc isCompanyDoc isSupplierDoc
  cases truthy d.jobId <;> cases truthy d.supplierId <;> cases truthy d.folderId <;> simp

theorem tab_counts_le (l : List Doc) :
    (l.filter isJobDoc).length + (l.filter isCompanyDoc).length +
      (l.filter isSupplierDoc).length ≤ l.length := by
  induction l with
  | nil => simp
  | cons d rest ih =>
    have hd := tab_disjoint d
    simp only [List.filter_cons, List.length_cons]
    cases h1 : isJobDoc d <;> cases h2 : isCompanyDoc d <;> cases h3 : isSupplierDoc d <;>
      simp only [h1, h2, h3] at hd <;> simp at hd ⊢ <;> omega

/-- C28: the three tabs of the archive.  No document belongs to two of them, so the three
counters of `stats` add up to at most `total`, the number of documents.  With an empty search
and no folder selected, the number of rows `filteredDocs` lists on each of the three tabs is
the number on the badge of that tab.  In every state `filteredDocs` is a sublist of the
documents: it keeps their order and repeats none. -/
theorem tabs_consistent (lower : String → String) (s : State) :
    (∀ d : Doc, ¬ (isJobDoc d = true ∧ isCompanyDoc d = true) ∧
      ¬ (isJobDoc d = true ∧ isSupplierDoc d = true) ∧
      ¬ (isCompanyDoc d = true ∧ isSupplierDoc d = true)) ∧
    (stats s).jobDocs + (stats s).companyDocs + (stats s).supplierDocs ≤ (stats s).total ∧
    (stats s).total = s.documents.length ∧
    (∀ tab ∈ TABS, s.search = "" → s.selectedFolder = none → s.activeTab = tab →
      (filteredDocs lower s).length = tabBadge s tab) ∧
    (filteredDocs lower s).Sublist s.documents := by
  refine ⟨tab_disjoint, tab_counts_le s.documents, rfl, ?_, ?_⟩
  · intro tab htab hsearch hfolder hactive
    simp only [TABS, List.mem_cons, List.mem_singleton, List.not_mem_nil, or_false] at htab
    unfold filteredDocs tabDocs tabBadge stats
    rw [hsearch, hfolder, hactive]
    rcases htab with h | h | h <;> subst h <;> simp
  · have htab : (tabDocs s).Sublist s.documents := by
      unfold tabDocs
      split_ifs
      · exact List.filter_sublist _
      · cases s.selectedFolder with
        | none => exact List.filter_sublist _
        | some f =>
          simp only
          split_ifs
          · exact (List.filter_sublist _).trans (List.filter_sublist _)
          · exact List.filter_sublist _
      · exact List.filter_sublist _
      · exact List.Sublist.refl _
    unfold filteredDocs
    split_ifs
    · exact (List.filter_sublist _).trans htab
    · exact htab

end Arsiv

namespace Arsiv

/-! ## The size of a file as text -/

/-- The index of `formatFileSize` and the scaled value: `1024 ^ i ≤ bytes < 1024 ^ (i + 1)`,
so the scaled value `bytes / 1024 ^ i` lies in `[1, 1024)`. -/
theorem sizeIndex_spec (bytes : Nat) (h0 : 0 < bytes) :
    1024 ^ sizeIndex bytes ≤ bytes ∧ bytes < 1024 ^ (sizeIndex bytes + 1) :=
  ⟨Nat.pow_log_le_self 1024 (by omega), Nat.lt_pow_succ_log_self (by decide) bytes⟩

/-- Below `1024 ^ 4` bytes the index is inside the table of units. -/
theorem sizeIndex_lt (bytes : Nat) (h1 : bytes < 1024 ^ 4) : sizeIndex bytes < sizes.length := by
  by_cases h0 : bytes = 0
  · subst h0; simp [sizeIndex, sizes]
  · exact Nat.log_lt_of_lt_pow h0 h1

/-- From `1024 ^ 4` bytes on the index is outside the table of units. -/
theorem sizeIndex_ge (bytes : Nat) (h1 : 1024 ^ 4 ≤ bytes) : sizes.length ≤ sizeIndex bytes :=
  (Nat.pow_le_iff_le_log (by decide) (by
    have : 0 < 1024 ^ 4 := by decide
    omega)).1 h1

/-- What `formatFileSize` prints for a size below one tebibyte: the scaled value and one of
the four units; an absent size and the size zero print as a dash. -/
theorem formatFileSize_units (bytes : Nat) (h0 : 0 < bytes) (h1 : bytes < 1024 ^ 4) :
    ∃ unit ∈ sizes, sizes[sizeIndex bytes]? = some unit ∧
      formatFileSize (some bytes) = toFixed1 bytes (1024 ^ sizeIndex bytes) ++ " " ++ unit := by
  have hlt := sizeIndex_lt bytes h1
  refine ⟨sizes[sizeIndex bytes], List.getElem_mem _, List.getElem?_eq_getElem hlt, ?_⟩
  have hne : bytes ≠ 0 := by omega
  simp only [formatFileSize, if_neg hne, List.getElem?_eq_getElem hlt, Option.getD_some]

/-- C30 (the failing input): a size of two tebibytes, `2 * 1024 ^ 4` bytes.  The index is 4,
the length of the table of units, and the text is the scaled value followed by the word
`undefined`.  The same holds for every size from `1024 ^ 4` bytes on (`sizeIndex_ge`); below
it the unit is one of the four (`formatFileSize_units`). -/
theorem formatFileSize_two_tebibytes :
    sizeIndex 2199023255552 = 4 ∧ sizes.length = 4 ∧ sizes[sizeIndex 2199023255552]? = none ∧
    formatFileSize (some 2199023255552) = "2.0 undefined" ∧
    formatFileSize (some 1536) = "1.5 KB" ∧
    formatFileSize none = "-" ∧ formatFileSize (some 0) = "-" := by
  have h4 : sizeIndex 2199023255552 = 4 :=
    Nat.log_eq_of_pow_le_of_lt_pow (by norm_num) (by norm_num)
  have h1 : sizeIndex 1536 = 1 :=
    Nat.log_eq_of_pow_le_of_lt_pow (by norm_num) (by norm_num)
  refine ⟨h4, rfl, ?_, ?_, ?_, rfl, rfl⟩
  · rw [h4]; rfl
  · simp only [formatFileSize, h4]
    decide
  · simp only [formatFileSize, h1]
    decide

end Arsiv

namespace JSDate

/-! ## Facts about `setMonth` -/

theorem MakeDay_norm (y m k : Int) : MakeDay y m k = MakeDay (y + m / 12) (m % 12) k := by
  unfold MakeDay
  have h1 : m % 12 / 12 = 0 := by omega
  have h2 : m % 12 % 12 = m % 12 := by omega
  simp only [h1, h2, add_zero]

theorem LocalTime_UTC (tza t : Int) : LocalTime tza (UTC tza t) = t := by
  unfold LocalTime UTC
  omega

/-- When the day of the month exists in every month (it is at most 28), `setMonth` gives that
day of the month asked for, in the year the month number carries to. -/
theorem setMonth_civil (tza t m : Int) (h : getDate tza t ≤ 28) :
    getFullYear tza (setMonth tza t m) = getFullYear tza t + m / 12 ∧
    getMonth tza (setMonth tza t m) = m % 12 ∧
    getDate tza (setMonth tza t m) = getDate tza t := by
  unfold getFullYear getMonth getDate setMonth at *
  simp only [LocalTime_UTC]
  unfold YearFromTime MonthFromTime DateFromTime at *
  obtain ⟨hr0, hr1⟩ := TimeWithinDay_bounds (LocalTime tza t)
  rw [Day_MakeDate _ _ hr0 hr1, MakeDay_norm]
  obtain ⟨hk0, _⟩ := DateFromDay_bounds (Day (LocalTime tza t))
  have hb := (DaysInMonth_bounds (YearFromDay (Day (LocalTime tza t)) + m / 12) (m % 12)).1
  exact civil_MakeDay _ _ _ (by omega) (by omega) hk0 (by omega)

end JSDate

namespace MontajTakvim

open JSDate Handler

/-! ## The month buttons and the due-date check -/

/-- In month view, from a reference date whose day of the month is at most 28, "Sonraki" leads
to the same day of the next month and "Önceki" to the same day of the month before, with the
year carried over at the ends of the year. -/
theorem period_month_day_le_28 (tza : Int) (s : State) (hv : s.viewMode = "month")
    (h : getDate tza s.currentDate ≤ 28) :
    (getMonth tza (nextPeriod tza s).currentDate =
        (if getMonth tza s.currentDate = 11 then 0 else getMonth tza s.currentDate + 1) ∧
      getFullYear tza (nextPeriod tza s).currentDate =
        (if getMonth tza s.currentDate = 11 then getFullYear tza s.currentDate + 1
          else getFullYear tza s.currentDate) ∧
      getDate tza (nextPeriod tza s).currentDate = getDate tza s.currentDate) ∧
    (getMonth tza (prevPeriod tza s).currentDate =
        (if getMonth tza s.currentDate = 0 then 11 else getMonth tza s.currentDate - 1) ∧
      getFullYear tza (prevPeriod tza s).currentDate =
        (if getMonth tza s.currentDate = 0 then getFullYear tza s.currentDate - 1
          else getFullYear tza s.currentDate) ∧
      getDate tza (prevPeriod tza s).currentDate = getDate tza s.currentDate) := by
  obtain ⟨hm0, hm1⟩ := getMonth_bounds tza s.currentDate
  have hn := setMonth_civil tza s.currentDate (getMonth tza s.currentDate + 1) h
  have hp := setMonth_civil tza s.currentDate (getMonth tza s.currentDate - 1) h
  simp only [nextPeriod, prevPeriod, hv, if_true]
  refine ⟨⟨?_, ?_, hn.2.2⟩, ?_, ?_, hp.2.2⟩
  · rw [hn.2.1]; split_ifs <;> omega
  · rw [hn.1]; split_ifs <;> omega
  · rw [hp.2.1]; split_ifs <;> omega
  · rw [hp.1]; split_ifs <;> omega

/-- C24 (the failing input): in month view the reference date is 31 January 2024, in a
browser three hours ahead of UTC.  "Sonraki" asks for day 31 of February, which `setMonth`
carries over to 2 March 2024: the page goes from January to March and February is skipped.
From 31 March 2024 "Önceki" asks for day 31 of February as well and stays in March. -/
theorem nextPeriod_skips_february :
    (getFullYear 10800000 (newDate 10800000 2024 0 31) = 2024 ∧
      getMonth 10800000 (newDate 10800000 2024 0 31) = 0 ∧
      getDate 10800000 (newDate 10800000 2024 0 31) = 31) ∧
    (nextPeriod 10800000 { currentDate := newDate 10800000 2024 0 31 }).currentDate =
      newDate 10800000 2024 2 2 ∧
    (getFullYear 10800000
        (nextPeriod 10800000 { currentDate := newDate 10800000 2024 0 31 }).currentDate = 2024 ∧
      getMonth 10800000
        (nextPeriod 10800000 { currentDate := newDate 10800000 2024 0 31 }).currentDate = 2 ∧
      getDate 10800000
        (nextPeriod 10800000 { currentDate := newDate 10800000 2024 0 31 }).currentDate = 2) ∧
    (getMonth 10800000 (newDate 10800000 2024 2 31) = 2 ∧
      (prevPeriod 10800000 { currentDate := newDate 10800000 2024 2 31 }).currentDate =
        newDate 10800000 2024 2 2 ∧
      getMonth 10800000
        (prevPeriod 10800000 { currentDate := newDate 10800000 2024 2 31 }).currentDate = 2) := by
  decide

/-- For a cell of the month grid (a local midnight) in a zone at or ahead of UTC, and a due
date that parses to a midnight UTC, the test of `handleDrop` compares the calendar days. -/
theorem afterEstimated_month_cell (parse : String → Option Int) (estimatedDate : String)
    (tza y m d dueDay : Int) (hp : parse estimatedDate = some (dueDay * msPerDay))
    (h0 : 0 ≤ tza) (h1 : tza < msPerDay) :
    afterEstimated parse estimatedDate (newDate tza y m d) =
      decide (dueDay < MakeDay (MakeFullYear y) m d) := by
  simp only [afterEstimated, hp]
  unfold newDate UTC MakeDate msPerDay at *
  by_cases h : dueDay < MakeDay (MakeFullYear y) m d
  · rw [decide_eq_true h, decide_eq_true (by omega)]
  · rw [decide_eq_false h, decide_eq_false (by omega)]

/-- C25 (the failing inputs): a task is due on 2024-03-05 and is dropped on the cell of
5 March 2024, its due date itself.  In week view the cells carry the time of day of the
reference date: with the reference date 5 March 2024, 14:30, in a browser three hours ahead of
UTC, the cell of that Tuesday is 11:30 UTC, which is after the due date's midnight UTC, so
`handleDrop` asks for the confirmation, and a user who declines stops the drop.  In month view
the same happens in a browser five hours behind UTC, where the cell is 05:00 UTC.  In month
view three hours ahead of UTC no confirmation is asked for. -/
theorem handleDrop_confirm_on_due_date :
    parseDateOnly "2024-03-05" = some 1709596800000 ∧
    ((calendarDays 10800000 1709638200000 "week")[1]? = some ⟨1709638200000, true⟩ ∧
      getFullYear 10800000 1709638200000 = 2024 ∧ getMonth 10800000 1709638200000 = 2 ∧
      getDate 10800000 1709638200000 = 5 ∧
      needsConfirm parseDateOnly { id := 7, estimatedDate := some "2024-03-05" }
        1709638200000 = true ∧
      requests ((handleDrop parseDateOnly
          { viewMode := "week", currentDate := 1709638200000,
            draggedTask := some { id := 7, estimatedDate := some "2024-03-05" } }
          1709638200000).run ⟨fun _ => false, fun r => match r with
            | .getAssemblyTasks => .ok none
            | .getTeams => .ok none
            | .updateAssemblyTask _ _ => .ok ()⟩
          { viewMode := "week", currentDate := 1709638200000,
            draggedTask := some { id := 7, estimatedDate := some "2024-03-05" } }).2 = []) ∧
    (getDate (-18000000) (newDate (-18000000) 2024 2 5) = 5 ∧
      getMonth (-18000000) (newDate (-18000000) 2024 2 5) = 2 ∧
      needsConfirm parseDateOnly { id := 7, estimatedDate := some "2024-03-05" }
        (newDate (-18000000) 2024 2 5) = true) ∧
    needsConfirm parseDateOnly { id := 7, estimatedDate := some "2024-03-05" }
      (newDate 10800000 2024 2 5) = false := by
  decide

end MontajTakvim

namespace JSDate

/-! ## The date part of the ISO format determines the day -/

theorem digitChar_inj : ∀ a b : Fin 10, Nat.digitChar a = Nat.digitChar b → a = b := by
  decide

theorem digit_inj (a b : Int) (h : digit a = digit b) : a % 10 = b % 10 := by
  unfold digit at h
  have ha : (a % 10).toNat < 10 := by omega
  have hb : (b % 10).toNat < 10 := by omega
  have := digitChar_inj ⟨(a % 10).toNat, ha⟩ ⟨(b % 10).toNat, hb⟩ h
  have h' : (a % 10).toNat = (b % 10).toNat := congrArg Fin.val this
  omega

theorem isoDate_inj (y m d y' m' d' : Int) (hy0 : 0 ≤ y) (hy1 : y ≤ 9999) (hy0' : 0 ≤ y')
    (hy1' : y' ≤ 9999) (hm0 : 0 ≤ m) (hm1 : m ≤ 11) (hm0' : 0 ≤ m') (hm1' : m' ≤ 11)
    (hd0 : 1 ≤ d) (hd1 : d ≤ 31) (hd0' : 1 ≤ d') (hd1' : d' ≤ 31)
    (h : isoDate y m d = isoDate y' m' d') : y = y' ∧ m = m' ∧ d = d' := by
  have e1 : isoYear y = pad4 y := by simp [isoYear, hy0, hy1]
  have e2 : isoYear y' = pad4 y' := by simp [isoYear, hy0', hy1']
  unfold isoDate at h
  rw [e1, e2] at h
  simp only [pad4, pad2, List.cons_append, List.nil_append, List.cons.injEq, and_true,
    true_and] at h
  obtain ⟨a1, a2, a3, a4, b1, b2, c1, c2⟩ := h
  have := digit_inj _ _ a1
  have := digit_inj _ _ a2
  have := digit_inj _ _ a3
  have := digit_inj _ _ a4
  have := digit_inj _ _ b1
  have := digit_inj _ _ b2
  have := digit_inj _ _ c1
  have := digit_inj _ _ c2
  refine ⟨?_, ?_, ?_⟩ <;> omega

/-- A day is determined by its civil date. -/
theorem Day_eq_of_civil (a b : Int) (hy : YearFromDay a = YearFromDay b)
    (hm : MonthFromDay a = MonthFromDay b) (hd : DateFromDay a = DateFromDay b) : a = b := by
  have ha := MakeDay_civil a 1
  have hb := MakeDay_civil b 1
  rw [hy, hm] at ha
  omega

end JSDate

namespace MontajTakvim

open JSDate Handler

/-! ## Drop and display -/

/-- Two time values with UTC years in 0..9999 and the same date key lie on the same UTC
day. -/
theorem Day_eq_of_formatDateKey (a b : Int) (ha0 : 0 ≤ YearFromTime a)
    (ha1 : YearFromTime a ≤ 9999) (hb0 : 0 ≤ YearFromTime b) (hb1 : YearFromTime b ≤ 9999)
    (h : formatDateKey a = formatDateKey b) : Day a = Day b := by
  rw [formatDateKey_eq a ha0 ha1, formatDateKey_eq b hb0 hb1] at h
  have h' := congrArg String.data h
  simp only at h'
  obtain ⟨ma0, ma1⟩ := MonthFromDay_bounds (Day a)
  obtain ⟨mb0, mb1⟩ := MonthFromDay_bounds (Day b)
  obtain ⟨da0, da1⟩ := DateFromDay_bounds (Day a)
  obtain ⟨db0, db1⟩ := DateFromDay_bounds (Day b)
  obtain ⟨e1, e2, e3⟩ := isoDate_inj _ _ _ _ _ _ ha0 ha1 hb0 hb1 ma0 ma1 mb0 mb1 da0 da1 db0 db1 h'
  exact Day_eq_of_civil _ _ e1 e2 e3

/-- The cells of a grid lie whole days apart. -/
theorem calendarDays_whole_days (tza t : Int) (v : String) (c c' : CalendarDay)
    (hc : c ∈ calendarDays tza t v) (hc' : c' ∈ calendarDays tza t v) :
    ∃ k : Int, c'.date = c.date + k * msPerDay := by
  by_cases hv : v = "month"
  · subst hv
    rw [calendarDays_month_eq] at hc hc'
    obtain ⟨j, _, rfl⟩ := List.mem_map.1 hc
    obtain ⟨j', _, rfl⟩ := List.mem_map.1 hc'
    refine ⟨(j' : Int) - (j : Int), ?_⟩
    simp only [monthCell]
    ring
  · rw [calendarDays_week_eq tza t v hv] at hc hc'
    obtain ⟨j, _, rfl⟩ := List.mem_map.1 hc
    obtain ⟨j', _, rfl⟩ := List.mem_map.1 hc'
    refine ⟨(j' : Int) - (j : Int), ?_⟩
    simp only
    ring

/-- The date keys of the cells of a grid in the years 0..9999 are different from each
other. -/
theorem formatDateKey_cell_inj (tza t : Int) (v : String) (c c' : CalendarDay)
    (hc : c ∈ calendarDays tza t v) (hc' : c' ∈ calendarDays tza t v)
    (hy : 0 ≤ YearFromTime c.date ∧ YearFromTime c.date ≤ 9999)
    (hy' : 0 ≤ YearFromTime c'.date ∧ YearFromTime c'.date ≤ 9999)
    (h : formatDateKey c'.date = formatDateKey c.date) : c'.date = c.date := by
  obtain ⟨k, hk⟩ := calendarDays_whole_days tza t v c c' hc hc'
  have hd := Day_eq_of_formatDateKey _ _ hy'.1 hy'.2 hy.1 hy.2 h
  rw [hk, Day_add_days] at hd
  have : k = 0 := by omega
  rw [hk, this]
  ring

theorem slice10_idem (s : String) : slice10 (slice10 s) = slice10 s := by
  simp [slice10, List.take_take]

theorem formatDateKey_ne_empty (date : Int) : formatDateKey date ≠ "" := by
  intro h
  have h' := congrArg String.data h
  simp only [formatDateKey, slice10, toISOString, isoDate, isoYear, pad4, pad6] at h'
  split_ifs at h' <;> simp at h'

/-- The tasks of a cell are the tasks whose planned date has the date key of the cell and
that pass the team filter. -/
theorem mem_dayTasks (tasks : List Task) (f : String) (date : Int) (x : Task) :
    x ∈ dayTasks tasks f date ↔
      x ∈ tasks ∧ truthy x.plannedDate = true ∧ dateKey x = formatDateKey date ∧
        (f = "" ∨ x.teamId = some f) := by
  unfold dayTasks
  rw [(tasksByDate_spec tasks f).1]
  by_cases hb : bucketSpec tasks f (formatDateKey date) = []
  · rw [if_pos hb]
    simp only [Option.getD_none, List.not_mem_nil, false_iff]
    intro hx
    have : x ∈ bucketSpec tasks f (formatDateKey date) := by
      unfold bucketSpec
      rw [List.mem_filter]
      refine ⟨hx.1, ?_⟩
      rcases hx.2.2.2 with h | h <;> simp [hx.2.1, hx.2.2.1, h]
    rw [hb] at this
    exact List.not_mem_nil _ this
  · rw [if_neg hb]
    simp only [Option.getD_some]
    unfold bucketSpec
    rw [List.mem_filter]
    simp only [Bool.and_eq_true, Bool.or_eq_true, decide_eq_true_eq]
    tauto

/-- Every drag source of the page passes the team filter. -/
theorem dragSources_team (tza currentDate : Int) (viewMode : String) (tasks : List Task)
    (f : String) (x : Task) (hx : x ∈ dragSources tza currentDate viewMode tasks f) :
    f = "" ∨ x.teamId = some f := by
  unfold dragSources at hx
  rcases List.mem_append.1 hx with h | h
  · obtain ⟨day, _, hd⟩ := List.mem_flatMap.1 h
    have h1 := (List.mem_filter.1 hd).1
    unfold cellChips at h1
    exact ((mem_dayTasks tasks f day.date x).1 (List.mem_of_mem_take h1)).2.2.2
  · unfold unplannedList at h
    have h1 := (List.mem_filter.1 (List.mem_of_mem_take h)).2
    simpa using h1

end MontajTakvim

namespace MontajTakvim

open JSDate Handler

/-- C26 (as stated): in year 10000 the ISO format writes the year with a sign and six digits,
and the first ten characters of it no longer reach the day.  In the grid of January 10000 a
drop of task 7 on the cell of 1 January sends the planned date `+010000-01`; once that is
stored, the task is among the tasks of the cell of 2 January as well. -/
theorem drop_display_year_10000 :
    (⟨newDate 0 10000 0 1, true⟩ : CalendarDay) ∈
      calendarDays 0 (newDate 0 10000 0 15) "month" ∧
    (⟨newDate 0 10000 0 2, true⟩ : CalendarDay) ∈
      calendarDays 0 (newDate 0 10000 0 15) "month" ∧
    newDate 0 10000 0 2 ≠ newDate 0 10000 0 1 ∧
    dropRequest { id := 7 } (newDate 0 10000 0 1) =
      .updateAssemblyTask 7 [("plannedDate", "+010000-01"), ("status", "planned")] ∧
    dayTasks [{ id := 7, plannedDate := some "+010000-01", status := some "planned" }] ""
        (newDate 0 10000 0 2) =
      [{ id := 7, plannedDate := some "+010000-01", status := some "planned" }] := by
  decide

/-- C26 (amended): drop and display agree in the years 0..9999.  A task is dragged from one of
the drag sources of the page and dropped on a cell of the grid; the update `handleDrop` sends
carries the date key of the cell as planned date.  If the re-fetched list holds the task with
that planned date stored as sent, and its team unchanged, then with the same team filter the
task is among the tasks the cell looks up, and it is among the tasks of no cell of the grid
with another date, provided the UTC years of the cells of the grid are in 0..9999. -/
theorem drop_display_agree (tza currentDate : Int) (viewMode teamFilter : String)
    (tasks : List Task) (task : Task) (c : CalendarDay) (tasks' : List Task) (task' : Task)
    (hsrc : task ∈ dragSources tza currentDate viewMode tasks teamFilter)
    (hc : c ∈ calendarDays tza currentDate viewMode)
    (hy : ∀ c' ∈ calendarDays tza currentDate viewMode,
      0 ≤ YearFromTime c'.date ∧ YearFromTime c'.date ≤ 9999)
    (hmem : task' ∈ tasks') (hteam : task'.teamId = task.teamId)
    (hplanned : task'.plannedDate = some (formatDateKey c.date)) :
    dropRequest task c.date =
      .updateAssemblyTask task.id [("plannedDate", formatDateKey c.date), ("status", "planned")] ∧
    task' ∈ dayTasks tasks' teamFilter c.date ∧
    ∀ c' ∈ calendarDays tza currentDate viewMode,
      task' ∈ dayTasks tasks' teamFilter c'.date → c'.date = c.date := by
  have hkey : dateKey task' = formatDateKey c.date := by
    unfold dateKey
    rw [hplanned]
    exact slice10_idem _
  refine ⟨rfl, ?_, ?_⟩
  · rw [mem_dayTasks]
    refine ⟨hmem, ?_, hkey, ?_⟩
    · rw [hplanned]
      simpa [truthy] using formatDateKey_ne_empty c.date
    · rw [hteam]
      exact dragSources_team tza currentDate viewMode tasks teamFilter task hsrc
  · intro c' hc' hin
    have h := ((mem_dayTasks tasks' teamFilter c'.date task').1 hin).2.2.1
    rw [hkey] at h
    exact formatDateKey_cell_inj tza currentDate viewMode c c' hc hc' (hy c hc) (hy c' hc') h.symm

theorem drop_display_agree_witness :
    ({ id := 7, plannedDate := some "2024-03-05", status := some "planned" } : Task) ∈
      dayTasks [{ id := 7, plannedDate := some "2024-03-05", status := some "planned" }] ""
        (newDate 0 2024 2 5) :=
  (drop_display_agree 0 (newDate 0 2024 2 5) "month" "" [{ id := 7 }] { id := 7 }
    ⟨newDate 0 2024 2 5, true⟩
    [{ id := 7, plannedDate := some "2024-03-05", status := some "planned" }]
    { id := 7, plannedDate := some "2024-03-05", status := some "planned" }
    (by decide) (by decide) (by decide) (by decide) rfl (by decide)).2.1

/-- A task without an estimated date is dropped without a confirmation. -/
theorem needsConfirm_no_estimate (parse : String → Option Int) (task : Task) (date : Int)
    (h : truthy task.estimatedDate = false) : needsConfirm parse task date = false := by
  unfold needsConfirm
  cases he : task.estimatedDate with
  | none => rfl
  | some e =>
    rw [he] at h
    simp [h]

end MontajTakvim
